import Mathlib

/-! # HMFS node manager: a shallow embedding of `fs/hmfs/node.c`

The definitions below follow the C functions of `node.c` statement by statement.
Machine integers are mathematical integers that are wrapped explicitly where the
C code stores into a narrower type.  Constants, macros and helpers that live in
the headers (`hmfs.h`, `hmfs_fs.h`, `node.h`) are taken as parameters.
-/

namespace Hmfs

/-! ## Machine integers -/

/-- Value of a C `long` (64-bit two's complement) after storing the integer `x`. -/
def to_long (x : Int) : Int := (x + 9223372036854775808) % 18446744073709551616 - 9223372036854775808

/-- Value of a C `int` (32-bit two's complement) after storing the integer `x`. -/
def to_int (x : Int) : Int := (x + 2147483648) % 4294967296 - 2147483648

/-- Value of a C `unsigned int` (32 bits) after storing the integer `x`. -/
def to_uint (x : Int) : Int := x % 4294967296

/-- The store of a 64-bit value into a `nid_t`, which is 32 bits wide. -/
def to_nid (x : Nat) : Nat := x % 4294967296

/-- Array store `a[i] = v` on an array seen as a function of its index. -/
def arr_set (a : Nat → Int) (i : Nat) (v : Int) : Nat → Int :=
  fun j => if j = i then v else a j

/-! ## Node path computation -/

/-- Layout macros used by `get_node_path` (declared in `hmfs_fs.h` / `node.h`). -/
structure node_layout where
  NORMAL_ADDRS_PER_INODE : Int
  ADDRS_PER_BLOCK : Int
  NIDS_PER_BLOCK : Int
  NODE_DIR1_BLOCK : Int
  NODE_DIR2_BLOCK : Int
  NODE_IND1_BLOCK : Int
  NODE_IND2_BLOCK : Int
  NODE_DIND_BLOCK : Int

/-- Out-parameters and return value of `get_node_path`. -/
structure node_path where
  level : Int
  offset : Nat → Int
  noffset : Nat → Int

/-- Embedding of `get_node_path(long block, int offset[4], unsigned int noffset[4])`.
The arrays are passed in with the caller's contents and returned updated; `none`
is the `BUG()` of the last `else`. -/
def get_node_path (c : node_layout) (block : Int) (offset noffset : Nat → Int) :
    Option node_path :=
  let direct_index := to_long c.NORMAL_ADDRS_PER_INODE
  let direct_blks := to_long c.ADDRS_PER_BLOCK
  let dptrs_per_blk := to_long c.NIDS_PER_BLOCK
  let indirect_blks := to_long (c.ADDRS_PER_BLOCK * c.NIDS_PER_BLOCK)
  let dindirect_blks := to_long (indirect_blks * c.NIDS_PER_BLOCK)
  let noffset := arr_set noffset 0 0
  if block < direct_index then
    some ⟨0, arr_set offset 0 (to_int block), noffset⟩
  else
    -- direct block 1
    let block := to_long (block - direct_index)
    if block < direct_blks then
      let offset := arr_set offset 0 (to_int c.NODE_DIR1_BLOCK)
      let noffset := arr_set noffset 1 1
      let offset := arr_set offset 1 (to_int block)
      some ⟨1, offset, noffset⟩
    else
      -- direct block 2
      let block := to_long (block - direct_blks)
      if block < direct_blks then
        let offset := arr_set offset 0 (to_int c.NODE_DIR2_BLOCK)
        let noffset := arr_set noffset 1 2
        let offset := arr_set offset 1 (to_int block)
        some ⟨1, offset, noffset⟩
      else
        -- indirect block 1
        let block := to_long (block - direct_blks)
        if block < indirect_blks then
          let offset := arr_set offset 0 (to_int c.NODE_IND1_BLOCK)
          let noffset := arr_set noffset 1 3
          let offset := arr_set offset 1 (to_int (block.tdiv direct_blks))
          let noffset := arr_set noffset 2 (to_uint (to_int (4 + offset 1)))
          let offset := arr_set offset 2 (to_int (block.tmod direct_blks))
          some ⟨2, offset, noffset⟩
        else
          -- indirect block 2
          let block := to_long (block - indirect_blks)
          if block < indirect_blks then
            let offset := arr_set offset 0 (to_int c.NODE_IND2_BLOCK)
            let noffset := arr_set noffset 1 (to_uint (to_long (4 + dptrs_per_blk)))
            let offset := arr_set offset 1 (to_int (block.tdiv direct_blks))
            let noffset := arr_set noffset 2
              (to_uint (to_long (5 + dptrs_per_blk + offset 1)))
            let offset := arr_set offset 2 (to_int (block.tmod direct_blks))
            some ⟨2, offset, noffset⟩
          else
            -- double indirect block
            let block := to_long (block - indirect_blks)
            if block < dindirect_blks then
              let offset := arr_set offset 0 (to_int c.NODE_DIND_BLOCK)
              let noffset := arr_set noffset 1 (to_uint (to_long (5 + dptrs_per_blk * 2)))
              let offset := arr_set offset 1 (to_int (block.tdiv indirect_blks))
              let noffset := arr_set noffset 2
                (to_uint (to_long (6 + dptrs_per_blk * 2 + offset 1 * (dptrs_per_blk + 1))))
              let offset := arr_set offset 2
                (to_int ((block.tdiv direct_blks).tmod dptrs_per_blk))
              let noffset := arr_set noffset 3
                (to_uint (to_long (7 + dptrs_per_blk * 2 + offset 1 * (dptrs_per_blk + 1)
                  + offset 2)))
              let offset := arr_set offset 3 (to_int (block.tmod direct_blks))
              some ⟨3, offset, noffset⟩
            else
              none

/-- Number of file blocks addressable through an inode: the end of the last
range of `get_node_path`. -/
def node_layout.max_file_blocks (c : node_layout) : Int :=
  c.NORMAL_ADDRS_PER_INODE + 2 * c.ADDRS_PER_BLOCK
    + 2 * (c.ADDRS_PER_BLOCK * c.NIDS_PER_BLOCK)
    + c.ADDRS_PER_BLOCK * c.NIDS_PER_BLOCK * c.NIDS_PER_BLOCK

/-- The layout macros are positive counts, the whole addressable range fits in a
C `int` (so no intermediate of `get_node_path` wraps, whatever integer type the
macros have), and the five inode slot numbers are distinct `int` values. -/
structure node_layout.fits (c : node_layout) : Prop where
  inode_addrs : 0 ≤ c.NORMAL_ADDRS_PER_INODE
  addrs : 0 < c.ADDRS_PER_BLOCK
  nids : 0 < c.NIDS_PER_BLOCK
  range : c.max_file_blocks ≤ 2147483647
  slots_int : ∀ s ∈ [c.NODE_DIR1_BLOCK, c.NODE_DIR2_BLOCK, c.NODE_IND1_BLOCK,
    c.NODE_IND2_BLOCK, c.NODE_DIND_BLOCK], -2147483648 ≤ s ∧ s ≤ 2147483647
  slots_distinct : [c.NODE_DIR1_BLOCK, c.NODE_DIR2_BLOCK, c.NODE_IND1_BLOCK,
    c.NODE_IND2_BLOCK, c.NODE_DIND_BLOCK].Nodup

/-- First file block of the range reached through inode slot `slot`. -/
def range_base (c : node_layout) (slot : Int) : Int :=
  if slot = c.NODE_DIR1_BLOCK then c.NORMAL_ADDRS_PER_INODE
  else if slot = c.NODE_DIR2_BLOCK then c.NORMAL_ADDRS_PER_INODE + c.ADDRS_PER_BLOCK
  else if slot = c.NODE_IND1_BLOCK then c.NORMAL_ADDRS_PER_INODE + 2 * c.ADDRS_PER_BLOCK
  else if slot = c.NODE_IND2_BLOCK then
    c.NORMAL_ADDRS_PER_INODE + 2 * c.ADDRS_PER_BLOCK + c.ADDRS_PER_BLOCK * c.NIDS_PER_BLOCK
  else
    c.NORMAL_ADDRS_PER_INODE + 2 * c.ADDRS_PER_BLOCK
      + 2 * (c.ADDRS_PER_BLOCK * c.NIDS_PER_BLOCK)

/-- Linear file-block index denoted by a path: at level 0 the inode slot itself,
otherwise the base of the range selected by `offset[0]` plus the mixed-radix
value of `offset[1..level]` (radix `NIDS_PER_BLOCK` for interior digits,
`ADDRS_PER_BLOCK` for the last one). -/
def block_of_path (c : node_layout) (p : node_path) : Int :=
  if p.level = 0 then p.offset 0
  else if p.level = 1 then range_base c (p.offset 0) + p.offset 1
  else if p.level = 2 then
    range_base c (p.offset 0) + p.offset 1 * c.ADDRS_PER_BLOCK + p.offset 2
  else
    range_base c (p.offset 0) + p.offset 1 * (c.ADDRS_PER_BLOCK * c.NIDS_PER_BLOCK)
      + p.offset 2 * c.ADDRS_PER_BLOCK + p.offset 3

/-- Every offset of the path is inside its table: the inode's address table at
level 0, a node's address table for the last offset, a node's nid table for the
interior offsets. -/
def offsets_in_bounds (c : node_layout) (p : node_path) : Prop :=
  (p.level = 0 → 0 ≤ p.offset 0 ∧ p.offset 0 < c.NORMAL_ADDRS_PER_INODE) ∧
  (1 ≤ p.level → 0 ≤ p.offset p.level.toNat ∧ p.offset p.level.toNat < c.ADDRS_PER_BLOCK) ∧
  (∀ i : Nat, 1 ≤ i → (i : Int) < p.level → 0 ≤ p.offset i ∧ p.offset i < c.NIDS_PER_BLOCK)

/-- The literal layout of the end-to-end scenarios: 923 addresses in the inode,
1018 addresses or nids per node, inode slots numbered after the inode
addresses. -/
def scenario_layout : node_layout :=
  { NORMAL_ADDRS_PER_INODE := 923, ADDRS_PER_BLOCK := 1018, NIDS_PER_BLOCK := 1018,
    NODE_DIR1_BLOCK := 924, NODE_DIR2_BLOCK := 925, NODE_IND1_BLOCK := 926,
    NODE_IND2_BLOCK := 927, NODE_DIND_BLOCK := 928 }

/-! ## Node address table: data model -/

/-- Failures that are not error returns: a firing `BUG_ON`/`BUG()`, or a loop
of the model that was given too few iterations. -/
inductive halt where
  | bug
  | out_of_fuel
  deriving DecidableEq, Repr

/-- The errno values of the kernel used in `node.c`. -/
def EPERM : Int := 1
def ENOMEM : Int := 12
def EINVAL : Int := 22
def ENOSPC : Int := 28
def ENODATA : Int := 61

/-- Constants and macros of the headers used by the node manager: the three
sentinel block addresses, the NAT geometry, the free-nid pool size and the
encoding of a pool slot (`make_free_nid` / `get_free_nid`). -/
structure hmfs_consts where
  NULL_ADDR : Nat
  NEW_ADDR : Nat
  FREE_ADDR : Nat
  NAT_ENTRY_PER_BLOCK : Nat
  NUM_NAT_JOURNALS_IN_CP : Nat
  BUILD_FREE_NID_COUNT : Nat
  HMFS_ROOT_INO : Nat
  SUM_TYPE_INODE : Nat
  make_free_nid : Nat → Nat → Nat
  get_free_nid : Nat → Nat

/-- In-memory `struct node_info`. -/
structure node_info where
  ino : Nat
  nid : Nat
  blk_addr : Nat
  version : Nat
  deriving DecidableEq, Repr

/-- On-NVM record `struct hmfs_nat_entry`. -/
structure hmfs_nat_entry where
  ino : Nat
  block_addr : Nat
  version : Nat
  deriving DecidableEq, Repr

/-- One slot of the NAT journal carried in the checkpoint. -/
structure nat_journal where
  nid : Nat
  entry : hmfs_nat_entry
  deriving DecidableEq, Repr

/-- NAT leaf page `struct hmfs_nat_block`. -/
structure hmfs_nat_block where
  entries : Nat → hmfs_nat_entry

/-- Node manager `struct hmfs_nm_info`.  A `struct nat_entry` is identified by
the key under which the radix tree `nat_root` holds it, `nat_root` gives the
`ni` of the entry, and the two intrusive lists are the sequences of entries
from the list head onwards.  `slab_faults` is the state of the slab
`nat_entry_slab`: how many of the coming atomic allocations fail. -/
structure hmfs_nm_info where
  max_nid : Nat
  nat_cnt : Nat
  next_scan_nid : Nat
  fcnt : Nat
  free_nids : List Nat
  nat_root : Nat → Option node_info
  nat_entries : List Nat
  dirty_nat_entries : List Nat
  slab_faults : Nat

/-- Current checkpoint descriptor `struct checkpoint_info`, with the journal and
the scan cursor of the checkpoint record it points to, and the root of the
current NAT tree. -/
structure checkpoint_info where
  store_version : Nat
  valid_node_count : Int
  valid_inode_count : Int
  nat_journals : Nat → nat_journal
  next_scan_nid : Nat
  cur_nat_root : Nat

/-- Footer of a node page. -/
structure node_footer where
  ino : Nat
  nid : Nat
  cp_ver : Nat
  deriving DecidableEq, Repr

/-- Node page `struct hmfs_node`: the words in front of the footer, and the
footer. -/
structure hmfs_node where
  body : Nat → Nat
  footer : node_footer

/-- Page of the NAT area, which the code reads either as an interior node
`struct hmfs_nat_node` (the child addresses `addr[i]`) or as a leaf
`struct hmfs_nat_block` (the records `entries[i]`).  The page carries both
views: copying or zeroing a page acts on both, a store through one view leaves
the other alone. -/
structure nat_page where
  addr : Nat → Nat
  entries : Nat → hmfs_nat_entry

/-- Summary record of a block. -/
structure hmfs_summary where
  nid : Nat
  ofs : Nat
  start_version : Nat
  count : Nat
  aux : Nat
  type : Nat
  deriving DecidableEq, Repr

/-- Filesystem instance `struct hmfs_sb_info` with the state of the external
collaborators the node manager talks to: NVM contents by block address (node
pages and pages of the NAT area), the height of the NAT tree in the super
block, the NAT root of the checkpoint the super block points to, the summary
table, the block allocator (the addresses it hands out, in order, and how many
it has handed out), the blocks reported invalid, the node budget, the orphan
list and the inodes marked dirty. -/
structure hmfs_sb_info where
  nm_info : hmfs_nm_info
  cp_info : checkpoint_info
  nvm : Nat → hmfs_node
  nat_area : Nat → nat_page
  nat_height : Nat
  nat_addr : Nat
  summaries : Nat → hmfs_summary
  node_blocks : Nat → Nat
  node_blocks_used : Nat
  invalid_blocks : List Nat
  node_budget : Int
  orphans : List Nat
  dirty_inodes : List Nat

/-- The fields of `struct inode` / `struct hmfs_inode_info` read here. -/
structure inode where
  i_ino : Nat
  i_blocks : Nat
  no_alloc : Bool
  deriving DecidableEq, Repr

/-- Cursor `struct dnode_of_data`. -/
structure dnode_of_data where
  inode : inode
  inode_block : Option Nat
  node_block : Option Nat
  nid : Nat
  ofs_in_node : Nat
  deriving DecidableEq, Repr

/-! ## External collaborators -/

/-- Modelled from the spec: the macro `ADDR(sbi, block_t) → ptr` of `hmfs.h`.  A
pointer into the NVM address space is represented by the block address it
points at. -/
def ADDR (_sbi : hmfs_sb_info) (addr : Nat) : Nat := addr

/-- Modelled from the spec: the macro `START_NID` of `node.h`,
`start_nid = nid - (nid mod NAT_ENTRY_PER_BLOCK)`. -/
def START_NID (c : hmfs_consts) (nid : Nat) : Nat := nid - nid % c.NAT_ENTRY_PER_BLOCK

/-- Modelled from the spec: `node_info_from_raw_nat` of `node.h`, which decodes
a raw record `(ino, block_addr, version)` into the caller's `node_info`. -/
def node_info_from_raw_nat (ni : node_info) (ne : hmfs_nat_entry) : node_info :=
  { ni with ino := ne.ino, blk_addr := ne.block_addr, version := ne.version }

/-- Search of the journal slots `i, i+1, ...` (`n` of them) for `nid`. -/
def lookup_journal_from (cp : checkpoint_info) (nid : Nat) : Nat → Nat → Int
  | 0, _ => -1
  | n + 1, i => if (cp.nat_journals i).nid = nid then (i : Int)
      else lookup_journal_from cp nid n (i + 1)

/-- Modelled from the spec: `lookup_journal_in_cp(cp_info, NAT_JOURNAL, nid, 0)`
of the checkpoint code, the index of the journal slot holding `nid`, or `-1`. -/
def lookup_journal_in_cp (c : hmfs_consts) (cp : checkpoint_info) (nid : Nat) : Int :=
  lookup_journal_from cp nid c.NUM_NAT_JOURNALS_IN_CP 0

/-- Modelled from the spec: `nat_in_journal(cp_info, i)`, the raw record of
journal slot `i`. -/
def nat_in_journal (cp : checkpoint_info) (i : Int) : hmfs_nat_entry :=
  (cp.nat_journals i.toNat).entry

/-- Modelled from the spec: `get_summary_by_addr`, the summary record of the
block a pointer points into. -/
def get_summary_by_addr (sbi : hmfs_sb_info) (p : Nat) : hmfs_summary := sbi.summaries p

/-- Modelled from the spec: `get_summary_start`, the version stored in a summary
record. -/
def get_summary_start (s : hmfs_summary) : Nat := s.start_version

/-- Modelled from the spec: `make_summary_entry` stamps the summary record of
the block at `p` with its arguments. -/
def make_summary_entry (sbi : hmfs_sb_info) (p nid ofs version count aux type : Nat) :
    hmfs_sb_info :=
  { sbi with summaries := fun q =>
      if q = p then ⟨nid, ofs, version, count, aux, type⟩ else sbi.summaries q }

/-- Modelled from the spec: the external accounting `inc_valid_node_count`
bumps the valid-node counter by `count`, and fails, changing nothing, when the
counter cannot grow (here: beyond the node budget). -/
def inc_valid_node_count (sbi : hmfs_sb_info) (_inode : inode) (count : Int) :
    Bool × hmfs_sb_info :=
  if sbi.cp_info.valid_node_count + count > sbi.node_budget then (false, sbi)
  else (true, { sbi with cp_info :=
    { sbi.cp_info with valid_node_count := sbi.cp_info.valid_node_count + count } })

/-- Modelled from the spec: the external accounting `dec_valid_node_count`
decrements the valid-node counter by `count`. -/
def dec_valid_node_count (sbi : hmfs_sb_info) (_inode : inode) (count : Int) : hmfs_sb_info :=
  { sbi with cp_info :=
    { sbi.cp_info with valid_node_count := sbi.cp_info.valid_node_count - count } }

/-- Modelled from the spec: the external accounting `dec_valid_inode_count`
decrements the valid-inode counter. -/
def dec_valid_inode_count (sbi : hmfs_sb_info) : hmfs_sb_info :=
  { sbi with cp_info :=
    { sbi.cp_info with valid_inode_count := sbi.cp_info.valid_inode_count - 1 } }

/-- Modelled from the spec: the external allocator `get_free_node_block` returns
a fresh NVM block address, the next one of the allocator's sequence. -/
def get_free_node_block (sbi : hmfs_sb_info) : Nat × hmfs_sb_info :=
  (sbi.node_blocks sbi.node_blocks_used,
    { sbi with node_blocks_used := sbi.node_blocks_used + 1 })

/-- Modelled from the spec: the external `invalidate_block` marks a previously
live block reclaimable. -/
def invalidate_block (sbi : hmfs_sb_info) (addr : Nat) : hmfs_sb_info :=
  { sbi with invalid_blocks := addr :: sbi.invalid_blocks }

/-- Modelled from the spec: `remove_orphan_inode` takes the inode off the orphan
list. -/
def remove_orphan_inode (sbi : hmfs_sb_info) (ino : Nat) : hmfs_sb_info :=
  { sbi with orphans := sbi.orphans.filter (fun o => o != ino) }

/-- Modelled from the spec: `mark_inode_dirty` of the VFS records the owning
inode as dirty. -/
def mark_inode_dirty (sbi : hmfs_sb_info) (i : inode) : hmfs_sb_info :=
  { sbi with dirty_inodes := i.i_ino :: sbi.dirty_inodes }

/-! ## NAT cache -/

/-- Embedding of `__lookup_nat_cache`: the radix-tree lookup. -/
def __lookup_nat_cache (nm : hmfs_nm_info) (n : Nat) : Option node_info := nm.nat_root n

/-- Embedding of `get_current_nat_block`, which is a stub (`//TODO`) returning
`NULL` for every nid. -/
def get_current_nat_block (_sbi : hmfs_sb_info) (_nid : Nat) : Option hmfs_nat_block := none

/-- Embedding of `grab_nat_entry`.  Returns the new entry (named by its key) or
`NULL`: when the slab has no memory, or when `radix_tree_insert` refuses the key
because it is taken (the fresh entry is freed again).  On success the zeroed
entry gets its nid, goes to the tail of the clean list and is counted. -/
def grab_nat_entry (nm : hmfs_nm_info) (nid : Nat) : Option Nat × hmfs_nm_info :=
  match nm.slab_faults with
  | k + 1 => (none, { nm with slab_faults := k })
  | 0 =>
    match nm.nat_root nid with
    | some _ => (none, nm)
    | none =>
      (some nid,
        { nm with
          nat_root := fun k => if k = nid then some ⟨0, nid, 0, 0⟩ else nm.nat_root k
          nat_entries := nm.nat_entries ++ [nid]
          nat_cnt := nm.nat_cnt + 1 })

/-- The `retry:` loop shared by `update_nat_entry` and `_cache_nat_entry`: look
the entry up, grab a new one on a miss, start over when the grab returns `NULL`.
The first argument bounds the number of rounds. -/
def nat_entry_retry : Nat → hmfs_nm_info → Nat → hmfs_nm_info
  | 0, nm, _ => nm
  | fuel + 1, nm, nid =>
    match __lookup_nat_cache nm nid with
    | some _ => nm
    | none =>
      match grab_nat_entry nm nid with
      | (some _, nm1) => nm1
      | (none, nm1) => nat_entry_retry fuel nm1 nid

/-- The nid stored in the entry named `k` (`le->ni.nid`). -/
def entry_nid (nm : hmfs_nm_info) (k : Nat) : Nat :=
  match nm.nat_root k with
  | some ni => ni.nid
  | none => 0

/-- Kernel `list_del(&e->list)` on one list: the entry leaves the list. -/
def list_del (l : List Nat) (e : Nat) : List Nat := l.erase e

/-- The `list_for_each_entry` loop of `update_nat_entry` followed by
`list_add(&e->list, &le->list)` when the loop left through `break`: the entry
`e` is put right behind the first `le` with `e->ni.nid > le->ni.nid`.  `none`
when the loop ran to the end of the list (then `le` is the list head). -/
def dirty_scan (nm : hmfs_nm_info) (e : Nat) : List Nat → Option (List Nat)
  | [] => none
  | le :: rest =>
    if entry_nid nm e > entry_nid nm le then some (le :: e :: rest)
    else (dirty_scan nm e rest).map (fun l => le :: l)

/-- Insertion of `e` into the dirty list `d` as `update_nat_entry` does it after
the `list_del`.  With an empty list `le` is the list head itself, and both
`list_add_tail(e, head)` and the empty loop followed by `list_add(e, head)`
give the one-element list, whichever way the comparison goes.  Otherwise `le`
is the first entry: `e` goes in front of it when its nid is smaller, else the
scan decides, and `list_add(e, head)` puts `e` first when the scan ran out. -/
def dirty_list_add (nm : hmfs_nm_info) (e : Nat) : List Nat → List Nat
  | [] => [e]
  | le :: rest =>
    if entry_nid nm e < entry_nid nm le then e :: le :: rest
    else (dirty_scan nm e (le :: rest)).getD (e :: le :: rest)

/-- Embedding of `update_nat_entry`.  The retry loop is run for one more round
than the slab has pending failures, which always ends it with an entry. -/
def update_nat_entry (nm : hmfs_nm_info) (nid ino blk_addr version : Nat) (dirty : Bool) :
    hmfs_nm_info :=
  let nm := nat_entry_retry (nm.slab_faults + 1) nm nid
  match __lookup_nat_cache nm nid with
  | none => nm
  | some e =>
    let e : node_info := { e with ino := ino, nid := nid, blk_addr := blk_addr,
                                  version := version }
    let nm := { nm with nat_root := fun k => if k = nid then some e else nm.nat_root k }
    if dirty then
      { nm with
        nat_entries := list_del nm.nat_entries nid
        dirty_nat_entries := dirty_list_add nm nid (list_del nm.dirty_nat_entries nid) }
    else nm

/-- Embedding of `_cache_nat_entry`: as `update_nat_entry`, but the stored nid
and the lists are left alone. -/
def _cache_nat_entry (nm : hmfs_nm_info) (nid ino blk_addr version : Nat) : hmfs_nm_info :=
  let nm := nat_entry_retry (nm.slab_faults + 1) nm nid
  match __lookup_nat_cache nm nid with
  | none => nm
  | some e =>
    let e : node_info := { e with ino := ino, blk_addr := blk_addr, version := version }
    { nm with nat_root := fun k => if k = nid then some e else nm.nat_root k }

/-! ## Node lookup and allocation -/

/-- Embedding of `get_node_info`: the error code and the caller's `ni` after the
call.  A cache hit copies `ino`, `blk_addr` and `version`; a journal hit decodes
the journal record; otherwise the current NAT block decides, and without one the
call fails with `-ENODATA` leaving `ni` untouched. -/
def get_node_info (c : hmfs_consts) (sbi : hmfs_sb_info) (nid : Nat) (ni : node_info) :
    Int × node_info :=
  let start_nid := START_NID c nid
  match __lookup_nat_cache sbi.nm_info nid with
  | some e => (0, { ni with ino := e.ino, blk_addr := e.blk_addr, version := e.version })
  | none =>
    let i := lookup_journal_in_cp c sbi.cp_info nid
    if i ≥ 0 then
      (0, node_info_from_raw_nat ni (nat_in_journal sbi.cp_info i))
    else
      match get_current_nat_block sbi start_nid with
      | none => (-ENODATA, ni)
      | some nat_block => (0, node_info_from_raw_nat ni (nat_block.entries (nid - start_nid)))

/-- Embedding of `get_node`: an `ERR_PTR` or the pointer to the node.  `ni` is
the content of the uninitialised local. -/
def get_node (c : hmfs_consts) (sbi : hmfs_sb_info) (nid : Nat) (ni : node_info) :
    Except Int Nat :=
  let r := get_node_info c sbi nid ni
  if r.1 ≠ 0 then .error r.1
  else if r.2.blk_addr = c.NULL_ADDR then .error (-ENODATA)
  else if r.2.blk_addr = c.NEW_ADDR ∨ r.2.blk_addr = c.FREE_ADDR then .error (-EINVAL)
  else .ok (ADDR sbi r.2.blk_addr)

/-- Embedding of `get_new_node`: an `ERR_PTR` or the pointer to the writable
node, and the state afterwards. -/
def get_new_node (c : hmfs_consts) (sbi : hmfs_sb_info) (nid : Nat) (inode : inode)
    (ni : node_info) : Except Int Nat × hmfs_sb_info :=
  let src := get_node c sbi nid ni
  let wandered : Option Nat :=
    match src with
    | .ok p =>
      if get_summary_start (get_summary_by_addr sbi p) = sbi.cp_info.store_version then some p
      else none
    | .error _ => none
  match wandered with
  | some p => (.ok p, sbi)
  | none =>
    let r := inc_valid_node_count sbi inode 1
    if !r.1 then (.error (-ENOSPC), r.2)
    else if inode.no_alloc then (.error (-EPERM), r.2)
    else
      let a := get_free_node_block r.2
      let block := a.1
      let sbi1 := a.2
      let dest := ADDR sbi1 block
      let page : hmfs_node :=
        match src with
        | .ok p => sbi1.nvm p
        | .error _ => ⟨fun _ => 0, ⟨inode.i_ino, nid, sbi1.cp_info.store_version⟩⟩
      let sbi2 := { sbi1 with nvm := fun q => if q = dest then page else sbi1.nvm q }
      let sbi3 := make_summary_entry sbi2 dest inode.i_ino 0 sbi2.cp_info.store_version 1 0
        c.SUM_TYPE_INODE
      let nm := update_nat_entry sbi3.nm_info nid inode.i_ino block
        sbi3.cp_info.store_version true
      (.ok dest, { sbi3 with nm_info := nm })

/-- Embedding of `truncate_node`: the state and the cursor afterwards, or the
firing of one of the two `BUG_ON`s.  `ni` is the content of the uninitialised
local, which `get_node_info` leaves as it is when it fails. -/
def truncate_node (c : hmfs_consts) (sbi : hmfs_sb_info) (dn : dnode_of_data)
    (ni : node_info) : Except halt (hmfs_sb_info × dnode_of_data) :=
  let ni := (get_node_info c sbi dn.nid ni).2
  if dn.inode.i_blocks = 0 then
    if ni.blk_addr ≠ c.NULL_ADDR then .error .bug
    else .ok (sbi, { dn with node_block := none })
  else if ni.blk_addr = c.NULL_ADDR then .error .bug
  else
    let sbi1 := invalidate_block sbi ni.blk_addr
    let sbi2 := dec_valid_node_count sbi1 dn.inode 1
    let nm := update_nat_entry sbi2.nm_info dn.nid dn.inode.i_ino c.NULL_ADDR
      sbi2.cp_info.store_version true
    let sbi3 := { sbi2 with nm_info := nm }
    let sbi4 :=
      if dn.nid = dn.inode.i_ino then dec_valid_inode_count (remove_orphan_inode sbi3 dn.nid)
      else mark_inode_dirty sbi3 dn.inode
    .ok (sbi4, { dn with node_block := none })

/-! ## Free-nid pool -/

/-- Embedding of `alloc_nid_failed`: the nid goes back on top of the pool with
the free bit set. -/
def alloc_nid_failed (c : hmfs_consts) (sbi : hmfs_sb_info) (nid : Nat) : hmfs_sb_info :=
  { sbi with nm_info :=
    { sbi.nm_info with
      free_nids := sbi.nm_info.free_nids.set sbi.nm_info.fcnt (c.make_free_nid nid 1)
      fcnt := sbi.nm_info.fcnt + 1 } }

/-- Embedding of `add_free_nid`: slot `*pos` of the pool receives the nid. -/
def add_free_nid (c : hmfs_consts) (nm : hmfs_nm_info) (nid free : Nat) (pos : Int) :
    hmfs_nm_info :=
  { nm with free_nids := nm.free_nids.set pos.toNat (c.make_free_nid nid free) }

/-- The `for` loop of `recycle_nat_journals` from journal slot `i` on, with `n`
slots left to visit. -/
def recycle_nat_journals_loop (c : hmfs_consts) :
    Nat → Nat → hmfs_sb_info → Int → hmfs_sb_info × Int
  | 0, _, sbi, pos => (sbi, pos)
  | n + 1, i, sbi, pos =>
    if pos ≥ 0 then
      let nid := to_nid (sbi.cp_info.nat_journals i).nid
      let blk_addr := (sbi.cp_info.nat_journals i).entry.block_addr
      if blk_addr = c.FREE_ADDR ∧ nid > c.HMFS_ROOT_INO then
        let cp1 := { sbi.cp_info with nat_journals := fun j =>
          if j = i then { (sbi.cp_info.nat_journals i) with nid := 0 }
          else sbi.cp_info.nat_journals j }
        let sbi1 := { sbi with cp_info := cp1, nm_info := add_free_nid c sbi.nm_info nid 1 pos }
        recycle_nat_journals_loop c n (i + 1) sbi1 (pos - 1)
      else recycle_nat_journals_loop c n (i + 1) sbi pos
    else (sbi, pos)

/-- Embedding of `recycle_nat_journals`: the state and `*pos` afterwards. -/
def recycle_nat_journals (c : hmfs_consts) (sbi : hmfs_sb_info) (pos : Int) :
    hmfs_sb_info × Int :=
  recycle_nat_journals_loop c c.NUM_NAT_JOURNALS_IN_CP 0 sbi pos

/-- The `for` loop of `scan_nat_block` at index `i`, with `n` indices left below
`NAT_ENTRY_PER_BLOCK`: the pool, `start_nid` and `*pos` when the loop ends. -/
def scan_nat_block_loop (c : hmfs_consts) (nat_blk : Option hmfs_nat_block) :
    Nat → Nat → hmfs_nm_info → Nat → Int → hmfs_nm_info × Nat × Int
  | 0, _, nm, start_nid, pos => (nm, start_nid, pos)
  | n + 1, i, nm, start_nid, pos =>
    if pos ≥ 0 then
      if start_nid > nm.max_nid then (nm, start_nid, pos)
      else
        match nat_blk with
        | some blk =>
          if (blk.entries i).block_addr = c.FREE_ADDR then
            scan_nat_block_loop c nat_blk n (i + 1) (add_free_nid c nm start_nid 0 pos)
              (start_nid + 1) (pos - 1)
          else scan_nat_block_loop c nat_blk n (i + 1) nm (start_nid + 1) pos
        | none =>
          scan_nat_block_loop c nat_blk n (i + 1) (add_free_nid c nm start_nid 0 pos)
            (start_nid + 1) (pos - 1)
    else (nm, start_nid, pos)

/-- Embedding of `scan_nat_block`: the pool, the returned nid and `*pos`. -/
def scan_nat_block (c : hmfs_consts) (nm : hmfs_nm_info) (nat_blk : Option hmfs_nat_block)
    (start_nid : Nat) (pos : Int) : hmfs_nm_info × Nat × Int :=
  let i := start_nid % c.NAT_ENTRY_PER_BLOCK
  scan_nat_block_loop c nat_blk (c.NAT_ENTRY_PER_BLOCK - i) i nm start_nid pos

/-- The `while` loop of `build_free_nids`; the first argument bounds the number
of rounds, `none` when it is used up with the loop still running. -/
def build_free_nids_loop (c : hmfs_consts) :
    Nat → hmfs_sb_info → Nat → Int → Option (hmfs_sb_info × Nat × Int)
  | 0, sbi, nid, pos =>
    if pos ≥ 0 ∧ nid < sbi.nm_info.max_nid then none else some (sbi, nid, pos)
  | fuel + 1, sbi, nid, pos =>
    if pos ≥ 0 ∧ nid < sbi.nm_info.max_nid then
      let nat_block := get_current_nat_block sbi nid
      let r := scan_nat_block c sbi.nm_info nat_block nid pos
      build_free_nids_loop c fuel { sbi with nm_info := r.1 } r.2.1 r.2.2
    else some (sbi, nid, pos)

/-- Embedding of `build_free_nids`: the number of nids found and the state
afterwards.  Every round of the scan moves the cursor forward, so
`max_nid - next_scan_nid` rounds are enough. -/
def build_free_nids (c : hmfs_consts) (sbi : hmfs_sb_info) :
    Except halt (Int × hmfs_sb_info) :=
  let nid := sbi.nm_info.next_scan_nid
  let pos : Int := (c.BUILD_FREE_NID_COUNT : Int) - 1
  if sbi.nm_info.fcnt ≥ c.BUILD_FREE_NID_COUNT then .ok ((sbi.nm_info.fcnt : Int), sbi)
  else if sbi.nm_info.fcnt ≠ 0 then .error .bug
  else
    let r := recycle_nat_journals c sbi pos
    match build_free_nids_loop c (r.1.nm_info.max_nid - nid) r.1 nid r.2 with
    | none => .error .out_of_fuel
    | some (sbi1, nid1, pos1) =>
      .ok ((c.BUILD_FREE_NID_COUNT : Int) - 1 - pos1,
        { sbi1 with nm_info := { sbi1.nm_info with next_scan_nid := nid1 } })

/-- Embedding of `alloc_nid`: the returned boolean, `*nid` and the state
afterwards.  The first argument bounds the number of passes through `retry:`. -/
def alloc_nid (c : hmfs_consts) :
    Nat → hmfs_sb_info → Nat → Except halt (Bool × Nat × hmfs_sb_info)
  | 0, _, _ => .error .out_of_fuel
  | fuel + 1, sbi, nid =>
    if sbi.cp_info.valid_node_count + 1 ≥ (sbi.nm_info.max_nid : Int) then
      .ok (false, nid, sbi)
    else if sbi.nm_info.fcnt > 0 then
      .ok (true, c.get_free_nid (sbi.nm_info.free_nids.getD (sbi.nm_info.fcnt - 1) 0),
        { sbi with nm_info := { sbi.nm_info with fcnt := sbi.nm_info.fcnt - 1 } })
    else
      match build_free_nids c sbi with
      | .error h => .error h
      | .ok (num, sbi1) =>
        alloc_nid c fuel
          { sbi1 with nm_info := { sbi1.nm_info with fcnt := num.toNat } } nid

/-! ## Node manager set-up -/

/-- Constants of the headers for the NAT tree: the fan-out of an interior node
and its logarithm, the logarithm used to turn a nid into a block order, the
height from which `max_nid` is computed, and the number of `struct free_nid`
slots in the two pages of the free-nid pool. -/
structure nat_tree_consts where
  LOG2_NAT_ADDRS_PER_NODE : Nat
  NAT_ADDR_PER_NODE : Nat
  LOG2_NAT_ENTRY_PER_BLOCK : Nat
  NAT_TREE_MAX_HEIGHT : Nat
  FREE_NID_SLOTS : Nat

/-- The `while (++height < NAT_TREE_MAX_HEIGHT) nid *= NAT_ADDR_PER_NODE` loop of
`hmfs_max_nid` with `k` rounds to go, on the 32-bit `nid_t`. -/
def hmfs_max_nid_loop (t : nat_tree_consts) : Nat → Nat → Nat
  | 0, nid => nid
  | k + 1, nid => hmfs_max_nid_loop t k ((nid * t.NAT_ADDR_PER_NODE) % 4294967296)

/-- Embedding of `hmfs_max_nid`. -/
def hmfs_max_nid (c : hmfs_consts) (t : nat_tree_consts) : Nat :=
  (hmfs_max_nid_loop t (t.NAT_TREE_MAX_HEIGHT - 1) 1 * c.NAT_ENTRY_PER_BLOCK) % 4294967296

/-- Embedding of `init_node_manager`: the error code and the state.  `pool_ok`
tells whether the `kzalloc` of the pool succeeds; the counter `fcnt` is not
touched (`build_node_manager` hands in a zeroed `hmfs_nm_info`). -/
def init_node_manager (c : hmfs_consts) (t : nat_tree_consts) (pool_ok : Bool)
    (sbi : hmfs_sb_info) : Int × hmfs_sb_info :=
  let nm1 := { sbi.nm_info with
    max_nid := hmfs_max_nid c t
    nat_cnt := 0
    free_nids := if pool_ok then List.replicate t.FREE_NID_SLOTS 0 else []
    next_scan_nid := sbi.cp_info.next_scan_nid }
  if !pool_ok then (-ENOMEM, { sbi with nm_info := nm1 })
  else
    (0, { sbi with nm_info :=
      { nm1 with nat_entries := [], dirty_nat_entries := [], nat_root := fun _ => none } })

/-! ## NAT tree on NVM -/

/-- The zeroed page. -/
def zero_page : nat_page := ⟨fun _ => 0, fun _ => ⟨0, 0, 0⟩⟩

/-- Embedding of `get_child_nat_addr`: the out-parameters `*next_node` and
`*new_order` after the call, given their content before it (a `NULL` node
leaves `*new_order` alone).  `_ofs` is a `u16`; the function is called with
`height >= 1` only. -/
def get_child_nat_addr (t : nat_tree_consts) (sbi : hmfs_sb_info)
    (cur_node order _next_node new_order height : Nat) : Nat × Nat :=
  if cur_node = 0 then (0, new_order)
  else
    let _ofs := ((height - 1) * t.LOG2_NAT_ADDRS_PER_NODE) % 65536
    ((sbi.nat_area cur_node).addr (order >>> _ofs), order &&& ((1 <<< _ofs) - 1))

/-- Embedding of `__get_nat_page`, by recursion on `height`: the pointer to the
leaf, or 0 for `NULL`. -/
def __get_nat_page (t : nat_tree_consts) (sbi : hmfs_sb_info) : Nat → Nat → Nat → Nat
  | 0, cur_node_addr, _ => if cur_node_addr = 0 then 0 else ADDR sbi cur_node_addr
  | height + 1, cur_node_addr, order =>
    if cur_node_addr = 0 then 0
    else
      let cur_node := ADDR sbi cur_node_addr
      let r := get_child_nat_addr t sbi cur_node order 0 0 (height + 1)
      __get_nat_page t sbi height r.1 r.2

/-- Embedding of `get_nat_page`; the nid parameter is a `u32`. -/
def get_nat_page (t : nat_tree_consts) (sbi : hmfs_sb_info) (nid : Nat) : Nat :=
  let blk_order := (nid % 4294967296) >>> t.LOG2_NAT_ENTRY_PER_BLOCK
  __get_nat_page t sbi sbi.nat_height sbi.cp_info.cur_nat_root blk_order

/-- Embedding of `get_nat_page_by_order`. -/
def get_nat_page_by_order (t : nat_tree_consts) (sbi : hmfs_sb_info) (blk_order : Nat) : Nat :=
  __get_nat_page t sbi sbi.nat_height sbi.cp_info.cur_nat_root blk_order

/-- Store of a whole page of the NAT area. -/
def nat_page_store (sbi : hmfs_sb_info) (a : Nat) (p : nat_page) : hmfs_sb_info :=
  { sbi with nat_area := fun q => if q = a then p else sbi.nat_area q }

/-- Store `node->addr[i] = v` into the interior node at `a`. -/
def nat_addr_store (sbi : hmfs_sb_info) (a i v : Nat) : hmfs_sb_info :=
  nat_page_store sbi a
    { (sbi.nat_area a) with addr := fun j => if j = i then v else (sbi.nat_area a).addr j }

/-- The first half of `recursive_flush_nat_pages` at `height > 0`: the node the
flush goes on with (`cur_stored_node`), its address when it was allocated here
(`cur_stored_addr`, else 0), the state and `*alloc_cnt`.  A missing working
node gets a zeroed block, a working node that is still the old node gets a
copy of it, any other working node is kept. -/
def flush_stored_node (sbi : hmfs_sb_info) (old_nat_node cur_nat_node alloc_cnt : Nat) :
    Nat × Nat × hmfs_sb_info × Nat :=
  if cur_nat_node = 0 then
    let a := get_free_node_block sbi
    (ADDR a.2 a.1, a.1, nat_page_store a.2 (ADDR a.2 a.1) zero_page, (alloc_cnt + 1) % 65536)
  else if old_nat_node = cur_nat_node then
    let a := get_free_node_block sbi
    (ADDR a.2 a.1, a.1, nat_page_store a.2 (ADDR a.2 a.1) (a.2.nat_area old_nat_node),
      (alloc_cnt + 1) % 65536)
  else (cur_nat_node, 0, sbi, alloc_cnt)

/-- Embedding of `recursive_flush_nat_pages`, by recursion on `height`: the
returned block address (0 for `NULL`), the state and `*alloc_cnt` (an
`unsigned short`).  Arguments after the height: the state, `old_nat_node`,
`cur_nat_node`, `blk_order`, the leaf image and `*alloc_cnt`. -/
def recursive_flush_nat_pages (t : nat_tree_consts) :
    Nat → hmfs_sb_info → Nat → Nat → Nat → nat_page → Nat → Nat × hmfs_sb_info × Nat
  | 0, sbi, _, _, _, nat_entry_page, alloc_cnt =>
    let a := get_free_node_block sbi
    (a.1, nat_page_store a.2 (ADDR a.2 a.1) nat_entry_page, (alloc_cnt + 1) % 65536)
  | height + 1, sbi, old_nat_node, cur_nat_node, blk_order, nat_entry_page, alloc_cnt =>
    let s := flush_stored_node sbi old_nat_node cur_nat_node alloc_cnt
    let cur_stored_node := s.1
    let cur_stored_addr := s.2.1
    let sbi1 := s.2.2.1
    -- go to child
    let oc := get_child_nat_addr t sbi1 old_nat_node blk_order 0 0 (height + 1)
    let old_child_node := if oc.1 ≠ 0 then ADDR sbi1 oc.1 else oc.1
    let cc := get_child_nat_addr t sbi1 cur_stored_node blk_order 0 oc.2 (height + 1)
    let cur_child_node := if cc.1 ≠ 0 then ADDR sbi1 cc.1 else cc.1
    let r := recursive_flush_nat_pages t height sbi1 old_child_node cur_child_node cc.2
      nat_entry_page s.2.2.2
    let sbi2 :=
      if r.1 ≠ 0 then
        nat_addr_store r.2.1 cur_stored_node
          (blk_order >>> (height * t.LOG2_NAT_ADDRS_PER_NODE)) r.1
      else r.2.1
    (cur_stored_addr, sbi2, r.2.2)

/-! ## Checkpoint flush driver -/

/-- Modelled from the spec: `node_info_to_raw_nat` of `node.h`, which encodes a
`node_info` as the raw record `(ino, block_addr, version)`. -/
def node_info_to_raw_nat (ni : node_info) : hmfs_nat_entry := ⟨ni.ino, ni.blk_addr, ni.version⟩

/-- The `ni` of the entry named `k` (`ne->ni`). -/
def entry_ni (nm : hmfs_nm_info) (k : Nat) : node_info :=
  match nm.nat_root k with
  | some ni => ni
  | none => ⟨0, 0, 0, 0⟩

/-- Locals of `do_flush_nat_page_test` during the walk over the dirty list, with
the log of the calls of `recursive_flush_nat_pages` made so far (block order
and leaf image of each call). -/
structure flush_state where
  sbi : hmfs_sb_info
  new_root_node : Nat
  old_blk_order : Nat
  new_entry_block : nat_page
  alloc_cnt : Nat
  flushed : List (Nat × nat_page)

/-- One round of the `list_for_each_entry_from` loop of `do_flush_nat_page_test`
for the dirty entry `ne`.  A change of block order flushes the image built so
far and loads the leaf of the new block order (a `NULL` leaf makes the `memcpy`
fault); otherwise the entry is written into the image at index
`nid % LOG2_NAT_ENTRY_PER_BLOCK`. -/
def flush_dirty_entry (t : nat_tree_consts) (old_root_node : Nat) (st : flush_state)
    (ne : Nat) : Except halt flush_state :=
  let ni := entry_ni st.sbi.nm_info ne
  let new_blk_order := ni.nid >>> t.LOG2_NAT_ENTRY_PER_BLOCK
  if new_blk_order ≠ st.old_blk_order then
    -- one page done, flush it
    let r := recursive_flush_nat_pages t st.sbi.nat_height st.sbi old_root_node
      st.new_root_node st.old_blk_order st.new_entry_block st.alloc_cnt
    let new_root_node := if r.1 ≠ 0 then ADDR r.2.1 r.1 else st.new_root_node
    let old_entry_block := get_nat_page_by_order t r.2.1 new_blk_order
    if old_entry_block = 0 then .error .bug
    else
      .ok { sbi := r.2.1, new_root_node := new_root_node, old_blk_order := new_blk_order,
            new_entry_block := r.2.1.nat_area old_entry_block, alloc_cnt := r.2.2,
            flushed := st.flushed ++ [(st.old_blk_order, st.new_entry_block)] }
  else
    -- add a entry to a page
    let _ofs := ni.nid % t.LOG2_NAT_ENTRY_PER_BLOCK
    .ok { st with new_entry_block :=
      { st.new_entry_block with entries := fun i =>
          if i = _ofs then node_info_to_raw_nat ni else st.new_entry_block.entries i } }

/-- The `list_for_each_entry_from` loop of `do_flush_nat_page_test` over the
dirty entries still to visit. -/
def flush_dirty_loop (t : nat_tree_consts) (old_root_node : Nat) :
    List Nat → flush_state → Except halt flush_state
  | [], st => .ok st
  | ne :: rest, st =>
    match flush_dirty_entry t old_root_node st ne with
    | .error h => .error h
    | .ok st1 => flush_dirty_loop t old_root_node rest st1

/-- Embedding of `do_flush_nat_page_test`: the return value and the locals at
the end, or the fault of a `memcpy` from a `NULL` leaf (reported as
`halt.bug`).  `page_ok` tells whether `alloc_page` succeeds; `head_nid` is the
word read as `ne->ni.nid` when the dirty list is empty and `ne` is the list
head itself. -/
def do_flush_nat_page_test (t : nat_tree_consts) (page_ok : Bool) (head_nid : Nat)
    (sbi : hmfs_sb_info) : Except halt (Int × flush_state) :=
  let old_root_node := ADDR sbi sbi.nat_addr
  if !page_ok then
    .ok (-ENOMEM, ⟨sbi, old_root_node, 0, zero_page, 0, []⟩)
  else
    -- init first page
    let nid :=
      match sbi.nm_info.dirty_nat_entries with
      | [] => head_nid
      | ne :: _ => (entry_ni sbi.nm_info ne).nid
    let old_blk_order := nid >>> t.LOG2_NAT_ENTRY_PER_BLOCK
    let old_entry_block := get_nat_page t sbi nid
    if old_entry_block = 0 then .error .bug
    else
      match flush_dirty_loop t old_root_node sbi.nm_info.dirty_nat_entries
          ⟨sbi, old_root_node, old_blk_order, sbi.nat_area old_entry_block, 0, []⟩ with
      | .error h => .error h
      | .ok st => .ok (0, st)

/-! ## The NAT tree as a function of memory -/

/-- The fan-out is the power of two the shifts assume, and the shift counts of
a tree of height `H` stay below the width of `int`. -/
def nat_tree_consts.fits (t : nat_tree_consts) (H : Nat) : Prop :=
  t.NAT_ADDR_PER_NODE = 2 ^ t.LOG2_NAT_ADDRS_PER_NODE ∧ H * t.LOG2_NAT_ADDRS_PER_NODE ≤ 31

/-- Child address in slot `i` of the node at `a`, 0 for a `NULL` node. -/
def nat_child (mem : Nat → nat_page) (a i : Nat) : Nat :=
  if a = 0 then 0 else (mem a).addr i

/-- Memory after the store of the page `p` at `a`. -/
def mem_set (mem : Nat → nat_page) (a : Nat) (p : nat_page) : Nat → nat_page :=
  fun q => if q = a then p else mem q

/-- Memory after the store `node->addr[i] = v` into the node at `a`. -/
def mem_set_addr (mem : Nat → nat_page) (a i v : Nat) : Nat → nat_page :=
  mem_set mem a { (mem a) with addr := fun j => if j = i then v else (mem a).addr j }

/-- The read path of `__get_nat_page` on a memory, with fan-out `N`: at height
`h + 1` the slot is `order / N ^ h` and the order passed down is
`order % N ^ h`. -/
def nat_read (N : Nat) (mem : Nat → nat_page) : Nat → Nat → Nat → Nat
  | 0, root, _ => root
  | h + 1, root, order =>
    if root = 0 then 0 else nat_read N mem h ((mem root).addr (order / N ^ h)) (order % N ^ h)

/-- Whether `a` is the address of a node of the tree of height `h` below `root`
(slots `0 .. N - 1` of every interior node). -/
def nat_reach (N : Nat) (mem : Nat → nat_page) : Nat → Nat → Nat → Bool
  | 0, root, a => root != 0 && a == root
  | h + 1, root, a =>
    root != 0 &&
      (a == root || (List.range N).any (fun i => nat_reach N mem h ((mem root).addr i) a))

/-- Whether the flush allocates at an interior level: the working node is
`NULL` or still the old node. -/
def flush_allocs (old cur : Nat) : Prop := cur = 0 ∨ old = cur

instance (old cur : Nat) : Decidable (flush_allocs old cur) := by
  unfold flush_allocs; exact inferInstance

/-- The node an interior level of the flush goes on with. -/
def flush_node (blk : Nat → Nat) (used old cur : Nat) : Nat :=
  if flush_allocs old cur then blk used else cur

/-- The memory after the allocation step of an interior level of the flush: a
new node is zeroed when there was no working node, and a copy of the old node
when the working node was still the old one. -/
def flush_node_mem (blk : Nat → Nat) (mem : Nat → nat_page) (used old cur : Nat) :
    Nat → nat_page :=
  if cur = 0 then mem_set mem (blk used) zero_page
  else if old = cur then mem_set mem (blk used) (mem old)
  else mem

/-- The allocator counter after the allocation step of an interior level. -/
def flush_node_used (used old cur : Nat) : Nat :=
  if flush_allocs old cur then used + 1 else used

/-- The write path of `recursive_flush_nat_pages` on a memory and an allocator
(`blk` lists the blocks it hands out, `used` counts them): the returned
address, the memory and the counter.  Arguments after the height: memory,
counter, old node, working node, block order, leaf image. -/
def flush_mem (N : Nat) (blk : Nat → Nat) :
    Nat → (Nat → nat_page) → Nat → Nat → Nat → Nat → nat_page →
      Nat × (Nat → nat_page) × Nat
  | 0, mem, used, _, _, _, page => (blk used, mem_set mem (blk used) page, used + 1)
  | h + 1, mem, used, old, cur, order, page =>
    let node := flush_node blk used old cur
    let mem1 := flush_node_mem blk mem used old cur
    let r := flush_mem N blk h mem1 (flush_node_used used old cur)
      (nat_child mem1 old (order / N ^ h)) (nat_child mem1 node (order / N ^ h))
      (order % N ^ h) page
    (if flush_allocs old cur then blk used else 0,
      if r.1 ≠ 0 then mem_set_addr r.2.1 node (order / N ^ h) r.1 else r.2.1, r.2.2)

/-- Number of interior levels at which a flush allocates: from the first level
on the path whose working node is `NULL` or still the old node, every level
down to height 1. -/
def levels_to_copy (N : Nat) (mem : Nat → nat_page) : Nat → Nat → Nat → Nat → Nat
  | 0, _, _, _ => 0
  | h + 1, old, cur, order =>
    if flush_allocs old cur then h + 1
    else levels_to_copy N mem h (nat_child mem old (order / N ^ h))
      (nat_child mem cur (order / N ^ h)) (order % N ^ h)

/-- Number of interior nodes that the paths of the block orders `p` and `q`
share in a tree of height `h`. -/
def shared_levels (N : Nat) : Nat → Nat → Nat → Nat
  | 0, _, _ => 0
  | h + 1, p, q =>
    if p / N ^ h = q / N ^ h then 1 + shared_levels N h (p % N ^ h) (q % N ^ h) else 1

/-- A run of flushes of one checkpoint with the working root threaded as
`do_flush_nat_page_test` does: a returned address replaces the working root, a
`NULL` return keeps it.  The state is the instance, the working root and
`alloc_cnt`. -/
def flush_seq (t : nat_tree_consts) (H old_root : Nat) :
    List (Nat × nat_page) → hmfs_sb_info × Nat × Nat → hmfs_sb_info × Nat × Nat
  | [], st => st
  | x :: rest, st =>
    let r := recursive_flush_nat_pages t H st.1 old_root st.2.1 x.1 x.2 st.2.2
    flush_seq t H old_root rest (r.2.1, if r.1 ≠ 0 then ADDR r.2.1 r.1 else st.2.1, r.2.2)

/-- The next `n` blocks of the allocator are fresh for the tree of height `H`
below `old_root`: not `NULL`, pairwise different, and none of them a node of
that tree. -/
def alloc_fresh (N : Nat) (sbi : hmfs_sb_info) (H old_root n : Nat) : Bool :=
  (List.range n).all fun k =>
    sbi.node_blocks (sbi.node_blocks_used + k) != 0 &&
    !(nat_reach N sbi.nat_area H old_root (sbi.node_blocks (sbi.node_blocks_used + k))) &&
    (List.range k).all fun j =>
      sbi.node_blocks (sbi.node_blocks_used + j) != sbi.node_blocks (sbi.node_blocks_used + k)

/-- A journal slot that `recycle_nat_journals` takes: a `FREE_ADDR` record of a
nid that, read into a `nid_t`, is above `HMFS_ROOT_INO`. -/
def recyclable (c : hmfs_consts) (sbi : hmfs_sb_info) (i : Nat) : Prop :=
  (sbi.cp_info.nat_journals i).entry.block_addr = c.FREE_ADDR ∧
    to_nid (sbi.cp_info.nat_journals i).nid > c.HMFS_ROOT_INO

/-- The journal of `sbi1` is that of `sbi` except that slots which were
recyclable in `sbi` may have had their nid cleared. -/
def journals_recycled (c : hmfs_consts) (sbi sbi1 : hmfs_sb_info) : Prop :=
  ∀ j, (sbi1.cp_info.nat_journals j).entry = (sbi.cp_info.nat_journals j).entry ∧
    ((sbi1.cp_info.nat_journals j).nid = (sbi.cp_info.nat_journals j).nid ∨
      ((sbi1.cp_info.nat_journals j).nid = 0 ∧ recyclable c sbi j))

/-- The instance with another NAT area and another allocator counter. -/
def with_nat (sbi : hmfs_sb_info) (mem : Nat → nat_page) (used : Nat) : hmfs_sb_info :=
  { sbi with nat_area := mem, node_blocks_used := used }

/-- Bookkeeping of the blocks a checkpoint has allocated for its NAT tree so
far.  `tag a = some (l, o)` says that `a` was allocated as the node of height
`l` that stands in for the old node `o` (0 when there is none); `mem0` and
`used0` are the memory and the allocator counter at the start of the
checkpoint.  Memory outside the allocated blocks is as at the start, the
allocated blocks are those handed out since then, and every slot of an
allocated interior node is empty, still the slot of the old node, or an
allocated node standing in for that slot. -/
structure cow_inv (blk : Nat → Nat) (mem0 : Nat → nat_page) (used0 : Nat)
    (mem : Nat → nat_page) (used : Nat) (tag : Nat → Option (Nat × Nat)) : Prop where
  le : used0 ≤ used
  frame : ∀ a, tag a = none → mem a = mem0 a
  alloc : ∀ a, tag a ≠ none ↔ ∃ i, used0 ≤ i ∧ i < used ∧ a = blk i
  kids : ∀ f l o, tag f = some (l + 1, o) → ∀ i,
    (mem f).addr i = 0 ∨ (mem f).addr i = nat_child mem0 o i ∨
      tag ((mem f).addr i) = some (l, nat_child mem0 o i)

/-- The blocks `used0 .. B - 1` of the allocator are not `NULL`, pairwise
different, and none of them is a node of the tree of height `h` below `old` in
the memory `mem0`. -/
structure blocks_fresh (N : Nat) (blk : Nat → Nat) (mem0 : Nat → nat_page) (used0 B : Nat)
    (h old : Nat) : Prop where
  nonzero : ∀ i, used0 ≤ i → i < B → blk i ≠ 0
  inj : ∀ i j, used0 ≤ i → i < j → j < B → blk i ≠ blk j
  unreach : ∀ i, used0 ≤ i → i < B → nat_reach N mem0 h old (blk i) = false

/-- The bookkeeping after one more block was allocated. -/
def tag_set (tag : Nat → Option (Nat × Nat)) (a : Nat) (x : Nat × Nat) :
    Nat → Option (Nat × Nat) :=
  fun b => if b = a then some x else tag b

/-! ## Truncation -/

/-- Modelled from the spec: `get_nid(node, off, false)` of `node.h`, the 64-bit
word in slot `off` of the nid table `in.nid` of an indirect node.  The table
starts the page; the body of a page is indexed in nid slots.  Where the code
stores the word into a `nid_t` the embedding applies `to_nid`. -/
def get_nid (sbi : hmfs_sb_info) (p : Nat) (off : Nat) : Nat := (sbi.nvm p).body off

/-- Store of the word `v` into slot `off` of the page at `p`. -/
def node_store (sbi : hmfs_sb_info) (p off v : Nat) : hmfs_sb_info :=
  { sbi with nvm := fun q =>
      if q = p then { (sbi.nvm p) with body := fun j => if j = off then v else (sbi.nvm p).body j }
      else sbi.nvm q }

/-- Modelled from the spec: `set_nid(node, off, nid, false)` of `node.h`, the
store `node->in.nid[off] = nid`. -/
def set_nid (sbi : hmfs_sb_info) (p off nid : Nat) : hmfs_sb_info := node_store sbi p off nid

/-- Layout of the inode's node page for truncation: the macros of
`get_node_path`, and the slot of the page body at which the table `i.i_nid`
starts. -/
structure trunc_consts where
  layout : node_layout
  I_NID_OFS : Nat

/-- The slot of the page body read or written as `i.i_nid[k]`; an index below
the table reads the words in front of it. -/
def i_nid_slot (tc : trunc_consts) (k : Int) : Nat := ((tc.I_NID_OFS : Int) + k).toNat

/-- Modelled from the spec: the external `truncate_data_blocks` frees the data
blocks of the direct node under the cursor.  Data blocks and their accounting
are outside this state, which it leaves as it is. -/
def truncate_data_blocks (sbi : hmfs_sb_info) (_dn : dnode_of_data) : hmfs_sb_info := sbi

/-- Modelled from the spec: `set_new_dnode(dn, inode, hi, NULL, 0)` of `node.h`
fills the cursor. -/
def set_new_dnode (inode : inode) (hi : Nat) : dnode_of_data :=
  ⟨inode, some hi, none, 0, 0⟩

/-- Embedding of `truncate_dnode`: the returned `int`, the state and the cursor,
or a firing `BUG_ON` of `truncate_node`. -/
def truncate_dnode (c : hmfs_consts) (sbi : hmfs_sb_info) (dn : dnode_of_data)
    (ni : node_info) : Except halt (Int × hmfs_sb_info × dnode_of_data) :=
  if dn.nid = 0 then .ok (1, sbi, dn)
  else
    match get_node c sbi dn.nid ni with
    | .error e => if e = -ENODATA then .ok (1, sbi, dn) else .ok (e, sbi, dn)
    | .ok hn =>
      let dn1 := { dn with node_block := some hn, ofs_in_node := 0 }
      let sbi1 := truncate_data_blocks sbi dn1
      match truncate_node c sbi1 dn1 ni with
      | .error h => .error h
      | .ok r => .ok (1, r.1, r.2)

/-- The `for` loop of `truncate_nodes` for `depth < 3`, at index `i` with `n`
indices left below `NIDS_PER_BLOCK`: `some ret` when the loop is left through
`out_err`, the state, and `freed`. -/
def truncate_nodes_direct (c : hmfs_consts) (inode : inode) (hn : Nat) (ni : node_info) :
    Nat → Nat → hmfs_sb_info → Int → Except halt (Option Int × hmfs_sb_info × Int)
  | 0, _, sbi, freed => .ok (none, sbi, freed)
  | n + 1, i, sbi, freed =>
    let child_nid := to_nid (get_nid sbi hn i)
    if child_nid = 0 then truncate_nodes_direct c inode hn ni n (i + 1) sbi (to_int (freed + 1))
    else
      match truncate_dnode c sbi ⟨inode, none, none, child_nid, 0⟩ ni with
      | .error h => .error h
      | .ok r =>
        if r.1 < 0 then .ok (some r.1, r.2.1, freed)
        else
          truncate_nodes_direct c inode hn ni n (i + 1) (set_nid r.2.1 hn i 0)
            (to_int (freed + 1))

/-- The `for` loop of `truncate_nodes` for `depth >= 3`, with the call for the
children passed as `sub` (its arguments: state, child nid, `child_nofs`):
`some ret` when the loop is left through `out_err`, the state, and
`child_nofs` (an `unsigned int`). -/
def truncate_nodes_indirect (tc : trunc_consts) (hn : Nat)
    (sub : hmfs_sb_info → Nat → Int → Except halt (Int × hmfs_sb_info)) :
    Nat → Nat → hmfs_sb_info → Int → Except halt (Option Int × hmfs_sb_info × Int)
  | 0, _, sbi, child_nofs => .ok (none, sbi, child_nofs)
  | n + 1, i, sbi, child_nofs =>
    let child_nid := to_nid (get_nid sbi hn i)
    if child_nid = 0 then
      truncate_nodes_indirect tc hn sub n (i + 1) sbi
        (to_uint (child_nofs + (tc.layout.NIDS_PER_BLOCK + 1)))
    else
      match sub sbi child_nid child_nofs with
      | .error h => .error h
      | .ok r =>
        if r.1 = to_int (tc.layout.NIDS_PER_BLOCK + 1) then
          truncate_nodes_indirect tc hn sub n (i + 1) (set_nid r.2 hn i 0)
            (to_uint (child_nofs + r.1))
        else if r.1 ≠ 0 ∧ r.1 ≠ -ENODATA then .ok (some r.1, r.2, child_nofs)
        else truncate_nodes_indirect tc hn sub n (i + 1) r.2 child_nofs

/-- The end of `truncate_nodes` after its loop `body`: the value of `out_err`,
or `freed`, after the node itself was truncated when `ofs` is 0. -/
def truncate_nodes_end (c : hmfs_consts) (inode : inode) (nid : Nat) (ofs : Int)
    (ni : node_info) (body : Except halt (Option Int × hmfs_sb_info × Int)) :
    Except halt (Int × hmfs_sb_info) :=
  match body with
  | .error h => .error h
  | .ok (some ret, sbi1, _) => .ok (ret, sbi1)
  | .ok (none, sbi1, freed) =>
    if ofs = 0 then
      match truncate_node c sbi1 ⟨inode, none, none, nid, 0⟩ ni with
      | .error h => .error h
      | .ok r => .ok (to_int (freed + 1), r.1)
    else .ok (freed, sbi1)

/-- Embedding of `truncate_nodes`, by recursion on `depth`: the returned `int`
and the state, or a firing `BUG_ON` of `truncate_node`.  Arguments after the
depth: the state, the inode and the nid of the cursor, `nofs` and `ofs`.  The
first case is `depth >= 3`, the second `depth < 3`. -/
def truncate_nodes (c : hmfs_consts) (tc : trunc_consts) (ni : node_info) :
    Nat → hmfs_sb_info → inode → Nat → Int → Int → Except halt (Int × hmfs_sb_info)
  | d + 3, sbi, inode, nid, nofs, ofs =>
    if nid = 0 then .ok (to_int (tc.layout.NIDS_PER_BLOCK + 1), sbi)
    else
      let g := get_new_node c sbi nid inode ni
      match g.1 with
      | .error e => .ok (e, g.2)
      | .ok hn =>
        truncate_nodes_end c inode nid ofs ni
          (match
            truncate_nodes_indirect tc hn
              (fun s child child_nofs => truncate_nodes c tc ni (d + 2) s inode child
                child_nofs 0)
              (tc.layout.NIDS_PER_BLOCK - ofs).toNat ofs.toNat g.2
              (to_uint (nofs + ofs * (tc.layout.NIDS_PER_BLOCK + 1) + 1)) with
          | .error h => .error h
          | .ok r => .ok (r.1, r.2.1, to_int r.2.2))
  | _, sbi, inode, nid, _, ofs =>
    if nid = 0 then .ok (to_int (tc.layout.NIDS_PER_BLOCK + 1), sbi)
    else
      let g := get_new_node c sbi nid inode ni
      match g.1 with
      | .error e => .ok (e, g.2)
      | .ok hn =>
        truncate_nodes_end c inode nid ofs ni
          (truncate_nodes_direct c inode hn ni (tc.layout.NIDS_PER_BLOCK - ofs).toNat
            ofs.toNat g.2 0)

/-- The `for` loop of `truncate_partial_nodes` that gets the indirect nodes on
the path, at index `i` with `n` rounds left: the error of a failing `get_node`,
or the arrays `nid` and `nodes`. -/
def partial_path_nodes (c : hmfs_consts) (sbi : hmfs_sb_info) (offset : Nat → Int)
    (ni : node_info) :
    Nat → Nat → (Nat → Nat) → (Nat → Nat) → Except Int ((Nat → Nat) × (Nat → Nat))
  | 0, _, nid, nodes => .ok (nid, nodes)
  | n + 1, i, nid, nodes =>
    match get_node c sbi (nid i) ni with
    | .error e => .error e
    | .ok p =>
      partial_path_nodes c sbi offset ni n (i + 1)
        (fun j => if j = i + 1 then to_nid (get_nid sbi p (offset (i + 1)).toNat) else nid j)
        (fun j => if j = i then p else nodes j)

/-- The `for` loop of `truncate_partial_nodes` that frees the direct nodes
linked to the partial indirect node `nid_idx`, at index `i` with `n` indices
left below `NIDS_PER_BLOCK`: whether the loop is left through `fail`, the
state, `nodes[idx]` and `err`. -/
def partial_free_dnodes (c : hmfs_consts) (inode : inode) (nid_idx : Nat) (ni : node_info) :
    Nat → Nat → hmfs_sb_info → Nat → Int → Except halt (Bool × hmfs_sb_info × Nat × Int)
  | 0, _, sbi, node, err => .ok (false, sbi, node, err)
  | n + 1, i, sbi, node, err =>
    let child_nid := to_nid (get_nid sbi node i)
    if child_nid = 0 then partial_free_dnodes c inode nid_idx ni n (i + 1) sbi node err
    else
      match truncate_dnode c sbi ⟨inode, none, none, child_nid, 0⟩ ni with
      | .error h => .error h
      | .ok r =>
        if r.1 < 0 then .ok (true, r.2.1, node, r.1)
        else
          let g := get_new_node c r.2.1 nid_idx inode ni
          match g.1 with
          | .error e => .ok (true, g.2, node, e)
          | .ok p => partial_free_dnodes c inode nid_idx ni n (i + 1) (set_nid g.2 p i 0) p r.1

/-- Embedding of `truncate_partial_nodes`: the returned `int`, the state and the
array `offset`, or a firing `BUG_ON` of `truncate_node`.  `hi` is the pointer to
the inode's node page. -/
def truncate_partial_nodes (c : hmfs_consts) (tc : trunc_consts) (sbi : hmfs_sb_info)
    (inode : inode) (hi : Nat) (offset : Nat → Int) (depth : Nat) (ni : node_info) :
    Except halt (Int × hmfs_sb_info × (Nat → Int)) :=
  let idx := depth - 2
  let nid0 := to_nid (get_nid sbi hi (i_nid_slot tc (offset 0 - tc.layout.NODE_DIR1_BLOCK)))
  if nid0 = 0 then .ok (0, sbi, offset)
  else
    -- get indirect nodes in the path
    match partial_path_nodes c sbi offset ni (depth - 1) 0
        (fun j => if j = 0 then nid0 else 0) (fun _ => 0) with
    | .error e => .ok (e, sbi, offset)
    | .ok (nid, nodes) =>
      -- free direct nodes linked to a partial indirect node
      match partial_free_dnodes c inode (nid idx) ni
          (tc.layout.NIDS_PER_BLOCK - offset (depth - 1)).toNat (offset (depth - 1)).toNat
          sbi (nodes idx) 0 with
      | .error h => .error h
      | .ok (true, sbi1, _, err) => .ok (err, sbi1, offset)
      | .ok (false, sbi1, _, err) =>
        let t : Except halt hmfs_sb_info :=
          if offset (depth - 1) = 0 then
            match truncate_node c sbi1 ⟨inode, none, none, nid idx, 0⟩ ni with
            | .error h => .error h
            | .ok r => .ok r.1
          else .ok sbi1
        match t with
        | .error h => .error h
        | .ok sbi2 =>
          .ok (err, sbi2,
            arr_set (arr_set offset idx (to_int (offset idx + 1))) (depth - 1) 0)

/-- The `switch (offset[0])` in the loop of `truncate_inode_blocks`: `err`, the
state and `cont`, or the `BUG()` of the default case.  `hn` points to the
inode's node page. -/
def truncate_inode_switch (c : hmfs_consts) (tc : trunc_consts) (inode : inode)
    (ni : node_info) (sbi : hmfs_sb_info) (hn : Nat) (offset : Nat → Int) (nofs : Int) :
    Except halt (Int × hmfs_sb_info × Bool) :=
  let nid := to_nid (get_nid sbi hn (i_nid_slot tc (offset 0 - tc.layout.NODE_DIR1_BLOCK)))
  if offset 0 = tc.layout.NODE_DIR1_BLOCK ∨ offset 0 = tc.layout.NODE_DIR2_BLOCK then
    match truncate_dnode c sbi ⟨inode, some hn, none, nid, 0⟩ ni with
    | .error h => .error h
    | .ok r => .ok (r.1, r.2.1, true)
  else if offset 0 = tc.layout.NODE_IND1_BLOCK ∨ offset 0 = tc.layout.NODE_IND2_BLOCK then
    match truncate_nodes c tc ni 2 sbi inode nid nofs (offset 1) with
    | .error h => .error h
    | .ok r => .ok (r.1, r.2, true)
  else if offset 0 = tc.layout.NODE_DIND_BLOCK then
    match truncate_nodes c tc ni 3 sbi inode nid nofs (offset 1) with
    | .error h => .error h
    | .ok r => .ok (r.1, r.2, false)
  else .error .bug

/-- The `while (cont)` loop of `truncate_inode_blocks`, with the number of
rounds left as first argument (five are enough, `offset[0]` grows in every
round): the value of `err` at `fail:` and the state.  `hn` points to the
inode's node page. -/
def truncate_inode_loop (c : hmfs_consts) (tc : trunc_consts) (inode : inode)
    (ni : node_info) :
    Nat → hmfs_sb_info → Nat → (Nat → Int) → Int → Except halt (Int × hmfs_sb_info)
  | 0, _, _, _, _ => .error .out_of_fuel
  | fuel + 1, sbi, hn, offset, nofs =>
    let slot := i_nid_slot tc (offset 0 - tc.layout.NODE_DIR1_BLOCK)
    match truncate_inode_switch c tc inode ni sbi hn offset nofs with
    | .error h => .error h
    | .ok (err, sbi1, cont) =>
      if err < 0 ∧ err ≠ -ENODATA then .ok (err, sbi1)
      else
        let next : hmfs_sb_info → Nat → Except halt (Int × hmfs_sb_info) := fun sbi2 hn2 =>
          if cont then
            truncate_inode_loop c tc inode ni fuel sbi2 hn2
              (arr_set (arr_set offset 1 0) 0 (to_int (offset 0 + 1))) (to_uint (nofs + err))
          else .ok (err, sbi2)
        if offset 1 = 0 ∧ get_nid sbi1 hn slot ≠ 0 then
          let g := get_new_node c sbi1 inode.i_ino inode ni
          match g.1 with
          | .error e => .ok (e, g.2)
          | .ok hn1 => next (node_store g.2 hn1 slot 0) hn1
        else next sbi1 hn

/-- Embedding of `truncate_inode_blocks`: the returned `int` and the state, or a
`BUG()`.  `offset0` and `noffset0` are the contents of the uninitialised local
arrays. -/
def truncate_inode_blocks (c : hmfs_consts) (tc : trunc_consts) (sbi : hmfs_sb_info)
    (inode : inode) (pg_from : Int) (offset0 noffset0 : Nat → Int) (ni : node_info) :
    Except halt (Int × hmfs_sb_info) :=
  match get_node_path tc.layout (to_long pg_from) offset0 noffset0 with
  | none => .error .bug
  | some p =>
    match get_node c sbi inode.i_ino ni with
    | .error e => .ok (e, sbi)
    | .ok hn =>
      let pre : Except halt (Option Int × hmfs_sb_info × (Nat → Int) × Int) :=
        if p.level = 0 ∨ p.level = 1 then .ok (none, sbi, p.offset, to_uint (p.noffset 1))
        else if p.level = 2 then
          if p.offset 1 = 0 then .ok (none, sbi, p.offset, to_uint (p.noffset 1))
          else
            match truncate_partial_nodes c tc sbi inode hn p.offset 2 ni with
            | .error h => .error h
            | .ok (err, sbi1, offset1) =>
              if err < 0 ∧ err ≠ -ENODATA then .ok (some err, sbi1, offset1, 0)
              else
                .ok (none, sbi1, offset1,
                  to_uint (to_uint (p.noffset 1) + (1 + tc.layout.NIDS_PER_BLOCK)))
        else if p.level = 3 then
          if p.offset 2 = 0 then
            .ok (none, sbi, p.offset, to_uint (5 + 2 * tc.layout.NIDS_PER_BLOCK))
          else
            match truncate_partial_nodes c tc sbi inode hn p.offset 3 ni with
            | .error h => .error h
            | .ok (err, sbi1, offset1) =>
              if err < 0 ∧ err ≠ -ENODATA then .ok (some err, sbi1, offset1, 0)
              else .ok (none, sbi1, offset1, to_uint (5 + 2 * tc.layout.NIDS_PER_BLOCK))
        else .error .bug
      match pre with
      | .error h => .error h
      | .ok (some err, sbi1, _, _) => .ok (if err > 0 then 0 else err, sbi1)
      | .ok (none, sbi1, offset1, nofs) =>
        match truncate_inode_loop c tc inode ni 5 sbi1 hn offset1 nofs with
        | .error h => .error h
        | .ok (err, sbi2) => .ok (if err > 0 then 0 else err, sbi2)

/-! ## Separation of the nodes a truncation works on -/

/-- What every step of a truncation leaves alone: the journal, the version of
the checkpoint, the allocator's sequence (its counter only grows) and the node
budget. -/
structure trunc_frame (s s1 : hmfs_sb_info) : Prop where
  journals : s1.cp_info.nat_journals = s.cp_info.nat_journals
  version : s1.cp_info.store_version = s.cp_info.store_version
  blocks : s1.node_blocks = s.node_blocks
  used : s.node_blocks_used ≤ s1.node_blocks_used
  budget : s1.node_budget = s.node_budget

/-- The state `s1` has the NAT cache entries of the nids in `P` and the pages
and summary records of the blocks in `X` as `s` has them. -/
structure keeps (P X : Nat → Prop) (s s1 : hmfs_sb_info) : Prop where
  frame : trunc_frame s s1
  nat : ∀ p, P p → s1.nm_info.nat_root p = s.nm_info.nat_root p
  pages : ∀ b, X b → s1.nvm b = s.nvm b
  sums : ∀ b, X b → s1.summaries b = s.summaries b

/-- The allocator is not going to hand out the block `b`: it is none of the
blocks of its sequence from the counter on. -/
def not_upcoming (s : hmfs_sb_info) (b : Nat) : Prop :=
  ∀ j, s.node_blocks_used ≤ j → s.node_blocks j ≠ b

/-- The layout is one `truncate_inode_blocks` can work with: it is one of
`get_node_path`, the five inode slots are numbered consecutively from
`NODE_DIR1_BLOCK` as `int` values, behind the indices of the inode's own
addresses, a node holds at least one nid, and the node counts of a whole
double-indirect subtree fit in an `int`. -/
structure trunc_consts.fits (tc : trunc_consts) : Prop where
  layout : tc.layout.fits
  direct : tc.layout.NORMAL_ADDRS_PER_INODE ≤ tc.layout.NODE_DIR1_BLOCK
  dir1 : -2147483648 ≤ tc.layout.NODE_DIR1_BLOCK ∧ tc.layout.NODE_DIR1_BLOCK + 5 ≤ 2147483647
  dir2 : tc.layout.NODE_DIR2_BLOCK = tc.layout.NODE_DIR1_BLOCK + 1
  ind1 : tc.layout.NODE_IND1_BLOCK = tc.layout.NODE_DIR1_BLOCK + 2
  ind2 : tc.layout.NODE_IND2_BLOCK = tc.layout.NODE_DIR1_BLOCK + 3
  dind : tc.layout.NODE_DIND_BLOCK = tc.layout.NODE_DIR1_BLOCK + 4
  nids : 0 < tc.layout.NIDS_PER_BLOCK
  count : (tc.layout.NIDS_PER_BLOCK + 2) * (tc.layout.NIDS_PER_BLOCK + 2) + 8 ≤ 2147483647


/-- One call on the NAT cache: `grab_nat_entry`, `_cache_nat_entry` or
`update_nat_entry`, with its arguments. -/
inductive cache_op where
  | grab (nid : Nat)
  | cache (nid ino blk_addr version : Nat)
  | update (nid ino blk_addr version : Nat) (dirty : Bool)

/-- The node manager after one call on the NAT cache. -/
def run_cache_op (nm : hmfs_nm_info) : cache_op → hmfs_nm_info
  | .grab nid => (grab_nat_entry nm nid).2
  | .cache nid ino blk_addr version => _cache_nat_entry nm nid ino blk_addr version
  | .update nid ino blk_addr version dirty => update_nat_entry nm nid ino blk_addr version dirty

/-- The node manager after a sequence of calls on the NAT cache. -/
def run_cache_ops (nm : hmfs_nm_info) (ops : List cache_op) : hmfs_nm_info :=
  ops.foldl run_cache_op nm

/-- The membership invariant of the NAT cache: no entry is twice on the clean
and dirty lists taken together (so none is on both), the entries in the radix
tree are the ones on the lists, every entry stores the nid it is filed under,
and `nat_cnt` counts the entries on the lists. -/
structure cache_inv (nm : hmfs_nm_info) : Prop where
  once : (nm.nat_entries ++ nm.dirty_nat_entries).Nodup
  listed : ∀ k, (nm.nat_root k).isSome ↔ k ∈ nm.nat_entries ∨ k ∈ nm.dirty_nat_entries
  key : ∀ k e, nm.nat_root k = some e → e.nid = k
  count : nm.nat_cnt = nm.nat_entries.length + nm.dirty_nat_entries.length

/-! ## Sequences of calls on the free-nid pool -/

/-- The nids that `k` calls of `alloc_nid` in a row hand out, and the state after
them; the run ends early at a call that returns false.  Every call gets `fuel`
passes through `retry:`. -/
def alloc_nids (c : hmfs_consts) (fuel : Nat) :
    Nat → hmfs_sb_info → Except halt (List Nat × hmfs_sb_info)
  | 0, sbi => .ok ([], sbi)
  | k + 1, sbi =>
    match alloc_nid c fuel sbi 0 with
    | .error h => .error h
    | .ok (false, _, sbi1) => .ok ([], sbi1)
    | .ok (true, nid, sbi1) =>
      match alloc_nids c fuel k sbi1 with
      | .error h => .error h
      | .ok (l, sbi2) => .ok (nid :: l, sbi2)


/-! ## Sample instances -/

/-- A sample instance of the header constants: address 0 is `NULL_ADDR`, the two
highest 64-bit values are `NEW_ADDR` and `FREE_ADDR`, and a pool slot carries
the free bit in bit 63 above the nid. -/
def sample_consts : hmfs_consts :=
  { NULL_ADDR := 0, NEW_ADDR := 18446744073709551615, FREE_ADDR := 18446744073709551614,
    NAT_ENTRY_PER_BLOCK := 455, NUM_NAT_JOURNALS_IN_CP := 4, BUILD_FREE_NID_COUNT := 8,
    HMFS_ROOT_INO := 3, SUM_TYPE_INODE := 1,
    make_free_nid := fun nid free => nid + free * 9223372036854775808,
    get_free_nid := fun slot => slot % 9223372036854775808 }

/-- A sample node manager: an empty cache, and a pool of 16 slots of which the
two lowest hold the scanned nids 20 and 21. -/
def sample_nm : hmfs_nm_info :=
  { max_nid := 1000, nat_cnt := 0, next_scan_nid := 22, fcnt := 2,
    free_nids := [20, 21, 0, 0, 0, 0, 0, 0, 0, 0, 0, 0, 0, 0, 0, 0],
    nat_root := fun _ => none, nat_entries := [], dirty_nat_entries := [], slab_faults := 1 }

/-- A sample filesystem instance around `sample_nm`: checkpoint version 5, three
valid nodes, an empty journal (nid 0 in every slot), an empty NAT tree of
height 2, and an allocator handing out the pages from address 65536 on. -/
def sample_sb : hmfs_sb_info :=
  { nm_info := sample_nm,
    cp_info := { store_version := 5, valid_node_count := 3, valid_inode_count := 1,
                 nat_journals := fun _ => ⟨0, ⟨0, 0, 0⟩⟩,
                 next_scan_nid := 22, cur_nat_root := 0 },
    nvm := fun _ => ⟨fun _ => 0, ⟨0, 0, 0⟩⟩,
    nat_area := fun _ => ⟨fun _ => 0, fun _ => ⟨0, 0, 0⟩⟩, nat_height := 2, nat_addr := 0,
    summaries := fun _ => ⟨0, 0, 0, 0, 0, 0⟩,
    node_blocks := fun i => 65536 + 4096 * i, node_blocks_used := 0,
    invalid_blocks := [], node_budget := 100, orphans := [], dirty_inodes := [] }

/-- A sample inode, number 9 with one block, and the zeroed `node_info` used as
the content of an uninitialised local. -/
def sample_inode : inode := ⟨9, 1, false⟩

/-- The all-zero `node_info`. -/
def zero_ni : node_info := ⟨0, 0, 0, 0⟩

/-- The sample instance after `get_new_node` gave nid 9 its first block. -/
def sample_sb_live : hmfs_sb_info := (get_new_node sample_consts sample_sb 9 sample_inode zero_ni).2

/-- The sample node manager after nids 1 and 2 were made dirty, in this order. -/
def sample_nm_dirty : hmfs_nm_info :=
  update_nat_entry (update_nat_entry sample_nm 1 1 65536 5 true) 2 2 69632 5 true

/-- A sample instance of the NAT tree constants: two children per interior
node, 512 entries per leaf block, a maximal height of 3 and a pool of 16
slots. -/
def sample_tree_consts : nat_tree_consts :=
  { LOG2_NAT_ADDRS_PER_NODE := 1, NAT_ADDR_PER_NODE := 2, LOG2_NAT_ENTRY_PER_BLOCK := 9,
    NAT_TREE_MAX_HEIGHT := 3, FREE_NID_SLOTS := 16 }

/-- The sample header constants with the 512 entries per NAT block that go with
`sample_tree_consts`. -/
def sample_nat_consts : hmfs_consts := { sample_consts with NAT_ENTRY_PER_BLOCK := 512 }

/-- A sample NAT area holding a tree of height 2: the root at 4096 with the
interior nodes 8192 and 12288, and the leaves 16384, 20480 and 24576 for the
block orders 0, 1 and 2 (block order 3 has no leaf).  The record of index `i`
in the leaf of block order `k` is `(ino 7, block 1048576 + 4096 * (512 * k + i),
version 4)`. -/
def sample_nat_area : Nat → nat_page := fun a =>
  if a = 4096 then ⟨fun i => if i = 0 then 8192 else if i = 1 then 12288 else 0,
    fun _ => ⟨0, 0, 0⟩⟩
  else if a = 8192 then ⟨fun i => if i = 0 then 16384 else if i = 1 then 20480 else 0,
    fun _ => ⟨0, 0, 0⟩⟩
  else if a = 12288 then ⟨fun i => if i = 0 then 24576 else 0, fun _ => ⟨0, 0, 0⟩⟩
  else if a = 16384 then ⟨fun _ => 0, fun i => ⟨7, 1048576 + 4096 * i, 4⟩⟩
  else if a = 20480 then ⟨fun _ => 0, fun i => ⟨7, 1048576 + 4096 * (512 + i), 4⟩⟩
  else if a = 24576 then ⟨fun _ => 0, fun i => ⟨7, 1048576 + 4096 * (1024 + i), 4⟩⟩
  else zero_page

/-- The sample instance with the sample NAT tree as the tree of the current
checkpoint. -/
def sample_tree_sb : hmfs_sb_info :=
  { sample_sb with
    cp_info := { sample_sb.cp_info with cur_nat_root := 4096 }
    nat_area := sample_nat_area
    nat_height := 2
    nat_addr := 4096 }

/-- A leaf image that differs from every leaf of the sample tree. -/
def sample_leaf_image : nat_page := ⟨fun _ => 0, fun i => ⟨9, 2097152 + i, 5⟩⟩

/-- The sample instance with an empty pool and the scan cursor at `max_nid`. -/
def sample_sb_exhausted : hmfs_sb_info :=
  { sample_sb with nm_info := { sample_nm with fcnt := 0, next_scan_nid := 1000 } }

/-- The working tree of the sample after the first flush of a checkpoint, for
block order 0: the instance, the working root and `alloc_cnt`. -/
def sample_first_flush : hmfs_sb_info × Nat × Nat :=
  flush_seq sample_tree_consts 2 4096 [(0, sample_leaf_image)] (sample_tree_sb, 4096, 0)

/-- The result of a second flush into that working tree, for block order 1. -/
def sample_second_flush : Nat × hmfs_sb_info × Nat :=
  recursive_flush_nat_pages sample_tree_consts 2 sample_first_flush.1 4096
    sample_first_flush.2.1 1 sample_leaf_image sample_first_flush.2.2

/-- The zeroed `hmfs_nm_info` that `build_node_manager` hands to
`init_node_manager`. -/
def zero_nm : hmfs_nm_info :=
  { max_nid := 0, nat_cnt := 0, next_scan_nid := 0, fcnt := 0, free_nids := [],
    nat_root := fun _ => none, nat_entries := [], dirty_nat_entries := [], slab_faults := 0 }

/-- The sample node manager after the nids 1200, 600 and 10 were made dirty, in
this order. -/
def sample_nm_three : hmfs_nm_info :=
  update_nat_entry (update_nat_entry (update_nat_entry sample_nm 1200 7 3145728 5 true)
    600 7 3149824 5 true) 10 7 3153920 5 true

/-- The sample tree with the dirty entries of `sample_nm_three`. -/
def sample_sb_three : hmfs_sb_info := { sample_tree_sb with nm_info := sample_nm_three }

/-- The sample node manager after the nids 1200, 601, 600, 11 and 10 were made
dirty, in this order. -/
def sample_nm_five : hmfs_nm_info :=
  update_nat_entry (update_nat_entry (update_nat_entry (update_nat_entry (update_nat_entry
    sample_nm 1200 7 3145728 5 true) 601 7 3149824 5 true) 600 7 3153920 5 true)
    11 7 3158016 5 true) 10 7 3162112 5 true

/-- The sample tree with the dirty entries of `sample_nm_five`. -/
def sample_sb_five : hmfs_sb_info := { sample_tree_sb with nm_info := sample_nm_five }

/-- A small layout for truncation: 3 addresses in the inode, 2 addresses or
nids per node, the inode slots 4 to 8, and the table `i.i_nid` at slot 4 of the
page body. -/
def sample_trunc_consts : trunc_consts :=
  { layout := { NORMAL_ADDRS_PER_INODE := 3, ADDRS_PER_BLOCK := 2, NIDS_PER_BLOCK := 2,
                NODE_DIR1_BLOCK := 4, NODE_DIR2_BLOCK := 5, NODE_IND1_BLOCK := 6,
                NODE_IND2_BLOCK := 7, NODE_DIND_BLOCK := 8 },
    I_NID_OFS := 4 }

/-- A sample instance with a node tree under the inode 9: its page 65536 holds
the double-indirect node 20 in `i.i_nid[4]`; the node 20 (page 69632) holds the
indirect nodes 21 and 22; the node 21 (page 73728) holds the direct nodes 23
and 24, the node 22 (page 77824) the direct node 25.  All seven nodes are live
in pages written before the current checkpoint version, and the allocator has
handed out these seven pages. -/
def sample_sb_tree : hmfs_sb_info :=
  { sample_sb with
    nm_info := { sample_nm with
      nat_cnt := 7
      nat_entries := [9, 20, 21, 22, 23, 24, 25]
      slab_faults := 0
      nat_root := fun k =>
        if k = 9 then some ⟨9, 9, 65536, 4⟩
        else if k = 20 then some ⟨9, 20, 69632, 4⟩
        else if k = 21 then some ⟨9, 21, 73728, 4⟩
        else if k = 22 then some ⟨9, 22, 77824, 4⟩
        else if k = 23 then some ⟨9, 23, 81920, 4⟩
        else if k = 24 then some ⟨9, 24, 86016, 4⟩
        else if k = 25 then some ⟨9, 25, 90112, 4⟩
        else none }
    cp_info := { sample_sb.cp_info with valid_node_count := 7 }
    nvm := fun q =>
      if q = 65536 then ⟨fun j => if j = 8 then 20 else 0, ⟨9, 9, 4⟩⟩
      else if q = 69632 then ⟨fun j => if j = 0 then 21 else if j = 1 then 22 else 0, ⟨9, 20, 4⟩⟩
      else if q = 73728 then ⟨fun j => if j = 0 then 23 else if j = 1 then 24 else 0, ⟨9, 21, 4⟩⟩
      else if q = 77824 then ⟨fun j => if j = 0 then 25 else 0, ⟨9, 22, 4⟩⟩
      else ⟨fun _ => 0, ⟨0, 0, 0⟩⟩
    summaries := fun _ => ⟨9, 0, 4, 1, 0, 1⟩
    node_blocks_used := 7 }

/-- The sample tree after `truncate_inode_blocks` from block 17. -/
def sample_sb_cut : hmfs_sb_info :=
  match truncate_inode_blocks sample_consts sample_trunc_consts sample_sb_tree sample_inode 17
      (fun _ => 0) (fun _ => 0) zero_ni with
  | .ok r => r.2
  | .error _ => sample_sb_tree

/-- The sample instance as `init_node_manager` sets it up from a checkpoint with
an empty journal whose scan cursor is 1807: the pool is empty, and `max_nid` is
the 1820 of `hmfs_max_nid`, four NAT blocks of 455 entries. -/
def sample_sb_mounted_tail : hmfs_sb_info :=
  (init_node_manager sample_consts sample_tree_consts true
    { sample_sb with
      nm_info := zero_nm
      cp_info := { sample_sb.cp_info with next_scan_nid := 1807 } }).2

/-! # Theorems -/

/-! ## Machine integers -/

theorem to_long_of_fits (x : Int) (h1 : -9223372036854775808 ≤ x)
    (h2 : x < 9223372036854775808) : to_long x = x := by
  unfold to_long; omega

theorem to_int_of_fits (x : Int) (h1 : -2147483648 ≤ x) (h2 : x ≤ 2147483647) :
    to_int x = x := by
  unfold to_int; omega

theorem arr_set_same (a : Nat → Int) (i : Nat) (v : Int) : arr_set a i v i = v := by
  simp [arr_set]

theorem arr_set_other (a : Nat → Int) (i j : Nat) (v : Int) (h : j ≠ i) :
    arr_set a i v j = a j := by
  simp [arr_set, h]

theorem ediv_mul_eq (b A N : Int) (hA : 0 < A) (hN : 0 < N) :
    b / (A * N) = b / A / N := by
  have h1 : A * (b / A) + b % A = b := Int.ediv_add_emod b A
  have h2 : N * (b / A / N) + b / A % N = b / A := Int.ediv_add_emod (b / A) N
  have r0 : 0 ≤ b % A := Int.emod_nonneg b (ne_of_gt hA)
  have r1 : b % A < A := Int.emod_lt_of_pos b hA
  have s0 : 0 ≤ b / A % N := Int.emod_nonneg _ (ne_of_gt hN)
  have s1 : b / A % N < N := Int.emod_lt_of_pos _ hN
  have hAN : 0 < A * N := Int.mul_pos hA hN
  have key := (Int.ediv_emod_unique (a := b) (r := A * (b / A % N) + b % A)
    (q := b / A / N) hAN).2
    ⟨by linear_combination h1 + A * h2, by positivity, by nlinarith⟩
  exact key.1

theorem digits_sum (b A N : Int) (hA : 0 < A) (hN : 0 < N) :
    b / (A * N) * (A * N) + b / A % N * A + b % A = b := by
  have h1 : A * (b / A) + b % A = b := Int.ediv_add_emod b A
  have h2 : N * (b / A / N) + b / A % N = b / A := Int.ediv_add_emod (b / A) N
  rw [ediv_mul_eq b A N hA hN]
  linear_combination h1 + A * h2

/-! ## get_node_path, range by range -/

/-- Size facts that follow from `node_layout.fits`. -/
theorem node_layout.fits.products (c : node_layout) (hc : c.fits) :
    c.ADDRS_PER_BLOCK ≤ c.ADDRS_PER_BLOCK * c.NIDS_PER_BLOCK ∧
    c.NIDS_PER_BLOCK ≤ c.ADDRS_PER_BLOCK * c.NIDS_PER_BLOCK ∧
    c.ADDRS_PER_BLOCK * c.NIDS_PER_BLOCK
      ≤ c.ADDRS_PER_BLOCK * c.NIDS_PER_BLOCK * c.NIDS_PER_BLOCK ∧
    c.NORMAL_ADDRS_PER_INODE + 2 * c.ADDRS_PER_BLOCK
      + 2 * (c.ADDRS_PER_BLOCK * c.NIDS_PER_BLOCK)
      + c.ADDRS_PER_BLOCK * c.NIDS_PER_BLOCK * c.NIDS_PER_BLOCK ≤ 2147483647 := by
  have hA := hc.addrs
  have hN := hc.nids
  have hr := hc.range
  unfold node_layout.max_file_blocks at hr
  have h1 : 0 < c.ADDRS_PER_BLOCK * c.NIDS_PER_BLOCK := Int.mul_pos hA hN
  refine ⟨?_, ?_, ?_, hr⟩
  · nlinarith
  · nlinarith
  · nlinarith

/-- The five inode slot numbers are `int` values. -/
theorem node_layout.fits.slots (c : node_layout) (hc : c.fits) :
    to_int c.NODE_DIR1_BLOCK = c.NODE_DIR1_BLOCK ∧ to_int c.NODE_DIR2_BLOCK = c.NODE_DIR2_BLOCK ∧
    to_int c.NODE_IND1_BLOCK = c.NODE_IND1_BLOCK ∧ to_int c.NODE_IND2_BLOCK = c.NODE_IND2_BLOCK ∧
    to_int c.NODE_DIND_BLOCK = c.NODE_DIND_BLOCK := by
  have hs := hc.slots_int
  simp only [List.mem_cons, List.mem_singleton, forall_eq_or_imp, forall_eq,
    List.not_mem_nil] at hs
  refine ⟨?_, ?_, ?_, ?_, ?_⟩ <;> apply to_int_of_fits <;> omega

theorem gnp_direct (c : node_layout) (hc : c.fits) (block : Int) (offset noffset : Nat → Int)
    (h0 : 0 ≤ block) (h : block < c.NORMAL_ADDRS_PER_INODE) :
    get_node_path c block offset noffset
      = some ⟨0, arr_set offset 0 block, arr_set noffset 0 0⟩ := by
  obtain ⟨p1, p2, p3, p4⟩ := hc.products
  have hA := hc.addrs
  have hN := hc.nids
  have hD := hc.inode_addrs
  have eD : to_long c.NORMAL_ADDRS_PER_INODE = c.NORMAL_ADDRS_PER_INODE :=
    to_long_of_fits _ (by omega) (by omega)
  have eb : to_int block = block := to_int_of_fits _ (by omega) (by omega)
  simp only [get_node_path, eD, eb, if_pos h]

theorem gnp_dir1 (c : node_layout) (hc : c.fits) (block : Int) (offset noffset : Nat → Int)
    (h0 : c.NORMAL_ADDRS_PER_INODE ≤ block)
    (h : block < c.NORMAL_ADDRS_PER_INODE + c.ADDRS_PER_BLOCK) :
    get_node_path c block offset noffset
      = some ⟨1, arr_set (arr_set offset 0 c.NODE_DIR1_BLOCK) 1
                (block - c.NORMAL_ADDRS_PER_INODE),
              arr_set (arr_set noffset 0 0) 1 1⟩ := by
  obtain ⟨p1, p2, p3, p4⟩ := hc.products
  obtain ⟨s1, s2, s3, s4, s5⟩ := hc.slots
  have hA := hc.addrs
  have hN := hc.nids
  have hD := hc.inode_addrs
  have eD : to_long c.NORMAL_ADDRS_PER_INODE = c.NORMAL_ADDRS_PER_INODE :=
    to_long_of_fits _ (by omega) (by omega)
  have eA : to_long c.ADDRS_PER_BLOCK = c.ADDRS_PER_BLOCK :=
    to_long_of_fits _ (by omega) (by omega)
  have e1 : to_long (block - c.NORMAL_ADDRS_PER_INODE) = block - c.NORMAL_ADDRS_PER_INODE :=
    to_long_of_fits _ (by omega) (by omega)
  have e2 : to_int (block - c.NORMAL_ADDRS_PER_INODE) = block - c.NORMAL_ADDRS_PER_INODE :=
    to_int_of_fits _ (by omega) (by omega)
  have n1 : ¬ block < c.NORMAL_ADDRS_PER_INODE := by omega
  have n2 : block - c.NORMAL_ADDRS_PER_INODE < c.ADDRS_PER_BLOCK := by omega
  simp only [get_node_path, eD, eA, e1, e2, s1, if_neg n1, if_pos n2]

theorem gnp_dir2 (c : node_layout) (hc : c.fits) (block : Int) (offset noffset : Nat → Int)
    (h0 : c.NORMAL_ADDRS_PER_INODE + c.ADDRS_PER_BLOCK ≤ block)
    (h : block < c.NORMAL_ADDRS_PER_INODE + 2 * c.ADDRS_PER_BLOCK) :
    get_node_path c block offset noffset
      = some ⟨1, arr_set (arr_set offset 0 c.NODE_DIR2_BLOCK) 1
                (block - c.NORMAL_ADDRS_PER_INODE - c.ADDRS_PER_BLOCK),
              arr_set (arr_set noffset 0 0) 1 2⟩ := by
  obtain ⟨p1, p2, p3, p4⟩ := hc.products
  obtain ⟨s1, s2, s3, s4, s5⟩ := hc.slots
  have hA := hc.addrs
  have hN := hc.nids
  have hD := hc.inode_addrs
  have eD : to_long c.NORMAL_ADDRS_PER_INODE = c.NORMAL_ADDRS_PER_INODE :=
    to_long_of_fits _ (by omega) (by omega)
  have eA : to_long c.ADDRS_PER_BLOCK = c.ADDRS_PER_BLOCK :=
    to_long_of_fits _ (by omega) (by omega)
  have e1 : to_long (block - c.NORMAL_ADDRS_PER_INODE) = block - c.NORMAL_ADDRS_PER_INODE :=
    to_long_of_fits _ (by omega) (by omega)
  have e2 : to_long (block - c.NORMAL_ADDRS_PER_INODE - c.ADDRS_PER_BLOCK)
      = block - c.NORMAL_ADDRS_PER_INODE - c.ADDRS_PER_BLOCK :=
    to_long_of_fits _ (by omega) (by omega)
  have e3 : to_int (block - c.NORMAL_ADDRS_PER_INODE - c.ADDRS_PER_BLOCK)
      = block - c.NORMAL_ADDRS_PER_INODE - c.ADDRS_PER_BLOCK :=
    to_int_of_fits _ (by omega) (by omega)
  have n1 : ¬ block < c.NORMAL_ADDRS_PER_INODE := by omega
  have n2 : ¬ block - c.NORMAL_ADDRS_PER_INODE < c.ADDRS_PER_BLOCK := by omega
  have n3 : block - c.NORMAL_ADDRS_PER_INODE - c.ADDRS_PER_BLOCK < c.ADDRS_PER_BLOCK := by
    omega
  simp only [get_node_path, eD, eA, e1, e2, e3, s2, if_neg n1, if_neg n2, if_pos n3]

/-- Quotient and remainder of a block index inside a single-indirect range. -/
theorem indirect_digits (A N b : Int) (hA : 0 < A) (hN : 0 < N) (hb : 0 ≤ b)
    (h : b < A * N) (hAi : A ≤ 2147483647) (hNi : N ≤ 2147483647) :
    to_int (b.tdiv A) = b / A ∧ to_int (b.tmod A) = b % A ∧
    0 ≤ b / A ∧ b / A < N ∧ 0 ≤ b % A ∧ b % A < A := by
  have q0 : 0 ≤ b / A := Int.ediv_nonneg hb (le_of_lt hA)
  have q1 : b / A < N := Int.ediv_lt_of_lt_mul hA (by rw [mul_comm]; exact h)
  have r0 : 0 ≤ b % A := Int.emod_nonneg b (ne_of_gt hA)
  have r1 : b % A < A := Int.emod_lt_of_pos b hA
  rw [Int.tdiv_eq_ediv hb (le_of_lt hA), Int.tmod_eq_emod hb (le_of_lt hA)]
  exact ⟨to_int_of_fits _ (by omega) (by omega), to_int_of_fits _ (by omega) (by omega),
    q0, q1, r0, r1⟩

theorem gnp_ind1 (c : node_layout) (hc : c.fits) (block : Int) (offset noffset : Nat → Int)
    (h0 : c.NORMAL_ADDRS_PER_INODE + 2 * c.ADDRS_PER_BLOCK ≤ block)
    (h : block < c.NORMAL_ADDRS_PER_INODE + 2 * c.ADDRS_PER_BLOCK
      + c.ADDRS_PER_BLOCK * c.NIDS_PER_BLOCK) :
    ∃ no, get_node_path c block offset noffset
      = some ⟨2, arr_set (arr_set (arr_set offset 0 c.NODE_IND1_BLOCK) 1
                ((block - c.NORMAL_ADDRS_PER_INODE - c.ADDRS_PER_BLOCK - c.ADDRS_PER_BLOCK)
                  / c.ADDRS_PER_BLOCK)) 2
                ((block - c.NORMAL_ADDRS_PER_INODE - c.ADDRS_PER_BLOCK - c.ADDRS_PER_BLOCK)
                  % c.ADDRS_PER_BLOCK), no⟩ := by
  obtain ⟨p1, p2, p3, p4⟩ := hc.products
  obtain ⟨s1, s2, s3, s4, s5⟩ := hc.slots
  have hA := hc.addrs
  have hN := hc.nids
  have hD := hc.inode_addrs
  have eD : to_long c.NORMAL_ADDRS_PER_INODE = c.NORMAL_ADDRS_PER_INODE :=
    to_long_of_fits _ (by omega) (by omega)
  have eA : to_long c.ADDRS_PER_BLOCK = c.ADDRS_PER_BLOCK :=
    to_long_of_fits _ (by omega) (by omega)
  have eAN : to_long (c.ADDRS_PER_BLOCK * c.NIDS_PER_BLOCK)
      = c.ADDRS_PER_BLOCK * c.NIDS_PER_BLOCK :=
    to_long_of_fits _ (by omega) (by omega)
  have e1 : to_long (block - c.NORMAL_ADDRS_PER_INODE) = block - c.NORMAL_ADDRS_PER_INODE :=
    to_long_of_fits _ (by omega) (by omega)
  have e2 : to_long (block - c.NORMAL_ADDRS_PER_INODE - c.ADDRS_PER_BLOCK)
      = block - c.NORMAL_ADDRS_PER_INODE - c.ADDRS_PER_BLOCK :=
    to_long_of_fits _ (by omega) (by omega)
  have e3 : to_long (block - c.NORMAL_ADDRS_PER_INODE - c.ADDRS_PER_BLOCK - c.ADDRS_PER_BLOCK)
      = block - c.NORMAL_ADDRS_PER_INODE - c.ADDRS_PER_BLOCK - c.ADDRS_PER_BLOCK :=
    to_long_of_fits _ (by omega) (by omega)
  obtain ⟨d1, d2, -⟩ := indirect_digits c.ADDRS_PER_BLOCK c.NIDS_PER_BLOCK
    (block - c.NORMAL_ADDRS_PER_INODE - c.ADDRS_PER_BLOCK - c.ADDRS_PER_BLOCK) hA hN
    (by omega) (by omega) (by omega) (by omega)
  have n1 : ¬ block < c.NORMAL_ADDRS_PER_INODE := by omega
  have n2 : ¬ block - c.NORMAL_ADDRS_PER_INODE < c.ADDRS_PER_BLOCK := by omega
  have n3 : ¬ block - c.NORMAL_ADDRS_PER_INODE - c.ADDRS_PER_BLOCK < c.ADDRS_PER_BLOCK := by
    omega
  have n4 : block - c.NORMAL_ADDRS_PER_INODE - c.ADDRS_PER_BLOCK - c.ADDRS_PER_BLOCK
      < c.ADDRS_PER_BLOCK * c.NIDS_PER_BLOCK := by omega
  simp only [get_node_path, eD, eA, eAN, e1, e2, e3, s3, d1, d2, if_neg n1, if_neg n2,
    if_neg n3, if_pos n4]
  exact ⟨_, rfl⟩

theorem gnp_ind2 (c : node_layout) (hc : c.fits) (block : Int) (offset noffset : Nat → Int)
    (h0 : c.NORMAL_ADDRS_PER_INODE + 2 * c.ADDRS_PER_BLOCK
      + c.ADDRS_PER_BLOCK * c.NIDS_PER_BLOCK ≤ block)
    (h : block < c.NORMAL_ADDRS_PER_INODE + 2 * c.ADDRS_PER_BLOCK
      + 2 * (c.ADDRS_PER_BLOCK * c.NIDS_PER_BLOCK)) :
    ∃ no, get_node_path c block offset noffset
      = some ⟨2, arr_set (arr_set (arr_set offset 0 c.NODE_IND2_BLOCK) 1
                ((block - c.NORMAL_ADDRS_PER_INODE - c.ADDRS_PER_BLOCK - c.ADDRS_PER_BLOCK
                  - c.ADDRS_PER_BLOCK * c.NIDS_PER_BLOCK) / c.ADDRS_PER_BLOCK)) 2
                ((block - c.NORMAL_ADDRS_PER_INODE - c.ADDRS_PER_BLOCK - c.ADDRS_PER_BLOCK
                  - c.ADDRS_PER_BLOCK * c.NIDS_PER_BLOCK) % c.ADDRS_PER_BLOCK), no⟩ := by
  obtain ⟨p1, p2, p3, p4⟩ := hc.products
  obtain ⟨s1, s2, s3, s4, s5⟩ := hc.slots
  have hA := hc.addrs
  have hN := hc.nids
  have hD := hc.inode_addrs
  have eD : to_long c.NORMAL_ADDRS_PER_INODE = c.NORMAL_ADDRS_PER_INODE :=
    to_long_of_fits _ (by omega) (by omega)
  have eA : to_long c.ADDRS_PER_BLOCK = c.ADDRS_PER_BLOCK :=
    to_long_of_fits _ (by omega) (by omega)
  have eAN : to_long (c.ADDRS_PER_BLOCK * c.NIDS_PER_BLOCK)
      = c.ADDRS_PER_BLOCK * c.NIDS_PER_BLOCK :=
    to_long_of_fits _ (by omega) (by omega)
  have e1 : to_long (block - c.NORMAL_ADDRS_PER_INODE) = block - c.NORMAL_ADDRS_PER_INODE :=
    to_long_of_fits _ (by omega) (by omega)
  have e2 : to_long (block - c.NORMAL_ADDRS_PER_INODE - c.ADDRS_PER_BLOCK)
      = block - c.NORMAL_ADDRS_PER_INODE - c.ADDRS_PER_BLOCK :=
    to_long_of_fits _ (by omega) (by omega)
  have e3 : to_long (block - c.NORMAL_ADDRS_PER_INODE - c.ADDRS_PER_BLOCK - c.ADDRS_PER_BLOCK)
      = block - c.NORMAL_ADDRS_PER_INODE - c.ADDRS_PER_BLOCK - c.ADDRS_PER_BLOCK :=
    to_long_of_fits _ (by omega) (by omega)
  have e4 : to_long (block - c.NORMAL_ADDRS_PER_INODE - c.ADDRS_PER_BLOCK - c.ADDRS_PER_BLOCK
        - c.ADDRS_PER_BLOCK * c.NIDS_PER_BLOCK)
      = block - c.NORMAL_ADDRS_PER_INODE - c.ADDRS_PER_BLOCK - c.ADDRS_PER_BLOCK
        - c.ADDRS_PER_BLOCK * c.NIDS_PER_BLOCK :=
    to_long_of_fits _ (by omega) (by omega)
  obtain ⟨d1, d2, -⟩ := indirect_digits c.ADDRS_PER_BLOCK c.NIDS_PER_BLOCK
    (block - c.NORMAL_ADDRS_PER_INODE - c.ADDRS_PER_BLOCK - c.ADDRS_PER_BLOCK
      - c.ADDRS_PER_BLOCK * c.NIDS_PER_BLOCK) hA hN
    (by omega) (by omega) (by omega) (by omega)
  have n1 : ¬ block < c.NORMAL_ADDRS_PER_INODE := by omega
  have n2 : ¬ block - c.NORMAL_ADDRS_PER_INODE < c.ADDRS_PER_BLOCK := by omega
  have n3 : ¬ block - c.NORMAL_ADDRS_PER_INODE - c.ADDRS_PER_BLOCK < c.ADDRS_PER_BLOCK := by
    omega
  have n4 : ¬ block - c.NORMAL_ADDRS_PER_INODE - c.ADDRS_PER_BLOCK - c.ADDRS_PER_BLOCK
      < c.ADDRS_PER_BLOCK * c.NIDS_PER_BLOCK := by omega
  have n5 : block - c.NORMAL_ADDRS_PER_INODE - c.ADDRS_PER_BLOCK - c.ADDRS_PER_BLOCK
      - c.ADDRS_PER_BLOCK * c.NIDS_PER_BLOCK < c.ADDRS_PER_BLOCK * c.NIDS_PER_BLOCK := by
    omega
  simp only [get_node_path, eD, eA, eAN, e1, e2, e3, e4, s4, d1, d2, if_neg n1, if_neg n2,
    if_neg n3, if_neg n4, if_pos n5]
  exact ⟨_, rfl⟩

/-- Digits of a block index inside the double-indirect range. -/
theorem dindirect_digits (A N b : Int) (hA : 0 < A) (hN : 0 < N) (hb : 0 ≤ b)
    (h : b < A * N * N) (hAi : A ≤ 2147483647) (hNi : N ≤ 2147483647) :
    to_int (b.tdiv (A * N)) = b / (A * N) ∧ to_int ((b.tdiv A).tmod N) = b / A % N ∧
    to_int (b.tmod A) = b % A ∧
    0 ≤ b / (A * N) ∧ b / (A * N) < N ∧ 0 ≤ b / A % N ∧ b / A % N < N ∧
    0 ≤ b % A ∧ b % A < A := by
  have hAN : 0 < A * N := Int.mul_pos hA hN
  have q0 : 0 ≤ b / (A * N) := Int.ediv_nonneg hb (le_of_lt hAN)
  have q1 : b / (A * N) < N := Int.ediv_lt_of_lt_mul hAN (by
    have : N * (A * N) = A * N * N := by ring
    rw [this]; exact h)
  have m0 : 0 ≤ b / A := Int.ediv_nonneg hb (le_of_lt hA)
  have s0 : 0 ≤ b / A % N := Int.emod_nonneg _ (ne_of_gt hN)
  have s1 : b / A % N < N := Int.emod_lt_of_pos _ hN
  have r0 : 0 ≤ b % A := Int.emod_nonneg b (ne_of_gt hA)
  have r1 : b % A < A := Int.emod_lt_of_pos b hA
  rw [Int.tdiv_eq_ediv hb (le_of_lt hAN), Int.tdiv_eq_ediv hb (le_of_lt hA),
    Int.tmod_eq_emod m0 (le_of_lt hN), Int.tmod_eq_emod hb (le_of_lt hA)]
  exact ⟨to_int_of_fits _ (by omega) (by omega), to_int_of_fits _ (by omega) (by omega),
    to_int_of_fits _ (by omega) (by omega), q0, q1, s0, s1, r0, r1⟩

theorem gnp_dind (c : node_layout) (hc : c.fits) (block : Int) (offset noffset : Nat → Int)
    (h0 : c.NORMAL_ADDRS_PER_INODE + 2 * c.ADDRS_PER_BLOCK
      + 2 * (c.ADDRS_PER_BLOCK * c.NIDS_PER_BLOCK) ≤ block)
    (h : block < c.max_file_blocks) :
    ∃ no, get_node_path c block offset noffset
      = some ⟨3, arr_set (arr_set (arr_set (arr_set offset 0 c.NODE_DIND_BLOCK) 1
                ((block - c.NORMAL_ADDRS_PER_INODE - c.ADDRS_PER_BLOCK - c.ADDRS_PER_BLOCK
                  - c.ADDRS_PER_BLOCK * c.NIDS_PER_BLOCK - c.ADDRS_PER_BLOCK * c.NIDS_PER_BLOCK)
                  / (c.ADDRS_PER_BLOCK * c.NIDS_PER_BLOCK))) 2
                ((block - c.NORMAL_ADDRS_PER_INODE - c.ADDRS_PER_BLOCK - c.ADDRS_PER_BLOCK
                  - c.ADDRS_PER_BLOCK * c.NIDS_PER_BLOCK - c.ADDRS_PER_BLOCK * c.NIDS_PER_BLOCK)
                  / c.ADDRS_PER_BLOCK % c.NIDS_PER_BLOCK)) 3
                ((block - c.NORMAL_ADDRS_PER_INODE - c.ADDRS_PER_BLOCK - c.ADDRS_PER_BLOCK
                  - c.ADDRS_PER_BLOCK * c.NIDS_PER_BLOCK - c.ADDRS_PER_BLOCK * c.NIDS_PER_BLOCK)
                  % c.ADDRS_PER_BLOCK), no⟩ := by
  obtain ⟨p1, p2, p3, p4⟩ := hc.products
  obtain ⟨s1, s2, s3, s4, s5⟩ := hc.slots
  have hA := hc.addrs
  have hN := hc.nids
  have hD := hc.inode_addrs
  unfold node_layout.max_file_blocks at h
  have eD : to_long c.NORMAL_ADDRS_PER_INODE = c.NORMAL_ADDRS_PER_INODE :=
    to_long_of_fits _ (by omega) (by omega)
  have eA : to_long c.ADDRS_PER_BLOCK = c.ADDRS_PER_BLOCK :=
    to_long_of_fits _ (by omega) (by omega)
  have eN : to_long c.NIDS_PER_BLOCK = c.NIDS_PER_BLOCK :=
    to_long_of_fits _ (by omega) (by omega)
  have eAN : to_long (c.ADDRS_PER_BLOCK * c.NIDS_PER_BLOCK)
      = c.ADDRS_PER_BLOCK * c.NIDS_PER_BLOCK :=
    to_long_of_fits _ (by omega) (by omega)
  have eANN : to_long (c.ADDRS_PER_BLOCK * c.NIDS_PER_BLOCK * c.NIDS_PER_BLOCK)
      = c.ADDRS_PER_BLOCK * c.NIDS_PER_BLOCK * c.NIDS_PER_BLOCK :=
    to_long_of_fits _ (by omega) (by omega)
  have e1 : to_long (block - c.NORMAL_ADDRS_PER_INODE) = block - c.NORMAL_ADDRS_PER_INODE :=
    to_long_of_fits _ (by omega) (by omega)
  have e2 : to_long (block - c.NORMAL_ADDRS_PER_INODE - c.ADDRS_PER_BLOCK)
      = block - c.NORMAL_ADDRS_PER_INODE - c.ADDRS_PER_BLOCK :=
    to_long_of_fits _ (by omega) (by omega)
  have e3 : to_long (block - c.NORMAL_ADDRS_PER_INODE - c.ADDRS_PER_BLOCK - c.ADDRS_PER_BLOCK)
      = block - c.NORMAL_ADDRS_PER_INODE - c.ADDRS_PER_BLOCK - c.ADDRS_PER_BLOCK :=
    to_long_of_fits _ (by omega) (by omega)
  have e4 : to_long (block - c.NORMAL_ADDRS_PER_INODE - c.ADDRS_PER_BLOCK - c.ADDRS_PER_BLOCK
        - c.ADDRS_PER_BLOCK * c.NIDS_PER_BLOCK)
      = block - c.NORMAL_ADDRS_PER_INODE - c.ADDRS_PER_BLOCK - c.ADDRS_PER_BLOCK
        - c.ADDRS_PER_BLOCK * c.NIDS_PER_BLOCK :=
    to_long_of_fits _ (by omega) (by omega)
  have e5 : to_long (block - c.NORMAL_ADDRS_PER_INODE - c.ADDRS_PER_BLOCK - c.ADDRS_PER_BLOCK
        - c.ADDRS_PER_BLOCK * c.NIDS_PER_BLOCK - c.ADDRS_PER_BLOCK * c.NIDS_PER_BLOCK)
      = block - c.NORMAL_ADDRS_PER_INODE - c.ADDRS_PER_BLOCK - c.ADDRS_PER_BLOCK
        - c.ADDRS_PER_BLOCK * c.NIDS_PER_BLOCK - c.ADDRS_PER_BLOCK * c.NIDS_PER_BLOCK :=
    to_long_of_fits _ (by omega) (by omega)
  obtain ⟨d1, d2, d3, -⟩ := dindirect_digits c.ADDRS_PER_BLOCK c.NIDS_PER_BLOCK
    (block - c.NORMAL_ADDRS_PER_INODE - c.ADDRS_PER_BLOCK - c.ADDRS_PER_BLOCK
      - c.ADDRS_PER_BLOCK * c.NIDS_PER_BLOCK - c.ADDRS_PER_BLOCK * c.NIDS_PER_BLOCK) hA hN
    (by omega) (by omega) (by omega) (by omega)
  have n1 : ¬ block < c.NORMAL_ADDRS_PER_INODE := by omega
  have n2 : ¬ block - c.NORMAL_ADDRS_PER_INODE < c.ADDRS_PER_BLOCK := by omega
  have n3 : ¬ block - c.NORMAL_ADDRS_PER_INODE - c.ADDRS_PER_BLOCK < c.ADDRS_PER_BLOCK := by
    omega
  have n4 : ¬ block - c.NORMAL_ADDRS_PER_INODE - c.ADDRS_PER_BLOCK - c.ADDRS_PER_BLOCK
      < c.ADDRS_PER_BLOCK * c.NIDS_PER_BLOCK := by omega
  have n5 : ¬ block - c.NORMAL_ADDRS_PER_INODE - c.ADDRS_PER_BLOCK - c.ADDRS_PER_BLOCK
      - c.ADDRS_PER_BLOCK * c.NIDS_PER_BLOCK < c.ADDRS_PER_BLOCK * c.NIDS_PER_BLOCK := by
    omega
  have n6 : block - c.NORMAL_ADDRS_PER_INODE - c.ADDRS_PER_BLOCK - c.ADDRS_PER_BLOCK
      - c.ADDRS_PER_BLOCK * c.NIDS_PER_BLOCK - c.ADDRS_PER_BLOCK * c.NIDS_PER_BLOCK
      < c.ADDRS_PER_BLOCK * c.NIDS_PER_BLOCK * c.NIDS_PER_BLOCK := by
    omega
  simp only [get_node_path, eD, eA, eN, eAN, eANN, e1, e2, e3, e4, e5, s5, d1, d2, d3,
    if_neg n1, if_neg n2, if_neg n3, if_neg n4, if_neg n5, if_pos n6]
  exact ⟨_, rfl⟩

/-- The scenario layout satisfies `node_layout.fits`. -/
theorem scenario_layout_fits : scenario_layout.fits where
  inode_addrs := by simp [scenario_layout]
  addrs := by simp [scenario_layout]
  nids := by simp [scenario_layout]
  range := by norm_num [scenario_layout, node_layout.max_file_blocks]
  slots_int := by simp [scenario_layout]
  slots_distinct := by simp [scenario_layout]

/-! ## Claims on get_node_path -/

/-- C1: for every in-range block index, `get_node_path` returns a level in
{0,1,2,3}, every offset is within its bound, and rebuilding the linear block
index from the offsets and the level gives the block back. -/
theorem get_node_path_roundtrip (c : node_layout) (hc : c.fits) (block : Int)
    (offset noffset : Nat → Int) (h0 : 0 ≤ block) (h1 : block < c.max_file_blocks) :
    ∃ p, get_node_path c block offset noffset = some p ∧
      (p.level = 0 ∨ p.level = 1 ∨ p.level = 2 ∨ p.level = 3) ∧
      offsets_in_bounds c p ∧ block_of_path c p = block := by
  obtain ⟨p1, p2, p3, p4⟩ := hc.products
  have hA := hc.addrs
  have hN := hc.nids
  have hD := hc.inode_addrs
  have hnd := hc.slots_distinct
  simp only [List.nodup_cons, List.mem_cons, List.mem_singleton, not_or, List.not_mem_nil,
    not_false_eq_true, List.nodup_nil, and_true] at hnd
  obtain ⟨⟨n12, n13, n14, n15⟩, ⟨n23, n24, n25⟩, ⟨n34, n35⟩, n45⟩ := hnd
  by_cases c1 : block < c.NORMAL_ADDRS_PER_INODE
  · refine ⟨_, gnp_direct c hc block offset noffset h0 c1, Or.inl rfl, ?_, ?_⟩
    · refine ⟨fun _ => ?_, fun h => ?_, fun i _ h => ?_⟩
      · simp only [arr_set_same]; omega
      · simp at h
      · simp only at h; omega
    · simp [block_of_path, arr_set_same]
  by_cases c2 : block < c.NORMAL_ADDRS_PER_INODE + c.ADDRS_PER_BLOCK
  · refine ⟨_, gnp_dir1 c hc block offset noffset (by omega) c2, Or.inr (Or.inl rfl), ?_, ?_⟩
    · refine ⟨fun h => ?_, fun _ => ?_, fun i hi h => ?_⟩
      · simp at h
      · simp only [Int.toNat_one, arr_set_same]; omega
      · simp only at h; omega
    · simp [block_of_path, range_base, arr_set]
  by_cases c3 : block < c.NORMAL_ADDRS_PER_INODE + 2 * c.ADDRS_PER_BLOCK
  · refine ⟨_, gnp_dir2 c hc block offset noffset (by omega) c3, Or.inr (Or.inl rfl), ?_, ?_⟩
    · refine ⟨fun h => ?_, fun _ => ?_, fun i hi h => ?_⟩
      · simp at h
      · simp only [Int.toNat_one, arr_set_same]; omega
      · simp only at h; omega
    · simp only [block_of_path, range_base, arr_set]
      simp [Ne.symm n12]
  by_cases c4 : block < c.NORMAL_ADDRS_PER_INODE + 2 * c.ADDRS_PER_BLOCK
      + c.ADDRS_PER_BLOCK * c.NIDS_PER_BLOCK
  · obtain ⟨no, hp⟩ := gnp_ind1 c hc block offset noffset (by omega) c4
    obtain ⟨-, -, q0, q1, r0, r1⟩ := indirect_digits c.ADDRS_PER_BLOCK c.NIDS_PER_BLOCK
      (block - c.NORMAL_ADDRS_PER_INODE - c.ADDRS_PER_BLOCK - c.ADDRS_PER_BLOCK) hA hN
      (by omega) (by omega) (by omega) (by omega)
    have hsum := Int.ediv_add_emod
      (block - c.NORMAL_ADDRS_PER_INODE - c.ADDRS_PER_BLOCK - c.ADDRS_PER_BLOCK)
      c.ADDRS_PER_BLOCK
    generalize (block - c.NORMAL_ADDRS_PER_INODE - c.ADDRS_PER_BLOCK - c.ADDRS_PER_BLOCK)
      / c.ADDRS_PER_BLOCK = q at hp q0 q1 hsum
    generalize (block - c.NORMAL_ADDRS_PER_INODE - c.ADDRS_PER_BLOCK - c.ADDRS_PER_BLOCK)
      % c.ADDRS_PER_BLOCK = r at hp r0 r1 hsum
    refine ⟨_, hp, Or.inr (Or.inr (Or.inl rfl)), ?_, ?_⟩
    · refine ⟨fun h => ?_, fun _ => ?_, fun i hi h => ?_⟩
      · simp at h
      · have : (2 : Int).toNat = 2 := rfl
        simp only [this, arr_set_same]; omega
      · simp only at h
        have hi1 : i = 1 := by omega
        subst hi1
        simp only [arr_set, if_neg (by decide : (1 : Nat) ≠ 2), if_pos]
        omega
    · simp only [block_of_path, range_base, arr_set]
      simp [Ne.symm n13, Ne.symm n23]
      linarith
  by_cases c5 : block < c.NORMAL_ADDRS_PER_INODE + 2 * c.ADDRS_PER_BLOCK
      + 2 * (c.ADDRS_PER_BLOCK * c.NIDS_PER_BLOCK)
  · obtain ⟨no, hp⟩ := gnp_ind2 c hc block offset noffset (by omega) c5
    obtain ⟨-, -, q0, q1, r0, r1⟩ := indirect_digits c.ADDRS_PER_BLOCK c.NIDS_PER_BLOCK
      (block - c.NORMAL_ADDRS_PER_INODE - c.ADDRS_PER_BLOCK - c.ADDRS_PER_BLOCK
        - c.ADDRS_PER_BLOCK * c.NIDS_PER_BLOCK) hA hN
      (by omega) (by omega) (by omega) (by omega)
    have hsum := Int.ediv_add_emod
      (block - c.NORMAL_ADDRS_PER_INODE - c.ADDRS_PER_BLOCK - c.ADDRS_PER_BLOCK
        - c.ADDRS_PER_BLOCK * c.NIDS_PER_BLOCK)
      c.ADDRS_PER_BLOCK
    generalize (block - c.NORMAL_ADDRS_PER_INODE - c.ADDRS_PER_BLOCK - c.ADDRS_PER_BLOCK
      - c.ADDRS_PER_BLOCK * c.NIDS_PER_BLOCK) / c.ADDRS_PER_BLOCK = q at hp q0 q1 hsum
    generalize (block - c.NORMAL_ADDRS_PER_INODE - c.ADDRS_PER_BLOCK - c.ADDRS_PER_BLOCK
      - c.ADDRS_PER_BLOCK * c.NIDS_PER_BLOCK) % c.ADDRS_PER_BLOCK = r at hp r0 r1 hsum
    refine ⟨_, hp, Or.inr (Or.inr (Or.inl rfl)), ?_, ?_⟩
    · refine ⟨fun h => ?_, fun _ => ?_, fun i hi h => ?_⟩
      · simp at h
      · have : (2 : Int).toNat = 2 := rfl
        simp only [this, arr_set_same]; omega
      · simp only at h
        have hi1 : i = 1 := by omega
        subst hi1
        simp only [arr_set, if_neg (by decide : (1 : Nat) ≠ 2), if_pos]
        omega
    · simp only [block_of_path, range_base, arr_set]
      simp [Ne.symm n14, Ne.symm n24, Ne.symm n34]
      linarith
  · obtain ⟨no, hp⟩ := gnp_dind c hc block offset noffset (by omega) h1
    have h1' := h1
    unfold node_layout.max_file_blocks at h1'
    obtain ⟨-, -, -, q0, q1, s0, s1, r0, r1⟩ :=
      dindirect_digits c.ADDRS_PER_BLOCK c.NIDS_PER_BLOCK
        (block - c.NORMAL_ADDRS_PER_INODE - c.ADDRS_PER_BLOCK - c.ADDRS_PER_BLOCK
          - c.ADDRS_PER_BLOCK * c.NIDS_PER_BLOCK - c.ADDRS_PER_BLOCK * c.NIDS_PER_BLOCK)
        hA hN (by omega) (by omega) (by omega) (by omega)
    have hsum := digits_sum
      (block - c.NORMAL_ADDRS_PER_INODE - c.ADDRS_PER_BLOCK - c.ADDRS_PER_BLOCK
        - c.ADDRS_PER_BLOCK * c.NIDS_PER_BLOCK - c.ADDRS_PER_BLOCK * c.NIDS_PER_BLOCK)
      c.ADDRS_PER_BLOCK c.NIDS_PER_BLOCK hA hN
    generalize (block - c.NORMAL_ADDRS_PER_INODE - c.ADDRS_PER_BLOCK - c.ADDRS_PER_BLOCK
      - c.ADDRS_PER_BLOCK * c.NIDS_PER_BLOCK - c.ADDRS_PER_BLOCK * c.NIDS_PER_BLOCK)
      / (c.ADDRS_PER_BLOCK * c.NIDS_PER_BLOCK) = q at hp q0 q1 hsum
    generalize (block - c.NORMAL_ADDRS_PER_INODE - c.ADDRS_PER_BLOCK - c.ADDRS_PER_BLOCK
      - c.ADDRS_PER_BLOCK * c.NIDS_PER_BLOCK - c.ADDRS_PER_BLOCK * c.NIDS_PER_BLOCK)
      / c.ADDRS_PER_BLOCK % c.NIDS_PER_BLOCK = s at hp s0 s1 hsum
    generalize (block - c.NORMAL_ADDRS_PER_INODE - c.ADDRS_PER_BLOCK - c.ADDRS_PER_BLOCK
      - c.ADDRS_PER_BLOCK * c.NIDS_PER_BLOCK - c.ADDRS_PER_BLOCK * c.NIDS_PER_BLOCK)
      % c.ADDRS_PER_BLOCK = r at hp r0 r1 hsum
    refine ⟨_, hp, Or.inr (Or.inr (Or.inr rfl)), ?_, ?_⟩
    · refine ⟨fun h => ?_, fun _ => ?_, fun i hi h => ?_⟩
      · simp at h
      · have : (3 : Int).toNat = 3 := rfl
        simp only [this, arr_set_same]; omega
      · simp only at h
        have hi1 : i = 1 ∨ i = 2 := by omega
        rcases hi1 with hi1 | hi1 <;> subst hi1
        · simp only [arr_set, if_neg (by decide : (1 : Nat) ≠ 2),
            if_neg (by decide : (1 : Nat) ≠ 3), if_pos]
          omega
        · simp only [arr_set, if_neg (by decide : (2 : Nat) ≠ 3), if_pos]
          omega
    · simp only [block_of_path, range_base, arr_set]
      simp [Ne.symm n15, Ne.symm n25, Ne.symm n35, Ne.symm n45]
      linarith

/-- Witness for C1: block 2959 of the scenario layout. -/
theorem get_node_path_roundtrip_witness :
    scenario_layout.fits ∧ (0 : Int) ≤ 2959 ∧ (2959 : Int) < scenario_layout.max_file_blocks ∧
    ∃ p, get_node_path scenario_layout 2959 (fun _ => 0) (fun _ => 0) = some p ∧
      (p.level = 0 ∨ p.level = 1 ∨ p.level = 2 ∨ p.level = 3) ∧
      offsets_in_bounds scenario_layout p ∧ block_of_path scenario_layout p = 2959 :=
  ⟨scenario_layout_fits, by decide, by decide,
    get_node_path_roundtrip scenario_layout scenario_layout_fits 2959 _ _ (by decide)
      (by decide)⟩

/-- C2: `get_node_path` maps the cumulative block ranges to levels and inode
slots as listed: the inode's own addresses at level 0, then one direct node
each through `NODE_DIR1_BLOCK` and `NODE_DIR2_BLOCK` at level 1, then one
indirect node each through `NODE_IND1_BLOCK` and `NODE_IND2_BLOCK` at level 2,
then the double-indirect node through `NODE_DIND_BLOCK` at level 3, with the
offsets inside the range as quotients and remainders. -/
theorem get_node_path_ranges (c : node_layout) (hc : c.fits) (block : Int)
    (offset noffset : Nat → Int) (h0 : 0 ≤ block) (h1 : block < c.max_file_blocks) :
    ∃ p, get_node_path c block offset noffset = some p ∧
      (block < c.NORMAL_ADDRS_PER_INODE → p.level = 0 ∧ p.offset 0 = block) ∧
      (c.NORMAL_ADDRS_PER_INODE ≤ block →
        block < c.NORMAL_ADDRS_PER_INODE + c.ADDRS_PER_BLOCK →
        p.level = 1 ∧ p.offset 0 = c.NODE_DIR1_BLOCK ∧
        p.offset 1 = block - c.NORMAL_ADDRS_PER_INODE ∧ p.noffset 1 = 1) ∧
      (c.NORMAL_ADDRS_PER_INODE + c.ADDRS_PER_BLOCK ≤ block →
        block < c.NORMAL_ADDRS_PER_INODE + 2 * c.ADDRS_PER_BLOCK →
        p.level = 1 ∧ p.offset 0 = c.NODE_DIR2_BLOCK ∧
        p.offset 1 = block - (c.NORMAL_ADDRS_PER_INODE + c.ADDRS_PER_BLOCK) ∧
        p.noffset 1 = 2) ∧
      (c.NORMAL_ADDRS_PER_INODE + 2 * c.ADDRS_PER_BLOCK ≤ block →
        block < c.NORMAL_ADDRS_PER_INODE + 2 * c.ADDRS_PER_BLOCK
          + c.ADDRS_PER_BLOCK * c.NIDS_PER_BLOCK →
        p.level = 2 ∧ p.offset 0 = c.NODE_IND1_BLOCK ∧
        p.offset 1 = (block - (c.NORMAL_ADDRS_PER_INODE + 2 * c.ADDRS_PER_BLOCK))
          / c.ADDRS_PER_BLOCK ∧
        p.offset 2 = (block - (c.NORMAL_ADDRS_PER_INODE + 2 * c.ADDRS_PER_BLOCK))
          % c.ADDRS_PER_BLOCK) ∧
      (c.NORMAL_ADDRS_PER_INODE + 2 * c.ADDRS_PER_BLOCK
          + c.ADDRS_PER_BLOCK * c.NIDS_PER_BLOCK ≤ block →
        block < c.NORMAL_ADDRS_PER_INODE + 2 * c.ADDRS_PER_BLOCK
          + 2 * (c.ADDRS_PER_BLOCK * c.NIDS_PER_BLOCK) →
        p.level = 2 ∧ p.offset 0 = c.NODE_IND2_BLOCK ∧
        p.offset 1 = (block - (c.NORMAL_ADDRS_PER_INODE + 2 * c.ADDRS_PER_BLOCK
          + c.ADDRS_PER_BLOCK * c.NIDS_PER_BLOCK)) / c.ADDRS_PER_BLOCK ∧
        p.offset 2 = (block - (c.NORMAL_ADDRS_PER_INODE + 2 * c.ADDRS_PER_BLOCK
          + c.ADDRS_PER_BLOCK * c.NIDS_PER_BLOCK)) % c.ADDRS_PER_BLOCK) ∧
      (c.NORMAL_ADDRS_PER_INODE + 2 * c.ADDRS_PER_BLOCK
          + 2 * (c.ADDRS_PER_BLOCK * c.NIDS_PER_BLOCK) ≤ block →
        p.level = 3 ∧ p.offset 0 = c.NODE_DIND_BLOCK ∧
        p.offset 1 = (block - (c.NORMAL_ADDRS_PER_INODE + 2 * c.ADDRS_PER_BLOCK
          + 2 * (c.ADDRS_PER_BLOCK * c.NIDS_PER_BLOCK)))
          / (c.ADDRS_PER_BLOCK * c.NIDS_PER_BLOCK) ∧
        p.offset 2 = (block - (c.NORMAL_ADDRS_PER_INODE + 2 * c.ADDRS_PER_BLOCK
          + 2 * (c.ADDRS_PER_BLOCK * c.NIDS_PER_BLOCK)))
          / c.ADDRS_PER_BLOCK % c.NIDS_PER_BLOCK ∧
        p.offset 3 = (block - (c.NORMAL_ADDRS_PER_INODE + 2 * c.ADDRS_PER_BLOCK
          + 2 * (c.ADDRS_PER_BLOCK * c.NIDS_PER_BLOCK))) % c.ADDRS_PER_BLOCK) := by
  obtain ⟨p1, p2, p3, p4⟩ := hc.products
  have hA := hc.addrs
  have hN := hc.nids
  have hD := hc.inode_addrs
  by_cases c1 : block < c.NORMAL_ADDRS_PER_INODE
  · refine ⟨_, gnp_direct c hc block offset noffset h0 c1, fun _ => ⟨rfl, rfl⟩,
      ?_, ?_, ?_, ?_, ?_⟩ <;> intros <;> omega
  by_cases c2 : block < c.NORMAL_ADDRS_PER_INODE + c.ADDRS_PER_BLOCK
  · refine ⟨_, gnp_dir1 c hc block offset noffset (by omega) c2, fun h => absurd h c1,
      fun _ _ => ⟨rfl, rfl, rfl, rfl⟩, ?_, ?_, ?_, ?_⟩
    all_goals intros; omega
  by_cases c3 : block < c.NORMAL_ADDRS_PER_INODE + 2 * c.ADDRS_PER_BLOCK
  · refine ⟨_, gnp_dir2 c hc block offset noffset (by omega) c3, fun h => absurd h c1,
      fun _ h => absurd h c2, fun _ _ => ⟨rfl, rfl, ?_, rfl⟩, ?_, ?_, ?_⟩
    · dsimp only
      rw [arr_set_same]; omega
    all_goals intros; omega
  by_cases c4 : block < c.NORMAL_ADDRS_PER_INODE + 2 * c.ADDRS_PER_BLOCK
      + c.ADDRS_PER_BLOCK * c.NIDS_PER_BLOCK
  · obtain ⟨no, hp⟩ := gnp_ind1 c hc block offset noffset (by omega) c4
    have e : block - c.NORMAL_ADDRS_PER_INODE - c.ADDRS_PER_BLOCK - c.ADDRS_PER_BLOCK
        = block - (c.NORMAL_ADDRS_PER_INODE + 2 * c.ADDRS_PER_BLOCK) := by ring
    rw [e] at hp
    refine ⟨_, hp, fun h => absurd h c1, fun _ h => absurd h c2, fun _ h => absurd h c3,
      fun _ _ => ⟨rfl, rfl, rfl, rfl⟩, ?_, ?_⟩
    all_goals intros; omega
  by_cases c5 : block < c.NORMAL_ADDRS_PER_INODE + 2 * c.ADDRS_PER_BLOCK
      + 2 * (c.ADDRS_PER_BLOCK * c.NIDS_PER_BLOCK)
  · obtain ⟨no, hp⟩ := gnp_ind2 c hc block offset noffset (by omega) c5
    have e : block - c.NORMAL_ADDRS_PER_INODE - c.ADDRS_PER_BLOCK - c.ADDRS_PER_BLOCK
          - c.ADDRS_PER_BLOCK * c.NIDS_PER_BLOCK
        = block - (c.NORMAL_ADDRS_PER_INODE + 2 * c.ADDRS_PER_BLOCK
          + c.ADDRS_PER_BLOCK * c.NIDS_PER_BLOCK) := by ring
    rw [e] at hp
    refine ⟨_, hp, fun h => absurd h c1, fun _ h => absurd h c2, fun _ h => absurd h c3,
      fun _ h => absurd h c4, fun _ _ => ⟨rfl, rfl, rfl, rfl⟩, ?_⟩
    intros; omega
  · obtain ⟨no, hp⟩ := gnp_dind c hc block offset noffset (by omega) h1
    have e : block - c.NORMAL_ADDRS_PER_INODE - c.ADDRS_PER_BLOCK - c.ADDRS_PER_BLOCK
          - c.ADDRS_PER_BLOCK * c.NIDS_PER_BLOCK - c.ADDRS_PER_BLOCK * c.NIDS_PER_BLOCK
        = block - (c.NORMAL_ADDRS_PER_INODE + 2 * c.ADDRS_PER_BLOCK
          + 2 * (c.ADDRS_PER_BLOCK * c.NIDS_PER_BLOCK)) := by ring
    rw [e] at hp
    exact ⟨_, hp, fun h => absurd h c1, fun _ h => absurd h c2, fun _ h => absurd h c3,
      fun _ h => absurd h c4, fun _ h => absurd h c5, fun _ => ⟨rfl, rfl, rfl, rfl, rfl⟩⟩

/-- Witness for C2, the two literal scenarios of the claim: block 923 is the
first block of the first direct node, and block 923 + 2·1018 + 1018·1018 is the
first block of the second indirect node. -/
theorem get_node_path_ranges_witness :
    scenario_layout.fits ∧
    (∃ p, get_node_path scenario_layout 923 (fun _ => 0) (fun _ => 0) = some p ∧
      p.level = 1 ∧ p.offset 0 = scenario_layout.NODE_DIR1_BLOCK ∧ p.offset 1 = 0 ∧
      p.noffset 1 = 1) ∧
    (∃ p, get_node_path scenario_layout (923 + 2 * 1018 + 1018 * 1018) (fun _ => 0)
        (fun _ => 0) = some p ∧
      p.level = 2 ∧ p.offset 0 = scenario_layout.NODE_IND2_BLOCK ∧ p.offset 1 = 0 ∧
      p.offset 2 = 0) := by
  refine ⟨scenario_layout_fits, ?_, ?_⟩
  · obtain ⟨p, hp, -, h, -⟩ := get_node_path_ranges scenario_layout scenario_layout_fits 923
      (fun _ => 0) (fun _ => 0) (by decide) (by decide)
    obtain ⟨a, b, c, d⟩ := h (by decide) (by decide)
    exact ⟨p, hp, a, b, c.trans (by decide), d⟩
  · obtain ⟨p, hp, -, -, -, -, h, -⟩ := get_node_path_ranges scenario_layout
      scenario_layout_fits (923 + 2 * 1018 + 1018 * 1018) (fun _ => 0) (fun _ => 0)
      (by decide) (by decide)
    obtain ⟨a, b, c, d⟩ := h (by decide) (by decide)
    exact ⟨p, hp, a, b, c.trans (by decide), d.trans (by decide)⟩

/-- C3, as the code has it: with 923 addresses in the inode and 1018 addresses
and nids per node, block 923 + 2·1018 is the first block behind the two direct
nodes, so `get_node_path` returns level 2 with `offset[0] = NODE_IND1_BLOCK`,
`offset[1] = 0` and `offset[2] = 0`. -/
theorem get_node_path_after_direct_nodes (c : node_layout) (hc : c.fits)
    (hD : c.NORMAL_ADDRS_PER_INODE = 923) (hA : c.ADDRS_PER_BLOCK = 1018)
    (hN : c.NIDS_PER_BLOCK = 1018) (offset noffset : Nat → Int) :
    ∃ p, get_node_path c (923 + 2 * 1018) offset noffset = some p ∧
      p.level = 2 ∧ p.offset 0 = c.NODE_IND1_BLOCK ∧ p.offset 1 = 0 ∧ p.offset 2 = 0 := by
  obtain ⟨no, hp⟩ := gnp_ind1 c hc (923 + 2 * 1018) offset noffset
    (by omega) (by rw [hD, hA, hN]; norm_num)
  rw [hD, hA] at hp
  exact ⟨_, hp, rfl, rfl, rfl, rfl⟩

/-- Witness for C3 as amended: the scenario layout. -/
theorem get_node_path_after_direct_nodes_witness :
    scenario_layout.fits ∧ scenario_layout.NORMAL_ADDRS_PER_INODE = 923 ∧
    scenario_layout.ADDRS_PER_BLOCK = 1018 ∧ scenario_layout.NIDS_PER_BLOCK = 1018 ∧
    ∃ p, get_node_path scenario_layout (923 + 2 * 1018) (fun _ => 0) (fun _ => 0) = some p ∧
      p.level = 2 ∧ p.offset 0 = scenario_layout.NODE_IND1_BLOCK ∧ p.offset 1 = 0 ∧
      p.offset 2 = 0 :=
  ⟨scenario_layout_fits, rfl, rfl, rfl,
    get_node_path_after_direct_nodes scenario_layout scenario_layout_fits rfl rfl rfl _ _⟩

/-- Counterexample to C3 as stated: in the scenario layout `get_node_path` does
not return level 1 through `NODE_DIR2_BLOCK` for block 923 + 2·1018. -/
theorem get_node_path_2959_not_dir2 :
    ¬ ∃ p, get_node_path scenario_layout (923 + 2 * 1018) (fun _ => 0) (fun _ => 0) = some p ∧
      p.level = 1 ∧ p.offset 0 = scenario_layout.NODE_DIR2_BLOCK ∧ p.offset 1 = 0 := by
  rintro ⟨p, hp, hl, -⟩
  obtain ⟨no, hq⟩ := gnp_ind1 scenario_layout scenario_layout_fits (923 + 2 * 1018)
    (fun _ => 0) (fun _ => 0) (by decide) (by decide)
  rw [hq] at hp
  cases hp
  have h21 : (2 : Int) = 1 := hl
  exact absurd h21 (by decide)

/-! ## NAT cache: the retry loop and the update -/

theorem grab_nat_entry_other (nm : hmfs_nm_info) (nid m : Nat) (h : m ≠ nid) :
    (grab_nat_entry nm nid).2.nat_root m = nm.nat_root m := by
  unfold grab_nat_entry
  split
  · rfl
  · split
    · rfl
    · simp [h]

theorem nat_entry_retry_other (nid m : Nat) (h : m ≠ nid) :
    ∀ (fuel : Nat) (nm : hmfs_nm_info), (nat_entry_retry fuel nm nid).nat_root m = nm.nat_root m
  | 0, nm => rfl
  | fuel + 1, nm => by
    unfold nat_entry_retry
    split
    · rfl
    · split
      · next e nm1 hg =>
        have := grab_nat_entry_other nm nid m h
        rw [hg] at this
        exact this
      · next nm1 hg =>
        have := grab_nat_entry_other nm nid m h
        rw [hg] at this
        rw [nat_entry_retry_other nid m h fuel nm1]
        exact this

/-- With more rounds than pending slab failures the retry loop ends holding an
entry for the nid. -/
theorem nat_entry_retry_some (nid : Nat) :
    ∀ (fuel : Nat) (nm : hmfs_nm_info), nm.slab_faults < fuel →
      ∃ e, (nat_entry_retry fuel nm nid).nat_root nid = some e
  | 0, nm, h => absurd h (Nat.not_lt_zero _)
  | fuel + 1, nm, h => by
    unfold nat_entry_retry __lookup_nat_cache
    cases hl : nm.nat_root nid with
    | some e => exact ⟨e, hl⟩
    | none =>
      simp only
      unfold grab_nat_entry
      cases hk : nm.slab_faults with
      | succ k =>
        simp only
        apply nat_entry_retry_some nid fuel
        simp only
        omega
      | zero =>
        simp only [hl]
        exact ⟨⟨0, nid, 0, 0⟩, by simp⟩

/-- What `update_nat_entry` leaves in the radix tree under the nid. -/
theorem update_nat_entry_root (nm : hmfs_nm_info) (nid ino blk_addr version : Nat)
    (dirty : Bool) :
    (update_nat_entry nm nid ino blk_addr version dirty).nat_root nid
      = some ⟨ino, nid, blk_addr, version⟩ := by
  obtain ⟨e, he⟩ := nat_entry_retry_some nid (nm.slab_faults + 1) nm (Nat.lt_succ_self _)
  unfold update_nat_entry __lookup_nat_cache
  simp only [he]
  cases dirty <;> simp

theorem update_nat_entry_root_other (nm : hmfs_nm_info) (nid ino blk_addr version : Nat)
    (dirty : Bool) (m : Nat) (h : m ≠ nid) :
    (update_nat_entry nm nid ino blk_addr version dirty).nat_root m = nm.nat_root m := by
  have hr := nat_entry_retry_other nid m h (nm.slab_faults + 1) nm
  obtain ⟨e, he⟩ := nat_entry_retry_some nid (nm.slab_faults + 1) nm (Nat.lt_succ_self _)
  unfold update_nat_entry __lookup_nat_cache
  simp only [he]
  cases dirty <;> simp [h, hr]

/-- A cache hit of `get_node_info`. -/
theorem get_node_info_cached (c : hmfs_consts) (sbi : hmfs_sb_info) (nid : Nat)
    (ni e : node_info) (h : sbi.nm_info.nat_root nid = some e) :
    get_node_info c sbi nid ni
      = (0, { ni with ino := e.ino, blk_addr := e.blk_addr, version := e.version }) := by
  simp [get_node_info, __lookup_nat_cache, h]

/-! ## Claims on the node manager -/

/-- C4: `get_node` classifies the `node_info` resolved by `get_node_info`: a
failure of `get_node_info` is returned as it is, `NULL_ADDR` gives `-ENODATA`,
`NEW_ADDR` and `FREE_ADDR` give `-EINVAL`, and every other address gives the
pointer `ADDR(blk_addr)`, never an error. -/
theorem get_node_classifies (c : hmfs_consts) (sbi : hmfs_sb_info) (nid : Nat)
    (ni : node_info) (hnew : c.NEW_ADDR ≠ c.NULL_ADDR) (hfree : c.FREE_ADDR ≠ c.NULL_ADDR) :
    ((get_node_info c sbi nid ni).1 ≠ 0 →
      get_node c sbi nid ni = .error (get_node_info c sbi nid ni).1) ∧
    ((get_node_info c sbi nid ni).1 = 0 →
      ((get_node_info c sbi nid ni).2.blk_addr = c.NULL_ADDR →
        get_node c sbi nid ni = .error (-ENODATA)) ∧
      ((get_node_info c sbi nid ni).2.blk_addr = c.NEW_ADDR ∨
          (get_node_info c sbi nid ni).2.blk_addr = c.FREE_ADDR →
        get_node c sbi nid ni = .error (-EINVAL)) ∧
      ((get_node_info c sbi nid ni).2.blk_addr ≠ c.NULL_ADDR →
        (get_node_info c sbi nid ni).2.blk_addr ≠ c.NEW_ADDR →
        (get_node_info c sbi nid ni).2.blk_addr ≠ c.FREE_ADDR →
        get_node c sbi nid ni = .ok (ADDR sbi (get_node_info c sbi nid ni).2.blk_addr))) := by
  refine ⟨fun h => ?_, fun h => ⟨fun h1 => ?_, fun h2 => ?_, fun h1 h2 h3 => ?_⟩⟩
  · simp [get_node, h]
  · simp [get_node, h, h1]
  · have h1 : (get_node_info c sbi nid ni).2.blk_addr ≠ c.NULL_ADDR := by
      rcases h2 with h2 | h2 <;> rw [h2] <;> assumption
    simp [get_node, h, h1, h2]
  · simp [get_node, h, h1, h2, h3]

/-- Witness for C4: in the sample instance nid 9 has a live block after
`get_new_node`, and `get_node` returns the pointer to it. -/
theorem get_node_classifies_witness :
    sample_consts.NEW_ADDR ≠ sample_consts.NULL_ADDR ∧
    sample_consts.FREE_ADDR ≠ sample_consts.NULL_ADDR ∧
    (get_node_info sample_consts sample_sb_live 9 zero_ni).1 = 0 ∧
    get_node sample_consts sample_sb_live 9 zero_ni = .ok (ADDR sample_sb_live 65536) :=
  ⟨by decide, by decide, by decide,
    ((get_node_classifies sample_consts sample_sb_live 9 zero_ni (by decide) (by decide)).2
      (by decide)).2.2 (by decide) (by decide) (by decide)⟩

/-- C5: after `update_nat_entry(nid, ino, blk_addr, version, dirty)` a
`get_node_info(nid)` succeeds with exactly `(ino, blk_addr, version)`, whatever
the journal and the NVM tree hold for the nid, and the cached entries of all
other nids are unchanged. -/
theorem update_nat_entry_then_get_node_info (c : hmfs_consts) (sbi : hmfs_sb_info)
    (nid ino blk_addr version : Nat) (dirty : Bool) (ni : node_info) :
    get_node_info c
        { sbi with nm_info := update_nat_entry sbi.nm_info nid ino blk_addr version dirty }
        nid ni
      = (0, { ni with ino := ino, blk_addr := blk_addr, version := version }) ∧
    ∀ m, m ≠ nid →
      (update_nat_entry sbi.nm_info nid ino blk_addr version dirty).nat_root m
        = sbi.nm_info.nat_root m :=
  ⟨get_node_info_cached c _ nid ni _
      (update_nat_entry_root sbi.nm_info nid ino blk_addr version dirty),
    fun m hm => update_nat_entry_root_other sbi.nm_info nid ino blk_addr version dirty m hm⟩

/-- C6, the code at a failing input: with nids 1 and 2 on the dirty list, in
ascending order, `update_nat_entry(3, ..., dirty = true)` puts the entry of nid
3 right behind the first entry, and the dirty list is no longer sorted. -/
theorem update_nat_entry_unsorts_dirty_list :
    sample_nm_dirty.dirty_nat_entries = [1, 2] ∧
    (update_nat_entry sample_nm_dirty 3 3 73728 5 true).dirty_nat_entries = [1, 3, 2] ∧
    ¬ List.Sorted (fun a b => a < b)
      (update_nat_entry sample_nm_dirty 3 3 73728 5 true).dirty_nat_entries := by
  have h : (update_nat_entry sample_nm_dirty 3 3 73728 5 true).dirty_nat_entries = [1, 3, 2] := by
    decide
  refine ⟨by decide, h, ?_⟩
  rw [h]
  decide

/-- C9: when `valid_node_count + 1 >= max_nid`, `alloc_nid` returns false and
leaves the state, the pool included, as it is; otherwise, with `fcnt > 0`, it
returns true with the nid of slot `fcnt - 1`, and the state differs only in
`fcnt`, which is one less: no rebuild takes place. -/
theorem alloc_nid_no_space_and_fast_path (c : hmfs_consts) (fuel : Nat) (sbi : hmfs_sb_info)
    (nid : Nat) :
    (sbi.cp_info.valid_node_count + 1 ≥ (sbi.nm_info.max_nid : Int) →
      alloc_nid c (fuel + 1) sbi nid = .ok (false, nid, sbi)) ∧
    (sbi.cp_info.valid_node_count + 1 < (sbi.nm_info.max_nid : Int) →
      0 < sbi.nm_info.fcnt →
      ∃ sbi1, alloc_nid c (fuel + 1) sbi nid
          = .ok (true, c.get_free_nid (sbi.nm_info.free_nids.getD (sbi.nm_info.fcnt - 1) 0),
              sbi1) ∧
        sbi1.nm_info.fcnt + 1 = sbi.nm_info.fcnt ∧
        sbi1 = { sbi with nm_info := { sbi.nm_info with fcnt := sbi1.nm_info.fcnt } }) := by
  refine ⟨fun h => ?_, fun h hf => ?_⟩
  · simp [alloc_nid, h]
  · have h1 : ¬ sbi.cp_info.valid_node_count + 1 ≥ (sbi.nm_info.max_nid : Int) := not_le.mpr h
    refine ⟨{ sbi with nm_info := { sbi.nm_info with fcnt := sbi.nm_info.fcnt - 1 } }, ?_, ?_,
      rfl⟩
    · simp only [alloc_nid, if_neg h1]
      rw [if_pos hf]
    · show sbi.nm_info.fcnt - 1 + 1 = sbi.nm_info.fcnt
      omega

/-- Witness for C9: the sample pool holds two nids, and `alloc_nid` pops nid 21
from slot 1. -/
theorem alloc_nid_no_space_and_fast_path_witness :
    sample_sb.cp_info.valid_node_count + 1 < (sample_sb.nm_info.max_nid : Int) ∧
    0 < sample_sb.nm_info.fcnt ∧
    ∃ sbi1, alloc_nid sample_consts 1 sample_sb 0 = .ok (true, 21, sbi1) ∧
      sbi1.nm_info.fcnt + 1 = sample_sb.nm_info.fcnt ∧
      sbi1 = { sample_sb with nm_info := { sample_sb.nm_info with fcnt := sbi1.nm_info.fcnt } } :=
  ⟨by decide, by decide,
    (alloc_nid_no_space_and_fast_path sample_consts 0 sample_sb 0).2 (by decide) (by decide)⟩

theorem take_set_self (v : Nat) : ∀ (l : List Nat) (k : Nat), (l.set k v).take k = l.take k
  | [], k => by simp
  | x :: xs, 0 => by simp
  | x :: xs, k + 1 => by simp [take_set_self v xs k]

theorem count_take_set (l : List Nat) (k v : Nat) (hk : k < l.length) :
    ((l.set k v).take (k + 1)).count v = (l.take k).count v + 1 := by
  rw [List.take_succ, take_set_self]
  simp [hk]

/-- C10: with `fcnt = k` below the pool capacity, `alloc_nid_failed(nid)` makes
`fcnt = k + 1`, puts `make_free_nid(nid, 1)` into slot `k` and leaves the slots
below `k` alone, so the live slots equal to `make_free_nid(nid, 1)` are one
more than before. -/
theorem alloc_nid_failed_pushes (c : hmfs_consts) (sbi : hmfs_sb_info) (nid : Nat)
    (hk : sbi.nm_info.fcnt < sbi.nm_info.free_nids.length) :
    (alloc_nid_failed c sbi nid).nm_info.fcnt = sbi.nm_info.fcnt + 1 ∧
    (alloc_nid_failed c sbi nid).nm_info.free_nids[sbi.nm_info.fcnt]?
      = some (c.make_free_nid nid 1) ∧
    (∀ i, i < sbi.nm_info.fcnt →
      (alloc_nid_failed c sbi nid).nm_info.free_nids[i]? = sbi.nm_info.free_nids[i]?) ∧
    ((alloc_nid_failed c sbi nid).nm_info.free_nids.take
        (alloc_nid_failed c sbi nid).nm_info.fcnt).count (c.make_free_nid nid 1)
      = (sbi.nm_info.free_nids.take sbi.nm_info.fcnt).count (c.make_free_nid nid 1) + 1 := by
  refine ⟨rfl, ?_, fun i hi => ?_, ?_⟩
  · simp [alloc_nid_failed, hk]
  · simp only [alloc_nid_failed]
    rw [List.getElem?_set_ne (Nat.ne_of_gt hi)]
  · exact count_take_set _ _ _ hk

/-- Witness for C10: nid 30 is pushed on the sample pool, which holds two of
its sixteen slots. -/
theorem alloc_nid_failed_pushes_witness :
    sample_sb.nm_info.fcnt < sample_sb.nm_info.free_nids.length ∧
    (alloc_nid_failed sample_consts sample_sb 30).nm_info.fcnt = 3 ∧
    (alloc_nid_failed sample_consts sample_sb 30).nm_info.free_nids[2]?
      = some (sample_consts.make_free_nid 30 1) :=
  ⟨by decide,
    (alloc_nid_failed_pushes sample_consts sample_sb 30 (by decide)).1,
    (alloc_nid_failed_pushes sample_consts sample_sb 30 (by decide)).2.1⟩

theorem fits_shift (t : nat_tree_consts) (H h : Nat) (hf : t.fits H) (hh : h < H) :
    (h * t.LOG2_NAT_ADDRS_PER_NODE) % 65536 = h * t.LOG2_NAT_ADDRS_PER_NODE := by
  have h1 := hf.2
  have : h * t.LOG2_NAT_ADDRS_PER_NODE ≤ H * t.LOG2_NAT_ADDRS_PER_NODE :=
    Nat.mul_le_mul_right _ (le_of_lt hh)
  omega

theorem fits_pow (t : nat_tree_consts) (H h : Nat) (hf : t.fits H) :
    2 ^ (h * t.LOG2_NAT_ADDRS_PER_NODE) = t.NAT_ADDR_PER_NODE ^ h := by
  rw [hf.1, ← pow_mul, mul_comm]

/-- The out-parameters of `get_child_nat_addr` in quotient and remainder form. -/
theorem get_child_nat_addr_eq (t : nat_tree_consts) (H h : Nat) (hf : t.fits H) (hh : h < H)
    (sbi : hmfs_sb_info) (cur order x y : Nat) (hc : cur ≠ 0) :
    get_child_nat_addr t sbi cur order x y (h + 1)
      = ((sbi.nat_area cur).addr (order / t.NAT_ADDR_PER_NODE ^ h),
          order % t.NAT_ADDR_PER_NODE ^ h) := by
  unfold get_child_nat_addr
  simp only [if_neg hc, Nat.add_sub_cancel, fits_shift t H h hf hh, Nat.shiftRight_eq_div_pow,
    Nat.one_shiftLeft, Nat.and_pow_two_sub_one_eq_mod]
  rw [fits_pow t H h hf]

theorem get_nat_page_eq_nat_read (t : nat_tree_consts) (H : Nat) (hf : t.fits H)
    (sbi : hmfs_sb_info) :
    ∀ (h : Nat), h ≤ H → ∀ (root order : Nat),
      __get_nat_page t sbi h root order = nat_read t.NAT_ADDR_PER_NODE sbi.nat_area h root order
  | 0, _, root, order => by
    unfold __get_nat_page nat_read ADDR
    split <;> simp_all
  | h + 1, hh, root, order => by
    unfold __get_nat_page nat_read
    by_cases hr : root = 0
    · simp [hr]
    · simp only [if_neg hr, ADDR]
      rw [get_child_nat_addr_eq t H h hf (by omega) sbi root order 0 0 hr]
      exact get_nat_page_eq_nat_read t H hf sbi h (by omega) _ _

@[simp] theorem with_nat_nat_area (sbi : hmfs_sb_info) (mem : Nat → nat_page) (used : Nat) :
    (with_nat sbi mem used).nat_area = mem := rfl

@[simp] theorem with_nat_used (sbi : hmfs_sb_info) (mem : Nat → nat_page) (used : Nat) :
    (with_nat sbi mem used).node_blocks_used = used := rfl

@[simp] theorem with_nat_blocks (sbi : hmfs_sb_info) (mem : Nat → nat_page) (used : Nat) :
    (with_nat sbi mem used).node_blocks = sbi.node_blocks := rfl

@[simp] theorem with_nat_with_nat (sbi : hmfs_sb_info) (m1 m2 : Nat → nat_page) (u1 u2 : Nat) :
    with_nat (with_nat sbi m1 u1) m2 u2 = with_nat sbi m2 u2 := rfl

theorem with_nat_self (sbi : hmfs_sb_info) :
    with_nat sbi sbi.nat_area sbi.node_blocks_used = sbi := rfl

theorem nat_addr_store_eq0 (sbi : hmfs_sb_info) (a i v : Nat) :
    nat_addr_store sbi a i v
      = with_nat sbi (mem_set_addr sbi.nat_area a i v) sbi.node_blocks_used := rfl

/-- The allocator counter after `flush_mem`: at least one and at most `h + 1`
blocks were handed out. -/
theorem flush_mem_used (N : Nat) (blk : Nat → Nat) :
    ∀ (h : Nat) (mem : Nat → nat_page) (used old cur order : Nat) (page : nat_page),
      used + 1 ≤ (flush_mem N blk h mem used old cur order page).2.2 ∧
      (flush_mem N blk h mem used old cur order page).2.2 ≤ used + h + 1
  | 0, mem, used, old, cur, order, page => by simp [flush_mem]
  | h + 1, mem, used, old, cur, order, page => by
    unfold flush_mem
    simp only
    have := flush_mem_used N blk h (flush_node_mem blk mem used old cur)
      (flush_node_used used old cur)
      (nat_child (flush_node_mem blk mem used old cur) old (order / N ^ h))
      (nat_child (flush_node_mem blk mem used old cur) (flush_node blk used old cur)
        (order / N ^ h)) (order % N ^ h) page
    by_cases hc : flush_allocs old cur
    · simp only [flush_node_used, if_pos hc] at this ⊢
      omega
    · simp only [flush_node_used, if_neg hc] at this ⊢
      omega

/-- The allocation step of the flush in terms of memory and counter. -/
theorem flush_stored_node_eq (sbi : hmfs_sb_info) (old cur cnt : Nat) :
    flush_stored_node sbi old cur cnt
      = (flush_node sbi.node_blocks sbi.node_blocks_used old cur,
          if flush_allocs old cur then sbi.node_blocks sbi.node_blocks_used else 0,
          with_nat sbi (flush_node_mem sbi.node_blocks sbi.nat_area sbi.node_blocks_used old cur)
            (flush_node_used sbi.node_blocks_used old cur),
          if flush_allocs old cur then (cnt + 1) % 65536 else cnt) := by
  unfold flush_stored_node flush_node flush_node_mem flush_node_used flush_allocs
  by_cases h1 : cur = 0
  · simp only [h1, if_true, true_or]
    rfl
  · by_cases h2 : old = cur
    · simp only [h1, h2, if_true, if_false, or_true]
      rfl
    · simp only [h1, h2, if_false, or_self]
      rfl

/-- The flush of the code is the flush on memory and allocator counter, as long
as the allocator does not hand out address 0. -/
theorem flush_eq_flush_mem (t : nat_tree_consts) (H : Nat) (hf : t.fits H) :
    ∀ (h : Nat), h ≤ H → ∀ (sbi : hmfs_sb_info) (old cur order : Nat) (page : nat_page)
      (cnt : Nat),
      (∀ k, k < h + 1 → sbi.node_blocks (sbi.node_blocks_used + k) ≠ 0) →
      recursive_flush_nat_pages t h sbi old cur order page cnt
        = ((flush_mem t.NAT_ADDR_PER_NODE sbi.node_blocks h sbi.nat_area sbi.node_blocks_used
              old cur order page).1,
            with_nat sbi
              (flush_mem t.NAT_ADDR_PER_NODE sbi.node_blocks h sbi.nat_area
                sbi.node_blocks_used old cur order page).2.1
              (flush_mem t.NAT_ADDR_PER_NODE sbi.node_blocks h sbi.nat_area
                sbi.node_blocks_used old cur order page).2.2,
            (cnt + ((flush_mem t.NAT_ADDR_PER_NODE sbi.node_blocks h sbi.nat_area
                sbi.node_blocks_used old cur order page).2.2 - sbi.node_blocks_used))
              % 65536)
  | 0, _, sbi, old, cur, order, page, cnt, _ => by
    simp only [recursive_flush_nat_pages, flush_mem, Nat.add_sub_cancel_left]
    rfl
  | h + 1, hh, sbi, old, cur, order, page, cnt, hnz => by
    have hnode : flush_node sbi.node_blocks sbi.node_blocks_used old cur ≠ 0 := by
      unfold flush_node flush_allocs
      split
      · simpa using hnz 0 (by omega)
      · rename_i hc
        exact fun h0 => hc (Or.inl h0)
    have hoc : get_child_nat_addr t
        (with_nat sbi (flush_node_mem sbi.node_blocks sbi.nat_area sbi.node_blocks_used old cur)
          (flush_node_used sbi.node_blocks_used old cur)) old order 0 0 (h + 1)
        = (nat_child (flush_node_mem sbi.node_blocks sbi.nat_area sbi.node_blocks_used old cur)
            old (order / t.NAT_ADDR_PER_NODE ^ h),
           if old = 0 then 0 else order % t.NAT_ADDR_PER_NODE ^ h) := by
      by_cases ho : old = 0
      · simp [get_child_nat_addr, nat_child, ho]
      · rw [get_child_nat_addr_eq t H h hf (by omega) _ old order 0 0 ho]
        simp [nat_child, ho]
    have hk := flush_mem_used t.NAT_ADDR_PER_NODE sbi.node_blocks h
      (flush_node_mem sbi.node_blocks sbi.nat_area sbi.node_blocks_used old cur)
      (flush_node_used sbi.node_blocks_used old cur)
      (nat_child (flush_node_mem sbi.node_blocks sbi.nat_area sbi.node_blocks_used old cur) old
        (order / t.NAT_ADDR_PER_NODE ^ h))
      (nat_child (flush_node_mem sbi.node_blocks sbi.nat_area sbi.node_blocks_used old cur)
        (flush_node sbi.node_blocks sbi.node_blocks_used old cur)
        (order / t.NAT_ADDR_PER_NODE ^ h)) (order % t.NAT_ADDR_PER_NODE ^ h) page
    have ih := flush_eq_flush_mem t H hf h (by omega)
      (with_nat sbi (flush_node_mem sbi.node_blocks sbi.nat_area sbi.node_blocks_used old cur)
        (flush_node_used sbi.node_blocks_used old cur))
      (nat_child (flush_node_mem sbi.node_blocks sbi.nat_area sbi.node_blocks_used old cur) old
        (order / t.NAT_ADDR_PER_NODE ^ h))
      (nat_child (flush_node_mem sbi.node_blocks sbi.nat_area sbi.node_blocks_used old cur)
        (flush_node sbi.node_blocks sbi.node_blocks_used old cur)
        (order / t.NAT_ADDR_PER_NODE ^ h)) (order % t.NAT_ADDR_PER_NODE ^ h) page
      (if flush_allocs old cur then (cnt + 1) % 65536 else cnt)
      (by
        intro k hk
        simp only [with_nat_blocks, with_nat_used]
        unfold flush_node_used
        split
        · have := hnz (1 + k) (by omega)
          rwa [← Nat.add_assoc] at this
        · exact hnz k (by omega))
    simp only [with_nat_blocks, with_nat_used, with_nat_nat_area, with_nat_with_nat] at ih
    unfold recursive_flush_nat_pages flush_mem
    simp only [flush_stored_node_eq, hoc, ADDR, ite_self]
    rw [get_child_nat_addr_eq t H h hf (by omega) _ _ order _ _ hnode]
    simp only [with_nat_nat_area, ite_self]
    have hch : (flush_node_mem sbi.node_blocks sbi.nat_area sbi.node_blocks_used old cur
          (flush_node sbi.node_blocks sbi.node_blocks_used old cur)).addr
          (order / t.NAT_ADDR_PER_NODE ^ h)
        = nat_child (flush_node_mem sbi.node_blocks sbi.nat_area sbi.node_blocks_used old cur)
            (flush_node sbi.node_blocks sbi.node_blocks_used old cur)
            (order / t.NAT_ADDR_PER_NODE ^ h) := by
      simp [nat_child, hnode]
    rw [hch, ih]
    simp only [Nat.shiftRight_eq_div_pow, fits_pow t H h hf, nat_addr_store_eq0,
      with_nat_nat_area, with_nat_used, with_nat_with_nat]
    refine Prod.ext rfl (Prod.ext ?_ ?_)
    · simp only
      split <;> rfl
    · simp only
      unfold flush_node_used at hk ⊢
      split at hk <;> rename_i hc <;> simp only [hc, if_true, if_false] <;> omega


/-! ## Reach and read on memories -/

theorem nat_reach_self (N : Nat) (mem : Nat → nat_page) (h root : Nat) (hr : root ≠ 0) :
    nat_reach N mem h root root = true := by
  cases h <;> simp [nat_reach, hr]

theorem nat_reach_zero (N : Nat) (mem : Nat → nat_page) (h a : Nat) :
    nat_reach N mem h 0 a = false := by
  cases h <;> simp [nat_reach]

theorem nat_reach_child (N : Nat) (mem : Nat → nat_page) (h root i a : Nat) (hi : i < N)
    (hc : nat_reach N mem h (nat_child mem root i) a = true) :
    nat_reach N mem (h + 1) root a = true := by
  by_cases hr : root = 0
  · simp [nat_child, hr, nat_reach_zero] at hc
  · simp only [nat_child, if_neg hr] at hc
    simp only [nat_reach, bne_iff_ne, ne_eq, hr, not_false_eq_true, Bool.and_eq_true,
      Bool.or_eq_true, beq_iff_eq, List.any_eq_true, List.mem_range, decide_eq_true_eq,
      true_and]
    exact Or.inr ⟨i, hi, hc⟩

theorem order_slot_lt (N h order : Nat) (ho : order < N ^ (h + 1)) : order / N ^ h < N := by
  have hpos : 0 < N ^ h := by
    rcases Nat.eq_zero_or_pos (N ^ h) with h0 | h0
    · rw [pow_succ, h0, zero_mul] at ho
      exact absurd ho (Nat.not_lt_zero _)
    · exact h0
  rw [Nat.div_lt_iff_lt_mul hpos, mul_comm]
  rwa [pow_succ] at ho

theorem order_rest_lt (N h order : Nat) (ho : order < N ^ (h + 1)) : order % N ^ h < N ^ h := by
  have hpos : 0 < N ^ h := by
    rcases Nat.eq_zero_or_pos (N ^ h) with h0 | h0
    · rw [pow_succ, h0, zero_mul] at ho
      exact absurd ho (Nat.not_lt_zero _)
    · exact h0
  exact Nat.mod_lt _ hpos

/-- The read path only looks at the nodes of the tree it walks. -/
theorem nat_read_congr (N : Nat) (mem mem2 : Nat → nat_page) :
    ∀ (h root order : Nat), order < N ^ h →
      (∀ a, nat_reach N mem h root a = true → mem2 a = mem a) →
      nat_read N mem2 h root order = nat_read N mem h root order
  | 0, root, order, _, _ => rfl
  | h + 1, root, order, ho, hm => by
    unfold nat_read
    by_cases hr : root = 0
    · simp [hr]
    · simp only [if_neg hr]
      rw [hm root (nat_reach_self N mem (h + 1) root hr)]
      apply nat_read_congr N mem mem2 h _ _ (order_rest_lt N h order ho)
      intro a ha
      apply hm
      apply nat_reach_child N mem h root (order / N ^ h) a (order_slot_lt N h order ho)
      simpa [nat_child, hr] using ha

/-- The leaf found by the read path is a node of the tree. -/
theorem nat_read_reach (N : Nat) (mem : Nat → nat_page) :
    ∀ (h root order : Nat), order < N ^ h → nat_read N mem h root order ≠ 0 →
      nat_reach N mem h root (nat_read N mem h root order) = true
  | 0, root, order, _, hz => by
    simp only [nat_read] at hz ⊢
    exact nat_reach_self N mem 0 root hz
  | h + 1, root, order, ho, hz => by
    unfold nat_read at hz ⊢
    by_cases hr : root = 0
    · simp [hr] at hz
    · simp only [if_neg hr] at hz ⊢
      apply nat_reach_child N mem h root (order / N ^ h) _ (order_slot_lt N h order ho)
      simp only [nat_child, if_neg hr]
      exact nat_read_reach N mem h _ _ (order_rest_lt N h order ho) hz

/-! ## The copy-on-write bookkeeping -/

theorem blocks_fresh.child {N : Nat} {blk : Nat → Nat} {mem0 : Nat → nat_page}
    {used0 B h old : Nat} (hf : blocks_fresh N blk mem0 used0 B (h + 1) old) (i : Nat)
    (hi : i < N) : blocks_fresh N blk mem0 used0 B h (nat_child mem0 old i) where
  nonzero := hf.nonzero
  inj := hf.inj
  unreach := by
    intro j h1 h2
    cases hr : nat_reach N mem0 h (nat_child mem0 old i) (blk j) with
    | false => rfl
    | true =>
      have := nat_reach_child N mem0 h old i (blk j) hi hr
      rw [hf.unreach j h1 h2] at this
      exact absurd this (by decide)

theorem cow_inv.old_untagged {N : Nat} {blk : Nat → Nat} {mem0 mem : Nat → nat_page}
    {used0 used B h old : Nat} {tag : Nat → Option (Nat × Nat)}
    (inv : cow_inv blk mem0 used0 mem used tag) (hf : blocks_fresh N blk mem0 used0 B h old)
    (hu : used ≤ B) (ho : old ≠ 0) : tag old = none := by
  by_contra hc
  obtain ⟨i, h1, h2, h3⟩ := (inv.alloc old).1 hc
  have := hf.unreach i h1 (by omega)
  rw [← h3, nat_reach_self N mem0 h old ho] at this
  exact absurd this (by decide)

theorem cow_inv.fresh_untagged {N : Nat} {blk : Nat → Nat} {mem0 mem : Nat → nat_page}
    {used0 used B h old : Nat} {tag : Nat → Option (Nat × Nat)}
    (inv : cow_inv blk mem0 used0 mem used tag) (hf : blocks_fresh N blk mem0 used0 B h old)
    (i : Nat) (h1 : used ≤ i) (h2 : i < B) : tag (blk i) = none := by
  by_contra hc
  obtain ⟨j, j1, j2, j3⟩ := (inv.alloc (blk i)).1 hc
  exact hf.inj j i j1 (by omega) h2 j3.symm

theorem cow_inv.old_not_fresh {N : Nat} {blk : Nat → Nat} {mem0 : Nat → nat_page}
    {used0 B h old : Nat} (hf : blocks_fresh N blk mem0 used0 B h old)
    (i : Nat) (h1 : used0 ≤ i) (h2 : i < B) : old ≠ blk i := by
  intro hc
  have hz : old ≠ 0 := hc ▸ hf.nonzero i h1 h2
  have := hf.unreach i h1 h2
  rw [← hc, nat_reach_self N mem0 h old hz] at this
  exact absurd this (by decide)

/-- The bookkeeping goes on after one more block was allocated and filled with
a page whose slots, for an interior node, are empty or those of the old node. -/
theorem cow_inv.add {N : Nat} {blk : Nat → Nat} {mem0 mem : Nat → nat_page}
    {used0 used B h old : Nat} {tag : Nat → Option (Nat × Nat)}
    (inv : cow_inv blk mem0 used0 mem used tag) (hf : blocks_fresh N blk mem0 used0 B h old)
    (hu : used < B) (page : nat_page) (l o : Nat)
    (hk : l ≠ 0 → ∀ i, page.addr i = 0 ∨ page.addr i = nat_child mem0 o i) :
    cow_inv blk mem0 used0 (mem_set mem (blk used) page) (used + 1)
      (tag_set tag (blk used) (l, o)) where
  le := Nat.le_succ_of_le inv.le
  frame := by
    intro a ha
    unfold tag_set at ha
    unfold mem_set
    by_cases he : a = blk used
    · simp [he] at ha
    · simp only [if_neg he] at ha ⊢
      exact inv.frame a ha
  alloc := by
    intro a
    unfold tag_set
    by_cases he : a = blk used
    · simp only [if_pos he, ne_eq, not_false_eq_true, true_iff, reduceCtorEq]
      exact ⟨used, inv.le, Nat.lt_succ_self _, he⟩
    · simp only [if_neg he]
      rw [inv.alloc a]
      constructor
      · rintro ⟨i, h1, h2, h3⟩
        exact ⟨i, h1, Nat.lt_succ_of_lt h2, h3⟩
      · rintro ⟨i, h1, h2, h3⟩
        refine ⟨i, h1, ?_, h3⟩
        rcases Nat.lt_succ_iff_lt_or_eq.mp h2 with h4 | h4
        · exact h4
        · exact absurd (h4 ▸ h3) he
  kids := by
    intro f l1 o1 hfl i
    have hfresh := inv.fresh_untagged hf used (Nat.le_refl _) hu
    unfold tag_set at hfl ⊢
    unfold mem_set
    by_cases he : f = blk used
    · simp only [if_pos he, Option.some.injEq, Prod.mk.injEq] at hfl
      simp only [if_pos he]
      rcases hk (by omega) i with h0 | h0
      · exact Or.inl h0
      · exact Or.inr (Or.inl (hfl.2 ▸ h0))
    · simp only [if_neg he] at hfl ⊢
      rcases inv.kids f l1 o1 hfl i with h0 | h0 | h0
      · exact Or.inl h0
      · exact Or.inr (Or.inl h0)
      · refine Or.inr (Or.inr ?_)
        have hne : (mem f).addr i ≠ blk used := by
          intro hc
          rw [hc, hfresh] at h0
          exact absurd h0 (by simp)
        simp only [if_neg hne]
        exact h0

/-- The bookkeeping goes on after the slot of an allocated interior node was
pointed at the allocated node that stands in for that slot. -/
theorem cow_inv.patch {blk : Nat → Nat} {mem0 mem : Nat → nat_page}
    {used0 used : Nat} {tag : Nat → Option (Nat × Nat)}
    (inv : cow_inv blk mem0 used0 mem used tag) (n s r l o : Nat)
    (hn : tag n = some (l + 1, o)) (hr : tag r = some (l, nat_child mem0 o s)) :
    cow_inv blk mem0 used0 (mem_set_addr mem n s r) used tag where
  le := inv.le
  frame := by
    intro a ha
    have hne : a ≠ n := by
      intro hc
      rw [hc, hn] at ha
      exact absurd ha (by simp)
    simp only [mem_set_addr, mem_set, if_neg hne]
    exact inv.frame a ha
  alloc := inv.alloc
  kids := by
    intro f l1 o1 hfl i
    by_cases he : f = n
    · subst he
      rw [hn] at hfl
      simp only [Option.some.injEq, Prod.mk.injEq, add_left_inj] at hfl
      obtain ⟨hl, ho⟩ := hfl
      subst hl ho
      simp only [mem_set_addr, mem_set, if_true]
      by_cases hi : i = s
      · subst hi
        simp only [if_true]
        exact Or.inr (Or.inr hr)
      · simp only [if_neg hi]
        exact inv.kids f l o hn i
    · simp only [mem_set_addr, mem_set, if_neg he]
      exact inv.kids f l1 o1 hfl i

theorem flush_node_mem_allocs (blk : Nat → Nat) (mem : Nat → nat_page) (used old cur : Nat)
    (ha : flush_allocs old cur) :
    flush_node_mem blk mem used old cur
      = mem_set mem (blk used) (if cur = 0 then zero_page else mem old) := by
  unfold flush_node_mem
  by_cases hc : cur = 0
  · simp [hc]
  · have ho : old = cur := by
      rcases ha with h | h
      · exact absurd h hc
      · exact h
    simp [hc, ho]

/-- The allocation step of an interior level keeps the bookkeeping: the node
the flush goes on with is an allocated node of this height standing in for the
old node, and its slot on the path is empty, the old slot, or an allocated
node standing in for the old slot. -/
theorem flush_alloc_step (N : Nat) (blk : Nat → Nat) (mem0 : Nat → nat_page) (used0 B : Nat)
    (h : Nat) (mem : Nat → nat_page) (used : Nat) (tag : Nat → Option (Nat × Nat))
    (old cur s : Nat) (inv : cow_inv blk mem0 used0 mem used tag)
    (hf : blocks_fresh N blk mem0 used0 B (h + 1) old) (hB : used < B)
    (hP : cur = 0 ∨ cur = old ∨ tag cur = some (h + 1, old)) :
    ∃ tagA, cow_inv blk mem0 used0 (flush_node_mem blk mem used old cur)
        (flush_node_used used old cur) tagA ∧
      (∀ a x, tag a = some x → tagA a = some x) ∧
      (∀ a, flush_node_mem blk mem used old cur a ≠ mem a → tag a = none) ∧
      flush_node blk used old cur ≠ 0 ∧
      tagA (flush_node blk used old cur) = some (h + 1, old) ∧
      nat_child (flush_node_mem blk mem used old cur) old s = nat_child mem0 old s ∧
      (nat_child (flush_node_mem blk mem used old cur) (flush_node blk used old cur) s = 0 ∨
        nat_child (flush_node_mem blk mem used old cur) (flush_node blk used old cur) s
          = nat_child mem0 old s ∨
        tagA (nat_child (flush_node_mem blk mem used old cur) (flush_node blk used old cur) s)
          = some (h, nat_child mem0 old s)) := by
  have hfresh := inv.fresh_untagged hf used (Nat.le_refl _) hB
  have hnz := hf.nonzero used inv.le hB
  -- the package for a given bookkeeping after the step
  have pack : ∀ tagA, cow_inv blk mem0 used0 (flush_node_mem blk mem used old cur)
        (flush_node_used used old cur) tagA →
      flush_node_used used old cur ≤ B →
      flush_node blk used old cur ≠ 0 →
      tagA (flush_node blk used old cur) = some (h + 1, old) →
      nat_child (flush_node_mem blk mem used old cur) old s = nat_child mem0 old s ∧
      (nat_child (flush_node_mem blk mem used old cur) (flush_node blk used old cur) s = 0 ∨
        nat_child (flush_node_mem blk mem used old cur) (flush_node blk used old cur) s
          = nat_child mem0 old s ∨
        tagA (nat_child (flush_node_mem blk mem used old cur) (flush_node blk used old cur) s)
          = some (h, nat_child mem0 old s)) := by
    intro tagA invA hu hn ht
    constructor
    · by_cases ho : old = 0
      · simp [nat_child, ho]
      · simp only [nat_child, if_neg ho]
        rw [invA.frame old (invA.old_untagged hf hu ho)]
    · simp only [nat_child, if_neg hn]
      exact invA.kids _ h old ht s
  by_cases ha : flush_allocs old cur
  · have hk : ∀ i, (if cur = 0 then zero_page else mem old).addr i = 0 ∨
        (if cur = 0 then zero_page else mem old).addr i = nat_child mem0 old i := by
      intro i
      by_cases hc : cur = 0
      · simp [hc, zero_page]
      · have ho : old = cur := by
          rcases ha with h1 | h1
          · exact absurd h1 hc
          · exact h1
        have ho0 : old ≠ 0 := ho ▸ hc
        simp only [if_neg hc, nat_child, if_neg ho0]
        rw [inv.frame old (inv.old_untagged hf (le_of_lt hB) ho0)]
        exact Or.inr rfl
    have invA := inv.add hf hB (if cur = 0 then zero_page else mem old) (h + 1) old (fun _ => hk)
    rw [← flush_node_mem_allocs blk mem used old cur ha] at invA
    have hnode : flush_node blk used old cur = blk used := by simp [flush_node, ha]
    have hused : flush_node_used used old cur = used + 1 := by simp [flush_node_used, ha]
    rw [← hused] at invA
    have ht : tag_set tag (blk used) (h + 1, old) (flush_node blk used old cur)
        = some (h + 1, old) := by simp [tag_set, hnode]
    have hn : flush_node blk used old cur ≠ 0 := by rw [hnode]; exact hnz
    refine ⟨tag_set tag (blk used) (h + 1, old), invA, ?_, ?_, hn, ht,
      pack _ invA (by omega) hn ht⟩
    · intro a x hax
      have hne : a ≠ blk used := by
        intro hc
        rw [hc, hfresh] at hax
        exact absurd hax (by simp)
      simp [tag_set, hne, hax]
    · intro a hne
      rw [flush_node_mem_allocs blk mem used old cur ha] at hne
      by_cases he : a = blk used
      · rw [he]; exact hfresh
      · simp [mem_set, he] at hne
  · have hc0 : cur ≠ 0 := fun h0 => ha (Or.inl h0)
    have hco : old ≠ cur := fun h0 => ha (Or.inr h0)
    have htag : tag cur = some (h + 1, old) := by
      rcases hP with h1 | h1 | h1
      · exact absurd h1 hc0
      · exact absurd h1.symm hco
      · exact h1
    have hmem : flush_node_mem blk mem used old cur = mem := by
      simp [flush_node_mem, hc0, hco]
    have hnode : flush_node blk used old cur = cur := by simp [flush_node, ha]
    have hused : flush_node_used used old cur = used := by simp [flush_node_used, ha]
    have invA : cow_inv blk mem0 used0 (flush_node_mem blk mem used old cur)
        (flush_node_used used old cur) tag := by rw [hmem, hused]; exact inv
    have hn : flush_node blk used old cur ≠ 0 := by rw [hnode]; exact hc0
    have ht : tag (flush_node blk used old cur) = some (h + 1, old) := by rw [hnode]; exact htag
    refine ⟨tag, invA, fun a x hx => hx, ?_, hn, ht, pack _ invA (by omega) hn ht⟩
    intro a hne
    rw [hmem] at hne
    exact absurd rfl hne

/-- One flush keeps the bookkeeping of the checkpoint: the allocated blocks
stay a tree of copies over the old tree, the node the caller goes on with is
an allocated node of the flushed height (the returned one, or the working node
when `NULL` is returned), and the read path from it at the flushed block order
ends at a page holding the leaf image, in every memory that agrees with the
result on the allocated blocks. -/
theorem flush_mem_inv (N : Nat) (blk : Nat → Nat) (mem0 : Nat → nat_page) (used0 B : Nat) :
    ∀ (h : Nat) (mem : Nat → nat_page) (used : Nat) (tag : Nat → Option (Nat × Nat))
      (old cur order : Nat) (page : nat_page),
      cow_inv blk mem0 used0 mem used tag → blocks_fresh N blk mem0 used0 B h old →
      used + h + 1 ≤ B → order < N ^ h →
      (h ≠ 0 → cur = 0 ∨ cur = old ∨ tag cur = some (h, old)) →
      ∃ (tag1 : Nat → Option (Nat × Nat)) (root : Nat),
        root = (if (flush_mem N blk h mem used old cur order page).1 ≠ 0
          then (flush_mem N blk h mem used old cur order page).1 else cur) ∧
        cow_inv blk mem0 used0 (flush_mem N blk h mem used old cur order page).2.1
          (flush_mem N blk h mem used old cur order page).2.2 tag1 ∧
        (∀ a x, tag a = some x → tag1 a = some x) ∧
        (∀ a, (flush_mem N blk h mem used old cur order page).2.1 a ≠ mem a →
          ∀ l o, tag a = some (l, o) → l ≤ h) ∧
        root ≠ 0 ∧ tag1 root = some (h, old) ∧
        (∀ mem2 : Nat → nat_page,
          (∀ a l o, tag1 a = some (l, o) → l ≤ h →
            mem2 a = (flush_mem N blk h mem used old cur order page).2.1 a) →
          nat_read N mem2 h root order ≠ 0 ∧ mem2 (nat_read N mem2 h root order) = page) ∧
        ((flush_mem N blk h mem used old cur order page).1 = 0 ↔
          h ≠ 0 ∧ ¬ flush_allocs old cur) := by
  intro h
  induction h with
  | zero =>
    intro mem used tag old cur order page inv hf hB _ _
    have hu : used < B := by omega
    have hfresh := inv.fresh_untagged hf used (Nat.le_refl _) hu
    have hnz := hf.nonzero used inv.le hu
    have invA := inv.add hf hu page 0 old (fun hc => absurd rfl hc)
    refine ⟨tag_set tag (blk used) (0, old), blk used, ?_, ?_, ?_, ?_, hnz, ?_, ?_, ?_⟩
    · simp [flush_mem, hnz]
    · exact invA
    · intro a x hax
      have hne : a ≠ blk used := by
        intro hc
        rw [hc, hfresh] at hax
        exact absurd hax (by simp)
      simp [tag_set, hne, hax]
    · intro a hne l o hal
      by_cases he : a = blk used
      · rw [he, hfresh] at hal
        exact absurd hal (by simp)
      · simp [flush_mem, mem_set, he] at hne
    · simp [tag_set]
    · intro mem2 hm
      have := hm (blk used) 0 old (by simp [tag_set]) (Nat.le_refl _)
      simp only [nat_read]
      refine ⟨hnz, ?_⟩
      rw [this]
      simp [flush_mem, mem_set]
    · simp [flush_mem, hnz]
  | succ h ih =>
    intro mem used tag old cur order page inv hf hB ho hP
    have hs : order / N ^ h < N := order_slot_lt N h order ho
    have hq : order % N ^ h < N ^ h := order_rest_lt N h order ho
    obtain ⟨tagA, invA, extA, chA, hnA, htA, hocA, hccA⟩ :=
      flush_alloc_step N blk mem0 used0 B h mem used tag old cur (order / N ^ h) inv hf
        (by omega) (hP (Nat.succ_ne_zero h))
    have huA : flush_node_used used old cur ≤ used + 1 := by
      unfold flush_node_used; split <;> omega
    have hfc : blocks_fresh N blk mem0 used0 B h
        (nat_child (flush_node_mem blk mem used old cur) old (order / N ^ h)) := by
      rw [hocA]; exact hf.child _ hs
    have hPc : h ≠ 0 →
        nat_child (flush_node_mem blk mem used old cur) (flush_node blk used old cur)
            (order / N ^ h) = 0 ∨
          nat_child (flush_node_mem blk mem used old cur) (flush_node blk used old cur)
            (order / N ^ h)
            = nat_child (flush_node_mem blk mem used old cur) old (order / N ^ h) ∨
          tagA (nat_child (flush_node_mem blk mem used old cur) (flush_node blk used old cur)
            (order / N ^ h))
            = some (h, nat_child (flush_node_mem blk mem used old cur) old (order / N ^ h)) := by
      intro _
      rw [hocA]; exact hccA
    obtain ⟨tagR, rootC, hrootC, invR, extR, chR, hnR, htR, hreadR, hiffR⟩ :=
      ih (flush_node_mem blk mem used old cur) (flush_node_used used old cur) tagA
        (nat_child (flush_node_mem blk mem used old cur) old (order / N ^ h))
        (nat_child (flush_node_mem blk mem used old cur) (flush_node blk used old cur)
          (order / N ^ h))
        (order % N ^ h) page invA hfc (by omega) hq hPc
    -- abbreviations for the pieces of the recursive result
    generalize hR : flush_mem N blk h (flush_node_mem blk mem used old cur)
      (flush_node_used used old cur)
      (nat_child (flush_node_mem blk mem used old cur) old (order / N ^ h))
      (nat_child (flush_node_mem blk mem used old cur) (flush_node blk used old cur)
        (order / N ^ h)) (order % N ^ h) page = R at hrootC invR chR hreadR hiffR
    have hfm : flush_mem N blk (h + 1) mem used old cur order page
        = (if flush_allocs old cur then blk used else 0,
            if R.1 ≠ 0 then mem_set_addr R.2.1 (flush_node blk used old cur) (order / N ^ h) R.1
            else R.2.1, R.2.2) := by
      simp only [flush_mem, hR]
    have htnode : tagR (flush_node blk used old cur) = some (h + 1, old) := extR _ _ htA
    have hnz : blk used ≠ 0 := hf.nonzero used inv.le (by omega)
    have hroot : (if (flush_mem N blk (h + 1) mem used old cur order page).1 ≠ 0
        then (flush_mem N blk (h + 1) mem used old cur order page).1 else cur)
        = flush_node blk used old cur := by
      rw [hfm]
      by_cases ha : flush_allocs old cur
      · simp [flush_node, ha, hnz]
      · simp [flush_node, ha]
    -- the final memory differs from the recursive one only at the patched node
    have hfinal : ∀ a, a ≠ flush_node blk used old cur →
        (flush_mem N blk (h + 1) mem used old cur order page).2.1 a = R.2.1 a := by
      intro a hne
      rw [hfm]
      by_cases hr : R.1 ≠ 0
      · simp [hr, mem_set_addr, mem_set, hne]
      · simp [hr]
    have hslot : ((flush_mem N blk (h + 1) mem used old cur order page).2.1
        (flush_node blk used old cur)).addr (order / N ^ h) = rootC := by
      rw [hfm, hrootC]
      by_cases hr : R.1 ≠ 0
      · simp [hr, mem_set_addr, mem_set]
      · have hsame : R.2.1 (flush_node blk used old cur)
            = flush_node_mem blk mem used old cur (flush_node blk used old cur) := by
          by_contra hc
          have := chR _ hc (h + 1) old htA
          omega
        simp only [hr, if_false, hsame]
        simp [nat_child, hnA]
    refine ⟨tagR, flush_node blk used old cur, hroot.symm, ?_, ?_, ?_, hnA, htnode, ?_, ?_⟩
    · rw [hfm]
      by_cases hr : R.1 ≠ 0
      · rw [if_pos hr]
        have hrc : rootC = R.1 := by rw [hrootC]; simp [hr]
        have htR1 : tagR R.1 = some (h, nat_child mem0 old (order / N ^ h)) := by
          rw [← hrc, htR, hocA]
        exact invR.patch _ _ _ h old htnode htR1
      · rw [if_neg hr]
        exact invR
    · intro a x hax
      exact extR a x (extA a x hax)
    · intro a hne l o hal
      by_cases he : a = flush_node blk used old cur
      · have := extR a _ (extA a _ hal)
        rw [he, htnode] at this
        simp only [Option.some.injEq, Prod.mk.injEq] at this
        omega
      · rw [hfinal a he] at hne
        by_cases h1 : R.2.1 a = flush_node_mem blk mem used old cur a
        · rw [h1] at hne
          have := chA a hne
          rw [this] at hal
          exact absurd hal (by simp)
        · have := chR a h1 l o (extA a _ hal)
          omega
    · intro mem2 hm
      have hnode2 : mem2 (flush_node blk used old cur)
          = (flush_mem N blk (h + 1) mem used old cur order page).2.1
              (flush_node blk used old cur) :=
        hm _ (h + 1) old htnode (Nat.le_refl _)
      simp only [nat_read, if_neg hnA, hnode2, hslot]
      apply hreadR
      intro a l o hal hl
      have hne : a ≠ flush_node blk used old cur := by
        intro hc
        rw [hc, htnode] at hal
        simp only [Option.some.injEq, Prod.mk.injEq] at hal
        omega
      rw [hm a l o hal (by omega), hfinal a hne]
    · rw [hfm]
      by_cases ha : flush_allocs old cur
      · simp [ha, hnz]
      · simp [ha]

theorem alloc_fresh_blocks_fresh (N : Nat) (sbi : hmfs_sb_info) (H old_root n : Nat)
    (hfr : alloc_fresh N sbi H old_root n = true) :
    blocks_fresh N sbi.node_blocks sbi.nat_area sbi.node_blocks_used
      (sbi.node_blocks_used + n) H old_root := by
  simp only [alloc_fresh, List.all_eq_true, List.mem_range, Bool.and_eq_true, bne_iff_ne, ne_eq,
    Bool.not_eq_true'] at hfr
  refine ⟨?_, ?_, ?_⟩
  · intro i h1 h2
    have := (hfr (i - sbi.node_blocks_used) (by omega)).1.1
    rwa [Nat.add_sub_cancel' h1] at this
  · intro i j h1 h2 h3
    have := (hfr (j - sbi.node_blocks_used) (by omega)).2 (i - sbi.node_blocks_used) (by omega)
    rwa [Nat.add_sub_cancel' h1, Nat.add_sub_cancel' (by omega)] at this
  · intro i h1 h2
    have := (hfr (i - sbi.node_blocks_used) (by omega)).1.2
    rwa [Nat.add_sub_cancel' h1] at this

theorem cow_inv.start (blk : Nat → Nat) (mem0 : Nat → nat_page) (used0 : Nat) :
    cow_inv blk mem0 used0 mem0 used0 (fun _ => none) where
  le := Nat.le_refl _
  frame := fun _ _ => rfl
  alloc := by
    intro a
    constructor
    · intro hc; exact absurd rfl hc
    · rintro ⟨i, h1, h2, _⟩; omega
  kids := by
    intro f l o hfl
    exact absurd hfl (by simp)

/-- No node of the old tree and not the `NULL` address is an allocated block,
so the memory there is as at the start of the checkpoint. -/
theorem cow_inv.old_frame {N : Nat} {blk : Nat → Nat} {mem0 mem : Nat → nat_page}
    {used0 used B h old : Nat} {tag : Nat → Option (Nat × Nat)}
    (inv : cow_inv blk mem0 used0 mem used tag) (hf : blocks_fresh N blk mem0 used0 B h old)
    (hu : used ≤ B) (a : Nat) (ha : a = 0 ∨ nat_reach N mem0 h old a = true) :
    mem a = mem0 a := by
  apply inv.frame
  by_contra hc
  obtain ⟨i, h1, h2, h3⟩ := (inv.alloc a).1 hc
  rcases ha with ha | ha
  · exact hf.nonzero i h1 (by omega) (h3 ▸ ha)
  · have := hf.unreach i h1 (by omega)
    rw [← h3, ha] at this
    exact absurd this (by decide)

/-- A run of flushes threaded as the driver does keeps the bookkeeping of the
checkpoint, and the working root stays `NULL`, the old root, or an allocated
node standing in for the old root. -/
theorem flush_seq_inv (t : nat_tree_consts) (H : Nat) (hf : t.fits H) (sbi0 : hmfs_sb_info)
    (mem0 : Nat → nat_page) (used0 B old : Nat)
    (hfr : blocks_fresh t.NAT_ADDR_PER_NODE sbi0.node_blocks mem0 used0 B H old) :
    ∀ (xs : List (Nat × nat_page)) (mem : Nat → nat_page) (used : Nat)
      (tag : Nat → Option (Nat × Nat)) (cur cnt : Nat),
      cow_inv sbi0.node_blocks mem0 used0 mem used tag →
      (cur = 0 ∨ cur = old ∨ tag cur = some (H, old)) →
      (∀ x ∈ xs, x.1 < t.NAT_ADDR_PER_NODE ^ H) →
      used + (H + 1) * xs.length ≤ B →
      ∃ (mem1 : Nat → nat_page) (used1 : Nat) (tag1 : Nat → Option (Nat × Nat)),
        (flush_seq t H old xs (with_nat sbi0 mem used, cur, cnt)).1 = with_nat sbi0 mem1 used1 ∧
        cow_inv sbi0.node_blocks mem0 used0 mem1 used1 tag1 ∧
        used1 ≤ used + (H + 1) * xs.length ∧
        ((flush_seq t H old xs (with_nat sbi0 mem used, cur, cnt)).2.1 = 0 ∨
          (flush_seq t H old xs (with_nat sbi0 mem used, cur, cnt)).2.1 = old ∨
          tag1 (flush_seq t H old xs (with_nat sbi0 mem used, cur, cnt)).2.1 = some (H, old)) := by
  intro xs
  induction xs with
  | nil =>
    intro mem used tag cur cnt inv hc _ _
    exact ⟨mem, used, tag, rfl, inv, by simp, hc⟩
  | cons x rest ih =>
    intro mem used tag cur cnt inv hc ho hB
    simp only [List.length_cons] at hB
    have hB2 : used + (H + 1) + (H + 1) * rest.length ≤ B := by
      have : (H + 1) * (rest.length + 1) = (H + 1) + (H + 1) * rest.length := by ring
      omega
    have hnz : ∀ k, k < H + 1 →
        (with_nat sbi0 mem used).node_blocks ((with_nat sbi0 mem used).node_blocks_used + k)
          ≠ 0 := by
      intro k hk
      simp only [with_nat_blocks, with_nat_used]
      exact hfr.nonzero _ (by have := inv.le; omega) (by omega)
    obtain ⟨tag1, root, hroot, inv1, _, _, _, htroot, _, _⟩ :=
      flush_mem_inv t.NAT_ADDR_PER_NODE sbi0.node_blocks mem0 used0 B H mem used tag old cur
        x.1 x.2 inv hfr (by omega) (ho x (List.mem_cons_self _ _)) (fun _ => hc)
    have hused := flush_mem_used t.NAT_ADDR_PER_NODE sbi0.node_blocks H mem used old cur x.1 x.2
    simp only [flush_seq]
    rw [flush_eq_flush_mem t H hf H (Nat.le_refl _) (with_nat sbi0 mem used) old cur x.1 x.2 cnt
      hnz]
    simp only [with_nat_blocks, with_nat_used, with_nat_nat_area, with_nat_with_nat, ADDR]
    rw [← hroot]
    obtain ⟨mem2, used2, tag2, e1, inv2, hu2, hc2⟩ :=
      ih _ _ tag1 root
        ((cnt + ((flush_mem t.NAT_ADDR_PER_NODE sbi0.node_blocks H mem used old cur x.1
          x.2).2.2 - used)) % 65536) inv1 (Or.inr (Or.inr htroot))
        (fun y hy => ho y (List.mem_cons_of_mem _ hy)) (by omega)
    refine ⟨mem2, used2, tag2, e1, inv2, ?_, hc2⟩
    have : (H + 1) * (x :: rest).length = (H + 1) + (H + 1) * rest.length := by
      simp only [List.length_cons]; ring
    omega

/-! ## The first flush of a checkpoint, and the one after it -/

theorem nat_read_zero (N : Nat) (mem : Nat → nat_page) :
    ∀ (h order : Nat), nat_read N mem h 0 order = 0
  | 0, _ => rfl
  | h + 1, _ => by simp [nat_read]

theorem flush_mem_first_ret (N : Nat) (blk : Nat → Nat) :
    ∀ (h : Nat) (mem : Nat → nat_page) (used old order : Nat) (page : nat_page),
      (flush_mem N blk h mem used old old order page).1 = blk used
  | 0, _, _, _, _, _ => rfl
  | h + 1, _, _, _, _, _ => by simp [flush_mem, flush_allocs]

theorem levels_to_copy_allocs (N : Nat) (mem : Nat → nat_page) (h old cur order : Nat)
    (ha : flush_allocs old cur) : levels_to_copy N mem h old cur order = h := by
  cases h with
  | zero => rfl
  | succ h => simp [levels_to_copy, ha]

theorem order_split_ne (N h p q : Nat) (hne : q ≠ p) (hs : q / N ^ h = p / N ^ h) :
    q % N ^ h ≠ p % N ^ h := by
  intro hc
  apply hne
  rw [← Nat.div_add_mod q (N ^ h), ← Nat.div_add_mod p (N ^ h), hs, hc]

/-- The first flush of a checkpoint (working node equal to the old node)
allocates one block per level: the blocks `used .. used + h`, the first of them
for the root.  It writes to these blocks only, the read path from the new root
at another block order ends where the read path from the old root ends, and a
flush after it at the block order `q` copies the levels that the paths of `p`
and `q` do not share. -/
theorem flush_mem_first (N : Nat) (blk : Nat → Nat) (mem0 : Nat → nat_page) (used0 B : Nat) :
    ∀ (h : Nat) (mem : Nat → nat_page) (used old p : Nat) (page : nat_page),
      used0 ≤ used → used + h + 1 ≤ B → blocks_fresh N blk mem0 used0 B h old →
      (∀ a, (∀ i, used0 ≤ i → i < B → a ≠ blk i) → mem a = mem0 a) →
      p < N ^ h →
      (flush_mem N blk h mem used old old p page).2.2 = used + h + 1 ∧
      (∀ a, (∀ i, used ≤ i → i < used + h + 1 → a ≠ blk i) →
        (flush_mem N blk h mem used old old p page).2.1 a = mem a) ∧
      ∀ mem2 : Nat → nat_page,
        (∀ i, used ≤ i → i < used + h + 1 →
          mem2 (blk i) = (flush_mem N blk h mem used old old p page).2.1 (blk i)) →
        (∀ a, (∀ i, used0 ≤ i → i < B → a ≠ blk i) → mem2 a = mem0 a) →
        ∀ q, q < N ^ h →
          (q ≠ p → nat_read N mem2 h (blk used) q = nat_read N mem0 h old q) ∧
          levels_to_copy N mem2 h old (blk used) q = h - shared_levels N h p q := by
  intro h
  induction h with
  | zero =>
    intro mem used old p page _ _ _ _ hp
    refine ⟨rfl, ?_, ?_⟩
    · intro a ha
      have := ha used (Nat.le_refl _) (by omega)
      simp [flush_mem, mem_set, this]
    · intro mem2 _ _ q hq
      refine ⟨fun hne => ?_, rfl⟩
      simp only [pow_zero, Nat.lt_one_iff] at hp hq
      exact absurd (hq.trans hp.symm) hne
  | succ h ih =>
    intro mem used old p page hu hB hf hm hp
    have hs : p / N ^ h < N := order_slot_lt N h p hp
    have hp1 : p % N ^ h < N ^ h := order_rest_lt N h p hp
    have hold : ∀ i, used0 ≤ i → i < B → old ≠ blk i := fun i h1 h2 =>
      cow_inv.old_not_fresh hf i h1 h2
    have hnz : blk used ≠ 0 := hf.nonzero used hu (by omega)
    have holdm : old ≠ 0 → mem old = mem0 old := fun _ => hm old hold
    -- the page of the new root before its slot is patched
    have hmem1 : flush_node_mem blk mem used old old
        = mem_set mem (blk used) (if old = 0 then zero_page else mem old) :=
      flush_node_mem_allocs blk mem used old old (Or.inr rfl)
    have hnode : flush_node blk used old old = blk used := by simp [flush_node, flush_allocs]
    have hused : flush_node_used used old old = used + 1 := by
      simp [flush_node_used, flush_allocs]
    have hpg : ∀ i, (if old = 0 then zero_page else mem old).addr i = nat_child mem0 old i := by
      intro i
      by_cases ho : old = 0
      · simp [ho, nat_child, zero_page]
      · simp only [if_neg ho, nat_child, holdm ho]
    have hoc : ∀ i, nat_child (mem_set mem (blk used) (if old = 0 then zero_page else mem old))
        old i = nat_child mem0 old i := by
      intro i
      by_cases ho : old = 0
      · simp [ho, nat_child]
      · simp only [nat_child, if_neg ho, mem_set, if_neg (hold used hu (by omega)), holdm ho]
    have hcc : ∀ i, nat_child (mem_set mem (blk used) (if old = 0 then zero_page else mem old))
        (blk used) i = nat_child mem0 old i := by
      intro i
      simp only [nat_child, if_neg hnz, mem_set, if_true]
      exact hpg i
    have hm1 : ∀ a, (∀ i, used0 ≤ i → i < B → a ≠ blk i) →
        mem_set mem (blk used) (if old = 0 then zero_page else mem old) a = mem0 a := by
      intro a ha
      simp only [mem_set, if_neg (ha used hu (by omega))]
      exact hm a ha
    obtain ⟨hR2, hRframe, hRread⟩ :=
      ih (mem_set mem (blk used) (if old = 0 then zero_page else mem old)) (used + 1)
        (nat_child mem0 old (p / N ^ h)) (p % N ^ h) page (by omega) (by omega)
        (hf.child _ hs) hm1 hp1
    have hR1 := flush_mem_first_ret N blk h
      (mem_set mem (blk used) (if old = 0 then zero_page else mem old)) (used + 1)
      (nat_child mem0 old (p / N ^ h)) (p % N ^ h) page
    generalize hR : flush_mem N blk h
      (mem_set mem (blk used) (if old = 0 then zero_page else mem old)) (used + 1)
      (nat_child mem0 old (p / N ^ h)) (nat_child mem0 old (p / N ^ h)) (p % N ^ h) page = R
      at hR1 hR2 hRframe hRread
    have hnz1 : R.1 ≠ 0 := by rw [hR1]; exact hf.nonzero _ (by omega) (by omega)
    have hfm : flush_mem N blk (h + 1) mem used old old p page
        = (blk used, mem_set_addr R.2.1 (blk used) (p / N ^ h) R.1, R.2.2) := by
      simp only [flush_mem, hmem1, hnode, hused, hoc, hcc, hR, if_pos hnz1]
      simp [flush_allocs]
    have hRroot : R.2.1 (blk used) = (if old = 0 then zero_page else mem old) := by
      rw [hRframe (blk used) (fun i h1 h2 => hf.inj used i hu (by omega) (by omega))]
      simp [mem_set]
    rw [hfm]
    refine ⟨by simp only [hR2]; omega, ?_, ?_⟩
    · intro a ha
      have h0 : a ≠ blk used := ha used (Nat.le_refl _) (by omega)
      simp only [mem_set_addr, mem_set, if_neg h0]
      rw [hRframe a (fun i h1 h2 => ha i (by omega) (by omega))]
      simp [mem_set, h0]
    · intro mem2 h2f h2o q hq
      have hsq : q / N ^ h < N := order_slot_lt N h q hq
      have hq1 : q % N ^ h < N ^ h := order_rest_lt N h q hq
      have hroot2 : ∀ i, (mem2 (blk used)).addr i
          = if i = p / N ^ h then R.1 else nat_child mem0 old i := by
        intro i
        rw [h2f used (Nat.le_refl _) (by omega)]
        simp only [mem_set_addr, mem_set, if_true, hRroot, hpg]
      have hold2 : ∀ i, nat_child mem2 old i = nat_child mem0 old i := by
        intro i
        by_cases ho : old = 0
        · simp [ho, nat_child]
        · simp only [nat_child, if_neg ho, h2o old hold]
      have h2R : ∀ i, used + 1 ≤ i → i < used + 1 + h + 1 → mem2 (blk i) = R.2.1 (blk i) := by
        intro i h1 h2
        rw [h2f i (by omega) (by omega)]
        have hne : blk i ≠ blk used := fun hc =>
          hf.inj used i hu (by omega) (by omega) hc.symm
        simp [mem_set_addr, mem_set, hne]
      have hIH := hRread mem2 h2R h2o (q % N ^ h) hq1
      constructor
      · intro hne
        simp only [nat_read, if_neg hnz, hroot2]
        by_cases hsl : q / N ^ h = p / N ^ h
        · rw [if_pos hsl, hR1, (hIH.1 (order_split_ne N h p q hne hsl)), hsl]
          by_cases ho : old = 0
          · simp [ho, nat_child, nat_read_zero]
          · simp [ho, nat_child]
        · rw [if_neg hsl]
          have hcg : nat_read N mem2 h (nat_child mem0 old (q / N ^ h)) (q % N ^ h)
              = nat_read N mem0 h (nat_child mem0 old (q / N ^ h)) (q % N ^ h) := by
            apply nat_read_congr N mem0 mem2 h _ _ hq1
            intro a ha
            apply h2o
            intro i h1 h2 hc
            have hr := nat_reach_child N mem0 h old (q / N ^ h) a hsq ha
            rw [hc, hf.unreach i h1 h2] at hr
            exact absurd hr (by decide)
          rw [hcg]
          by_cases ho : old = 0
          · simp [ho, nat_child, nat_read_zero]
          · simp [ho, nat_child]
      · have hna : ¬ flush_allocs old (blk used) := by
          intro hc
          rcases hc with hc | hc
          · exact hnz hc
          · exact hold used hu (by omega) hc
        have hroot2c : ∀ i, nat_child mem2 (blk used) i
            = if i = p / N ^ h then R.1 else nat_child mem0 old i := by
          intro i
          simp only [nat_child, if_neg hnz]
          rw [hroot2 i]
          simp only [nat_child]
        simp only [levels_to_copy, if_neg hna, shared_levels, hold2, hroot2c]
        by_cases hsl : q / N ^ h = p / N ^ h
        · rw [if_pos hsl, if_pos hsl.symm, hR1, hsl, hIH.2]
          omega
        · rw [if_neg hsl, if_neg (fun hc => hsl hc.symm)]
          rw [levels_to_copy_allocs N mem2 h _ _ _ (Or.inr rfl)]
          omega

theorem flush_mem_used_allocs (N : Nat) (blk : Nat → Nat) :
    ∀ (h : Nat) (mem : Nat → nat_page) (used old cur order : Nat) (page : nat_page),
      flush_allocs old cur →
      (flush_mem N blk h mem used old cur order page).2.2 = used + h + 1
  | 0, _, _, _, _, _, _, _ => rfl
  | h + 1, mem, used, old, cur, order, page, ha => by
    have hmem1 := flush_node_mem_allocs blk mem used old cur ha
    have hnode : flush_node blk used old cur = blk used := by simp [flush_node, ha]
    have hused : flush_node_used used old cur = used + 1 := by simp [flush_node_used, ha]
    have hch : flush_allocs
        (nat_child (flush_node_mem blk mem used old cur) old (order / N ^ h))
        (nat_child (flush_node_mem blk mem used old cur) (flush_node blk used old cur)
          (order / N ^ h)) := by
      rw [hmem1, hnode]
      by_cases hb : blk used = 0
      · left; simp [nat_child, hb]
      · by_cases hc : cur = 0
        · left; simp [nat_child, hb, mem_set, hc, zero_page]
        · have ho : old = cur := by
            rcases ha with h1 | h1
            · exact absurd h1 hc
            · exact h1
          have ho0 : old ≠ 0 := ho ▸ hc
          right
          simp only [nat_child, if_neg hb, if_neg ho0, mem_set, if_true, if_neg hc]
          by_cases he : old = blk used
          · simp [he]
          · simp [he]
    have := flush_mem_used_allocs N blk h (flush_node_mem blk mem used old cur)
      (flush_node_used used old cur) _ _ (order % N ^ h) page hch
    simp only [flush_mem]
    rw [this, hused]
    omega

/-- One flush hands out one block for the leaf and one for every level counted
by `levels_to_copy`. -/
theorem flush_mem_count (N : Nat) (blk : Nat → Nat) :
    ∀ (h : Nat) (mem : Nat → nat_page) (used old cur order : Nat) (page : nat_page),
      (flush_mem N blk h mem used old cur order page).2.2
        = used + 1 + levels_to_copy N mem h old cur order
  | 0, _, _, _, _, _, _ => rfl
  | h + 1, mem, used, old, cur, order, page => by
    by_cases ha : flush_allocs old cur
    · rw [flush_mem_used_allocs N blk (h + 1) mem used old cur order page ha,
        levels_to_copy_allocs N mem (h + 1) old cur order ha]
      omega
    · have hc0 : cur ≠ 0 := fun h0 => ha (Or.inl h0)
      have hco : old ≠ cur := fun h0 => ha (Or.inr h0)
      have hmem1 : flush_node_mem blk mem used old cur = mem := by
        simp [flush_node_mem, hc0, hco]
      have hnode : flush_node blk used old cur = cur := by simp [flush_node, ha]
      have hused : flush_node_used used old cur = used := by simp [flush_node_used, ha]
      have := flush_mem_count N blk h mem used (nat_child mem old (order / N ^ h))
        (nat_child mem cur (order / N ^ h)) (order % N ^ h) page
      simp only [flush_mem, hmem1, hnode, hused, this, levels_to_copy, if_neg ha]

theorem alloc_fresh_nonzero (N : Nat) (sbi : hmfs_sb_info) (H old_root n : Nat)
    (hfr : alloc_fresh N sbi H old_root n = true) (k : Nat) (hk : k < n) :
    sbi.node_blocks (sbi.node_blocks_used + k) ≠ 0 :=
  (alloc_fresh_blocks_fresh N sbi H old_root n hfr).nonzero _ (Nat.le_add_right _ _)
    (Nat.add_lt_add_left hk _)

/-- The first flush of a checkpoint on the instance: the returned root is the
next block of the allocator, `H + 1` blocks are handed out, and the memory
afterwards is that of `flush_mem`. -/
theorem first_flush_eq (t : nat_tree_consts) (H : Nat) (hf : t.fits H) (sbi : hmfs_sb_info)
    (old_root p : Nat) (page : nat_page) (cnt : Nat)
    (hnz : ∀ k, k < H + 1 → sbi.node_blocks (sbi.node_blocks_used + k) ≠ 0) :
    recursive_flush_nat_pages t H sbi old_root old_root p page cnt
      = (sbi.node_blocks sbi.node_blocks_used,
          with_nat sbi
            (flush_mem t.NAT_ADDR_PER_NODE sbi.node_blocks H sbi.nat_area sbi.node_blocks_used
              old_root old_root p page).2.1 (sbi.node_blocks_used + H + 1),
          (cnt + (H + 1)) % 65536) := by
  rw [flush_eq_flush_mem t H hf H (Nat.le_refl _) sbi old_root old_root p page cnt hnz,
    flush_mem_first_ret,
    flush_mem_used_allocs t.NAT_ADDR_PER_NODE sbi.node_blocks H sbi.nat_area
      sbi.node_blocks_used old_root old_root p page (Or.inr rfl)]
  have : sbi.node_blocks_used + H + 1 - sbi.node_blocks_used = H + 1 := by omega
  rw [this]


theorem sample_tree_consts_fits : sample_tree_consts.fits 2 := ⟨rfl, by decide⟩

/-! ## alloc_nid with an empty pool -/

theorem recycle_nat_journals_loop_none (c : hmfs_consts) (sbi : hmfs_sb_info) (pos : Int) :
    ∀ (n i : Nat), (∀ j, i ≤ j → j < i + n → ¬ recyclable c sbi j) →
      recycle_nat_journals_loop c n i sbi pos = (sbi, pos)
  | 0, _, _ => rfl
  | n + 1, i, h => by
    unfold recycle_nat_journals_loop
    have h0 := h i (Nat.le_refl _) (by omega)
    unfold recyclable at h0
    by_cases hp : pos ≥ 0
    · simp only [if_pos hp, if_neg h0]
      exact recycle_nat_journals_loop_none c sbi pos n (i + 1)
        (fun j h1 h2 => h j (by omega) (by omega))
    · simp only [if_neg hp]

theorem build_free_nids_nothing (c : hmfs_consts) (sbi : hmfs_sb_info)
    (hf : sbi.nm_info.fcnt = 0) (hs : sbi.nm_info.max_nid ≤ sbi.nm_info.next_scan_nid)
    (hj : ∀ i, i < c.NUM_NAT_JOURNALS_IN_CP → ¬ recyclable c sbi i) :
    build_free_nids c sbi = .ok (0, sbi) := by
  unfold build_free_nids
  by_cases hb : sbi.nm_info.fcnt ≥ c.BUILD_FREE_NID_COUNT
  · rw [if_pos hb, hf]
    rfl
  · have hr : recycle_nat_journals c sbi ((c.BUILD_FREE_NID_COUNT : Int) - 1)
        = (sbi, (c.BUILD_FREE_NID_COUNT : Int) - 1) :=
      recycle_nat_journals_loop_none c sbi _ _ 0 (fun j _ h2 => hj j (by omega))
    have hz : sbi.nm_info.max_nid - sbi.nm_info.next_scan_nid = 0 := by omega
    have hc : ¬ ((c.BUILD_FREE_NID_COUNT : Int) - 1 ≥ 0 ∧
        sbi.nm_info.next_scan_nid < sbi.nm_info.max_nid) := by omega
    have hne : ¬ sbi.nm_info.fcnt ≠ 0 := fun h => h hf
    rw [if_neg hb, if_neg hne]
    simp only [hr, hz, build_free_nids_loop, if_neg hc]
    simp

/-- With an empty pool, room for one more node, the scan cursor at `max_nid`
and nothing to recycle in the journal, the rebuild finds nothing and leaves the
state as it is, and `alloc_nid` goes back to `retry:` in every pass. -/
theorem alloc_nid_keeps_retrying (c : hmfs_consts) (sbi : hmfs_sb_info) (nid : Nat)
    (hf : sbi.nm_info.fcnt = 0)
    (hv : sbi.cp_info.valid_node_count + 1 < (sbi.nm_info.max_nid : Int))
    (hs : sbi.nm_info.max_nid ≤ sbi.nm_info.next_scan_nid)
    (hj : ∀ i, i < c.NUM_NAT_JOURNALS_IN_CP → ¬ recyclable c sbi i) :
    build_free_nids c sbi = .ok (0, sbi) ∧
    ∀ fuel, alloc_nid c fuel sbi nid = .error .out_of_fuel := by
  have hb := build_free_nids_nothing c sbi hf hs hj
  refine ⟨hb, fun fuel => ?_⟩
  induction fuel with
  | zero => rfl
  | succ k ih =>
    unfold alloc_nid
    have h1 : ¬ sbi.cp_info.valid_node_count + 1 ≥ (sbi.nm_info.max_nid : Int) := not_le.mpr hv
    have h2 : ¬ sbi.nm_info.fcnt > 0 := by omega
    simp only [if_neg h1, if_neg h2, hb]
    have e : ({ sbi with nm_info := { sbi.nm_info with fcnt := (0 : Int).toNat } } : hmfs_sb_info)
        = sbi := by
      cases sbi with
      | mk nm cp _ _ _ _ _ _ _ _ _ _ _ =>
        cases nm
        simp only at hf
        subst hf
        rfl
    rw [e]
    exact ih

theorem sample_sb_exhausted_no_recyclable (i : Nat) :
    ¬ recyclable sample_consts sample_sb_exhausted i := by
  intro h
  have h1 : (0 : Nat) = 18446744073709551614 := h.1
  exact absurd h1 (by decide)

/-- C11 (as the code has it): `alloc_nid` has no bound on its rebuilds.  For
every state with `fcnt = 0` and `valid_node_count + 1 < max_nid` in which the
scan cursor is at `max_nid` or beyond and no journal slot is recyclable,
`build_free_nids` returns 0 and leaves the state unchanged, and `alloc_nid`
goes back to `retry:` after every rebuild: no number of passes makes it
return. -/
theorem alloc_nid_rebuilds_without_bound (c : hmfs_consts) (sbi : hmfs_sb_info) (nid : Nat)
    (hf : sbi.nm_info.fcnt = 0)
    (hv : sbi.cp_info.valid_node_count + 1 < (sbi.nm_info.max_nid : Int))
    (hs : sbi.nm_info.max_nid ≤ sbi.nm_info.next_scan_nid)
    (hj : ∀ i, i < c.NUM_NAT_JOURNALS_IN_CP → ¬ recyclable c sbi i) :
    build_free_nids c sbi = .ok (0, sbi) ∧
    ∀ fuel, alloc_nid c fuel sbi nid = .error .out_of_fuel :=
  alloc_nid_keeps_retrying c sbi nid hf hv hs hj

theorem alloc_nid_rebuilds_without_bound_witness :
    build_free_nids sample_consts sample_sb_exhausted = .ok (0, sample_sb_exhausted) ∧
    ∀ fuel, alloc_nid sample_consts fuel sample_sb_exhausted 0 = .error .out_of_fuel :=
  alloc_nid_rebuilds_without_bound sample_consts sample_sb_exhausted 0 rfl (by decide)
    (by decide) (fun i _ => sample_sb_exhausted_no_recyclable i)

/-- The sample instance with an empty pool, room for more nodes and nothing for
the rebuild to find: the rebuild returns 0, and `alloc_nid` does not return
`false`, after one rebuild or after any number of them. -/
theorem alloc_nid_exhausted_never_gives_up :
    sample_sb_exhausted.nm_info.fcnt = 0 ∧
    sample_sb_exhausted.cp_info.valid_node_count + 1
      < (sample_sb_exhausted.nm_info.max_nid : Int) ∧
    build_free_nids sample_consts sample_sb_exhausted = .ok (0, sample_sb_exhausted) ∧
    ∀ fuel nid1 sbi1,
      alloc_nid sample_consts fuel sample_sb_exhausted 0 ≠ .ok (false, nid1, sbi1) := by
  have h := alloc_nid_keeps_retrying sample_consts sample_sb_exhausted 0 rfl (by decide)
    (by decide) (fun i _ => sample_sb_exhausted_no_recyclable i)
  refine ⟨rfl, by decide, h.1, fun fuel nid1 sbi1 hc => ?_⟩
  rw [h.2 fuel] at hc
  exact absurd hc (by simp)

/-! ## What alloc_nid looks at -/

theorem journals_recycled.refl (c : hmfs_consts) (sbi : hmfs_sb_info) :
    journals_recycled c sbi sbi := fun _ => ⟨rfl, Or.inl rfl⟩

theorem journals_recycled.trans {c : hmfs_consts} {a b d : hmfs_sb_info}
    (h1 : journals_recycled c a b) (h2 : journals_recycled c b d) : journals_recycled c a d := by
  intro j
  obtain ⟨e1, n1⟩ := h1 j
  obtain ⟨e2, n2⟩ := h2 j
  refine ⟨e2.trans e1, ?_⟩
  rcases n2 with n2 | ⟨n2, r2⟩
  · rcases n1 with n1 | n1
    · exact Or.inl (n2.trans n1)
    · exact Or.inr ⟨n2.trans n1.1, n1.2⟩
  · rcases n1 with n1 | n1
    · refine Or.inr ⟨n2, ?_⟩
      unfold recyclable at r2 ⊢
      rw [← e1, ← n1]
      exact r2
    · have := r2.2
      rw [n1.1] at this
      exact absurd this (Nat.not_lt_zero _)

/-- C13 (the defect): `get_current_nat_block` is a stub, so for every nid that
is in neither the cache nor the journal `get_node_info` fails with `-ENODATA`
and leaves `ni` alone, whatever the NAT tree holds; the leaf that `get_nat_page`
finds for the nid is never read. -/
theorem get_node_info_never_reads_nat_tree (c : hmfs_consts) (sbi : hmfs_sb_info) (nid : Nat)
    (ni : node_info) (hc : __lookup_nat_cache sbi.nm_info nid = none)
    (hj : lookup_journal_in_cp c sbi.cp_info nid < 0) :
    get_node_info c sbi nid ni = (-ENODATA, ni) := by
  have hj2 : ¬ lookup_journal_in_cp c sbi.cp_info nid ≥ 0 := not_le.mpr hj
  simp only [get_node_info, hc, if_neg hj2, get_current_nat_block]

theorem get_node_info_never_reads_nat_tree_witness :
    get_nat_page sample_tree_consts sample_tree_sb 5 = 16384 ∧
    ((sample_tree_sb.nat_area 16384).entries 5).block_addr = 1069056 ∧
    get_node_info sample_nat_consts sample_tree_sb 5 zero_ni = (-ENODATA, zero_ni) :=
  ⟨by decide, by decide,
    get_node_info_never_reads_nat_tree sample_nat_consts sample_tree_sb 5 zero_ni rfl
      (by decide)⟩

/-! ## Read after flush, structural sharing, the old tree, and the allocation rule -/

/-- C14: for a tree of height `H` whose shifts fit, a checkpoint whose working
root starts as `NULL` or as the old root and has taken the flushes `pre`
(threaded as the driver does, so the working root is `NULL`, the old root or a
node copied by them), and an allocator whose next blocks are fresh and not
`NULL`: after `recursive_flush_nat_pages` for `blk_order` and `leaf_image`, the
read path `__get_nat_page` from the resulting working root (the returned
address, or the working root when `NULL` is returned) at `blk_order` ends at a
page that is not `NULL` and holds `leaf_image`. -/
theorem recursive_flush_then_get_nat_page (t : nat_tree_consts) (H : Nat) (hf : t.fits H)
    (sbi : hmfs_sb_info) (old_root cur0 : Nat) (hc : cur0 = 0 ∨ cur0 = old_root)
    (pre : List (Nat × nat_page)) (blk_order : Nat) (leaf_image : nat_page) (cnt : Nat)
    (hpre : ∀ x ∈ pre, x.1 < t.NAT_ADDR_PER_NODE ^ H)
    (ho : blk_order < t.NAT_ADDR_PER_NODE ^ H)
    (hfr : alloc_fresh t.NAT_ADDR_PER_NODE sbi H old_root ((H + 1) * (pre.length + 1)) = true)
    (st : hmfs_sb_info × Nat × Nat) (hst : st = flush_seq t H old_root pre (sbi, cur0, cnt))
    (r : Nat × hmfs_sb_info × Nat)
    (hr : r = recursive_flush_nat_pages t H st.1 old_root st.2.1 blk_order leaf_image st.2.2) :
    __get_nat_page t r.2.1 H (if r.1 ≠ 0 then r.1 else st.2.1) blk_order ≠ 0 ∧
      r.2.1.nat_area (__get_nat_page t r.2.1 H (if r.1 ≠ 0 then r.1 else st.2.1) blk_order)
        = leaf_image := by
  have hbf := alloc_fresh_blocks_fresh _ sbi H old_root _ hfr
  have hB : sbi.node_blocks_used + (H + 1) * pre.length + H + 1
      ≤ sbi.node_blocks_used + (H + 1) * (pre.length + 1) := by
    have : (H + 1) * (pre.length + 1) = (H + 1) * pre.length + H + 1 := by ring
    omega
  obtain ⟨mem1, used1, tag1, e1, inv1, hu1, hc1⟩ :=
    flush_seq_inv t H hf sbi sbi.nat_area sbi.node_blocks_used _ old_root hbf pre sbi.nat_area
      sbi.node_blocks_used (fun _ => none) cur0 cnt (cow_inv.start _ _ _)
      (by rcases hc with h | h
          · exact Or.inl h
          · exact Or.inr (Or.inl h))
      hpre (by omega)
  rw [with_nat_self] at e1 hc1
  rw [← hst] at e1 hc1
  have hnz : ∀ k, k < H + 1 → st.1.node_blocks (st.1.node_blocks_used + k) ≠ 0 := by
    intro k hk
    rw [e1]
    simp only [with_nat_blocks, with_nat_used]
    exact hbf.nonzero _ (by have := inv1.le; omega) (by omega)
  obtain ⟨tag2, root, hroot, _, _, _, _, _, hread, _⟩ :=
    flush_mem_inv t.NAT_ADDR_PER_NODE sbi.node_blocks sbi.nat_area sbi.node_blocks_used _ H
      mem1 used1 tag1 old_root st.2.1 blk_order leaf_image inv1 hbf (by omega) ho
      (fun _ => hc1)
  have hflush := flush_eq_flush_mem t H hf H (Nat.le_refl _) st.1 old_root st.2.1 blk_order
    leaf_image st.2.2 hnz
  rw [← hr, e1] at hflush
  simp only [with_nat_blocks, with_nat_used, with_nat_nat_area, with_nat_with_nat] at hflush
  have h1 : r.1 = (flush_mem t.NAT_ADDR_PER_NODE sbi.node_blocks H mem1 used1 old_root st.2.1
      blk_order leaf_image).1 := by rw [hflush]
  have h2 : r.2.1.nat_area = (flush_mem t.NAT_ADDR_PER_NODE sbi.node_blocks H mem1 used1
      old_root st.2.1 blk_order leaf_image).2.1 := by rw [hflush]; rfl
  rw [get_nat_page_eq_nat_read t H hf r.2.1 H (Nat.le_refl _), h1, ← hroot, h2]
  exact hread _ (fun _ _ _ _ _ => rfl)

theorem recursive_flush_then_get_nat_page_witness :
    alloc_fresh 2 sample_tree_sb 2 4096 6 = true ∧
    sample_second_flush.1 = 0 ∧
    __get_nat_page sample_tree_consts sample_second_flush.2.1 2
        (if sample_second_flush.1 ≠ 0 then sample_second_flush.1 else sample_first_flush.2.1) 1
      ≠ 0 ∧
    sample_second_flush.2.1.nat_area
        (__get_nat_page sample_tree_consts sample_second_flush.2.1 2
          (if sample_second_flush.1 ≠ 0 then sample_second_flush.1
            else sample_first_flush.2.1) 1)
      = sample_leaf_image :=
  ⟨by decide, by decide,
    recursive_flush_then_get_nat_page sample_tree_consts 2 sample_tree_consts_fits
      sample_tree_sb 4096 4096 (Or.inr rfl) [(0, sample_leaf_image)] 1 sample_leaf_image 0
      (by intro x hx; rw [List.mem_singleton] at hx; subst hx; decide)
      (by decide) (by decide) sample_first_flush rfl sample_second_flush rfl⟩

/-- C15: for a tree of height `H` whose shifts fit and an allocator whose next
`H + 1` blocks are fresh: after one `recursive_flush_nat_pages` call with the
working root equal to the old root for the leaf at block order `p`, the call
returns a new root, and for every block order `q` of the tree other than `p`
the read path from the new root returns what the read path from the old root
returned before the call (the same leaf address, or `NULL` for both). -/
theorem first_flush_shares_other_leaves (t : nat_tree_consts) (H : Nat) (hf : t.fits H)
    (sbi : hmfs_sb_info) (old_root p q : Nat) (page : nat_page) (cnt : Nat)
    (hp : p < t.NAT_ADDR_PER_NODE ^ H) (hq : q < t.NAT_ADDR_PER_NODE ^ H) (hne : q ≠ p)
    (hfr : alloc_fresh t.NAT_ADDR_PER_NODE sbi H old_root (H + 1) = true) :
    (recursive_flush_nat_pages t H sbi old_root old_root p page cnt).1 ≠ 0 ∧
    __get_nat_page t (recursive_flush_nat_pages t H sbi old_root old_root p page cnt).2.1 H
        (recursive_flush_nat_pages t H sbi old_root old_root p page cnt).1 q
      = __get_nat_page t sbi H old_root q := by
  have hbf := alloc_fresh_blocks_fresh _ sbi H old_root _ hfr
  have hnz := alloc_fresh_nonzero _ sbi H old_root _ hfr
  rw [first_flush_eq t H hf sbi old_root p page cnt hnz]
  refine ⟨hnz 0 (by omega), ?_⟩
  rw [get_nat_page_eq_nat_read t H hf _ H (Nat.le_refl _),
    get_nat_page_eq_nat_read t H hf _ H (Nat.le_refl _)]
  simp only [with_nat_nat_area]
  obtain ⟨_, hframe, hread⟩ :=
    flush_mem_first t.NAT_ADDR_PER_NODE sbi.node_blocks sbi.nat_area sbi.node_blocks_used
      (sbi.node_blocks_used + (H + 1)) H sbi.nat_area sbi.node_blocks_used old_root p page
      (Nat.le_refl _) (by omega) hbf (fun _ _ => rfl) hp
  exact (hread _ (fun _ _ _ => rfl)
    (fun a ha => hframe a (fun i h1 h2 => ha i h1 (by omega))) q hq).1 hne

theorem first_flush_shares_other_leaves_witness :
    alloc_fresh 2 sample_tree_sb 2 4096 3 = true ∧
    (recursive_flush_nat_pages sample_tree_consts 2 sample_tree_sb 4096 4096 0
      sample_leaf_image 0).1 ≠ 0 ∧
    __get_nat_page sample_tree_consts
        (recursive_flush_nat_pages sample_tree_consts 2 sample_tree_sb 4096 4096 0
          sample_leaf_image 0).2.1 2
        (recursive_flush_nat_pages sample_tree_consts 2 sample_tree_sb 4096 4096 0
          sample_leaf_image 0).1 1
      = __get_nat_page sample_tree_consts sample_tree_sb 2 4096 1 :=
  ⟨by decide,
    first_flush_shares_other_leaves sample_tree_consts 2 sample_tree_consts_fits sample_tree_sb
      4096 0 1 sample_leaf_image 0 (by decide) (by decide) (by decide) (by decide)⟩

/-- C16: for a tree of height `H` whose shifts fit and an allocator whose next
blocks are fresh (not `NULL`, pairwise different, none of them a node of the
tree below the old root): after any run of flushes of one checkpoint that
starts with the working root equal to the old root and threads it as the
driver does, every node of the old tree holds what it held before, and for
every block order `q` of the tree the read path from the old root returns the
same address, holding the same contents, as before the run. -/
theorem flush_seq_keeps_old_tree (t : nat_tree_consts) (H : Nat) (hf : t.fits H)
    (sbi : hmfs_sb_info) (old_root : Nat) (xs : List (Nat × nat_page)) (cnt : Nat)
    (hxs : ∀ x ∈ xs, x.1 < t.NAT_ADDR_PER_NODE ^ H)
    (hfr : alloc_fresh t.NAT_ADDR_PER_NODE sbi H old_root ((H + 1) * xs.length) = true) :
    (∀ a, nat_reach t.NAT_ADDR_PER_NODE sbi.nat_area H old_root a = true →
      (flush_seq t H old_root xs (sbi, old_root, cnt)).1.nat_area a = sbi.nat_area a) ∧
    ∀ q, q < t.NAT_ADDR_PER_NODE ^ H →
      __get_nat_page t (flush_seq t H old_root xs (sbi, old_root, cnt)).1 H old_root q
        = __get_nat_page t sbi H old_root q ∧
      (flush_seq t H old_root xs (sbi, old_root, cnt)).1.nat_area
          (__get_nat_page t (flush_seq t H old_root xs (sbi, old_root, cnt)).1 H old_root q)
        = sbi.nat_area (__get_nat_page t sbi H old_root q) := by
  have hbf := alloc_fresh_blocks_fresh _ sbi H old_root _ hfr
  obtain ⟨mem1, used1, tag1, e1, inv1, hu1, _⟩ :=
    flush_seq_inv t H hf sbi sbi.nat_area sbi.node_blocks_used _ old_root hbf xs sbi.nat_area
      sbi.node_blocks_used (fun _ => none) old_root cnt (cow_inv.start _ _ _)
      (Or.inr (Or.inl rfl)) hxs (Nat.le_refl _)
  rw [with_nat_self] at e1
  rw [e1]
  simp only [with_nat_nat_area]
  have hframe : ∀ a, a = 0 ∨ nat_reach t.NAT_ADDR_PER_NODE sbi.nat_area H old_root a = true →
      mem1 a = sbi.nat_area a := fun a ha => inv1.old_frame hbf hu1 a ha
  refine ⟨fun a ha => hframe a (Or.inr ha), fun q hq => ?_⟩
  rw [get_nat_page_eq_nat_read t H hf _ H (Nat.le_refl _),
    get_nat_page_eq_nat_read t H hf _ H (Nat.le_refl _)]
  simp only [with_nat_nat_area]
  have hread : nat_read t.NAT_ADDR_PER_NODE mem1 H old_root q
      = nat_read t.NAT_ADDR_PER_NODE sbi.nat_area H old_root q :=
    nat_read_congr _ sbi.nat_area mem1 H old_root q hq (fun a ha => hframe a (Or.inr ha))
  rw [hread]
  refine ⟨rfl, hframe _ ?_⟩
  by_cases hz : nat_read t.NAT_ADDR_PER_NODE sbi.nat_area H old_root q = 0
  · exact Or.inl hz
  · exact Or.inr (nat_read_reach _ _ H old_root q hq hz)

theorem flush_seq_keeps_old_tree_witness :
    alloc_fresh 2 sample_tree_sb 2 4096 9 = true ∧
    __get_nat_page sample_tree_consts
        (flush_seq sample_tree_consts 2 4096
          [(0, sample_leaf_image), (1, sample_leaf_image), (2, sample_leaf_image)]
          (sample_tree_sb, 4096, 0)).1 2 4096 1
      = __get_nat_page sample_tree_consts sample_tree_sb 2 4096 1 ∧
    (flush_seq sample_tree_consts 2 4096
        [(0, sample_leaf_image), (1, sample_leaf_image), (2, sample_leaf_image)]
        (sample_tree_sb, 4096, 0)).1.nat_area
        (__get_nat_page sample_tree_consts
          (flush_seq sample_tree_consts 2 4096
            [(0, sample_leaf_image), (1, sample_leaf_image), (2, sample_leaf_image)]
            (sample_tree_sb, 4096, 0)).1 2 4096 1)
      = sample_tree_sb.nat_area (__get_nat_page sample_tree_consts sample_tree_sb 2 4096 1) :=
  ⟨by decide,
    (flush_seq_keeps_old_tree sample_tree_consts 2 sample_tree_consts_fits sample_tree_sb 4096
      [(0, sample_leaf_image), (1, sample_leaf_image), (2, sample_leaf_image)] 0
      (by
        intro x hx
        simp only [List.mem_cons, List.mem_singleton, List.not_mem_nil, or_false] at hx
        rcases hx with hx | hx | hx <;> subst hx <;> decide)
      (by decide)).2 1 (by decide)⟩

/-- C18: for a tree of height `H` whose shifts fit and an allocator whose next
blocks are fresh.  At every height `h + 1 > 0`, `recursive_flush_nat_pages`
returns `NULL` exactly when the working node is not `NULL` and differs from the
old node, and otherwise returns the first block it takes from the allocator;
the call takes one block for the leaf and one for every level counted by
`levels_to_copy` (the levels on the path whose working node is `NULL` or the
old node), and `alloc_cnt` grows by as much (modulo 65536).  The first flush of
a checkpoint (working root equal to the old root, block order `p`) takes
`H + 1` blocks, and a second flush into the working tree it returns, at block
order `q`, takes one block for the leaf and one for each of the `H` interior
levels that the paths of `p` and `q` do not share. -/
theorem recursive_flush_allocation_rule (t : nat_tree_consts) (H : Nat) (hf : t.fits H)
    (sbi : hmfs_sb_info) (old_root p q : Nat) (page page2 : nat_page) (cnt : Nat)
    (hp : p < t.NAT_ADDR_PER_NODE ^ H) (hq : q < t.NAT_ADDR_PER_NODE ^ H)
    (hfr : alloc_fresh t.NAT_ADDR_PER_NODE sbi H old_root (2 * (H + 1)) = true) :
    (∀ (h old cur order : Nat) (pg : nat_page) (c : Nat), h + 1 ≤ H →
      ((recursive_flush_nat_pages t (h + 1) sbi old cur order pg c).1 = 0 ↔
        cur ≠ 0 ∧ cur ≠ old) ∧
      ((recursive_flush_nat_pages t (h + 1) sbi old cur order pg c).1 ≠ 0 →
        (recursive_flush_nat_pages t (h + 1) sbi old cur order pg c).1
          = sbi.node_blocks sbi.node_blocks_used) ∧
      (recursive_flush_nat_pages t (h + 1) sbi old cur order pg c).2.1.node_blocks_used
        = sbi.node_blocks_used + 1
          + levels_to_copy t.NAT_ADDR_PER_NODE sbi.nat_area (h + 1) old cur order ∧
      (recursive_flush_nat_pages t (h + 1) sbi old cur order pg c).2.2
        = (c + (1 + levels_to_copy t.NAT_ADDR_PER_NODE sbi.nat_area (h + 1) old cur order))
            % 65536) ∧
    ((recursive_flush_nat_pages t H sbi old_root old_root p page cnt).2.1.node_blocks_used
        = sbi.node_blocks_used + (H + 1) ∧
      (recursive_flush_nat_pages t H sbi old_root old_root p page cnt).2.2
        = (cnt + (H + 1)) % 65536) ∧
    ((recursive_flush_nat_pages t H
        (recursive_flush_nat_pages t H sbi old_root old_root p page cnt).2.1 old_root
        (recursive_flush_nat_pages t H sbi old_root old_root p page cnt).1 q page2
        (recursive_flush_nat_pages t H sbi old_root old_root p page cnt).2.2).2.1.node_blocks_used
        = sbi.node_blocks_used + (H + 1)
          + (1 + (H - shared_levels t.NAT_ADDR_PER_NODE H p q)) ∧
      (recursive_flush_nat_pages t H
        (recursive_flush_nat_pages t H sbi old_root old_root p page cnt).2.1 old_root
        (recursive_flush_nat_pages t H sbi old_root old_root p page cnt).1 q page2
        (recursive_flush_nat_pages t H sbi old_root old_root p page cnt).2.2).2.2
        = ((cnt + (H + 1)) % 65536
            + (1 + (H - shared_levels t.NAT_ADDR_PER_NODE H p q))) % 65536) := by
  have hbf := alloc_fresh_blocks_fresh _ sbi H old_root _ hfr
  have hnz := alloc_fresh_nonzero _ sbi H old_root _ hfr
  refine ⟨?_, ?_, ?_⟩
  · intro h old cur order pg c hh
    rw [flush_eq_flush_mem t H hf (h + 1) hh sbi old cur order pg c
      (fun k hk => hnz k (by omega))]
    simp only [with_nat_used, flush_mem_count]
    have hb : sbi.node_blocks sbi.node_blocks_used ≠ 0 := hnz 0 (by omega)
    have hsub : ∀ x, sbi.node_blocks_used + 1 + x - sbi.node_blocks_used = 1 + x := by
      intro x; omega
    refine ⟨?_, ?_, trivial, by rw [hsub]⟩
    · simp only [flush_mem]
      by_cases ha : flush_allocs old cur
      · simp only [if_pos ha, hb, false_iff]
        rcases ha with h1 | h1
        · exact fun hc => hc.1 h1
        · exact fun hc => hc.2 h1.symm
      · simp only [if_neg ha, true_iff]
        exact ⟨fun h0 => ha (Or.inl h0), fun h0 => ha (Or.inr h0.symm)⟩
    · simp only [flush_mem]
      by_cases ha : flush_allocs old cur
      · simp [ha]
      · simp [ha]
  · rw [first_flush_eq t H hf sbi old_root p page cnt (fun k hk => hnz k (by omega))]
    exact ⟨rfl, rfl⟩
  · rw [first_flush_eq t H hf sbi old_root p page cnt (fun k hk => hnz k (by omega))]
    simp only
    rw [flush_eq_flush_mem t H hf H (Nat.le_refl _) _ old_root _ q page2 _
      (by
        intro k hk
        simp only [with_nat_blocks, with_nat_used]
        have := hnz (H + 1 + k) (by omega)
        rwa [← Nat.add_assoc, ← Nat.add_assoc] at this)]
    simp only [with_nat_used, with_nat_blocks, with_nat_nat_area, with_nat_with_nat,
      flush_mem_count]
    obtain ⟨_, hframe, hread⟩ :=
      flush_mem_first t.NAT_ADDR_PER_NODE sbi.node_blocks sbi.nat_area sbi.node_blocks_used
        (sbi.node_blocks_used + 2 * (H + 1)) H sbi.nat_area sbi.node_blocks_used old_root p page
        (Nat.le_refl _) (by omega) hbf (fun _ _ => rfl) hp
    have hlv := (hread _ (fun _ _ _ => rfl)
      (fun a ha => hframe a (fun i h1 h2 => ha i h1 (by omega))) q hq).2
    rw [hlv]
    have hsub : ∀ x, sbi.node_blocks_used + H + 1 + 1 + x - (sbi.node_blocks_used + H + 1)
        = 1 + x := by
      intro x; omega
    rw [hsub]
    exact ⟨by omega, rfl⟩

theorem recursive_flush_allocation_rule_witness :
    alloc_fresh 2 sample_tree_sb 2 4096 6 = true ∧
    shared_levels 2 2 0 1 = 2 ∧
    (recursive_flush_nat_pages sample_tree_consts 2
        (recursive_flush_nat_pages sample_tree_consts 2 sample_tree_sb 4096 4096 0
          sample_leaf_image 0).2.1 4096
        (recursive_flush_nat_pages sample_tree_consts 2 sample_tree_sb 4096 4096 0
          sample_leaf_image 0).1 1 sample_leaf_image
        (recursive_flush_nat_pages sample_tree_consts 2 sample_tree_sb 4096 4096 0
          sample_leaf_image 0).2.2).2.1.node_blocks_used
      = sample_tree_sb.node_blocks_used + (2 + 1) + (1 + (2 - shared_levels 2 2 0 1)) :=
  ⟨by decide, by decide,
    (recursive_flush_allocation_rule sample_tree_consts 2 sample_tree_consts_fits
      sample_tree_sb 4096 0 1 sample_leaf_image sample_leaf_image 0 (by decide) (by decide)
      (by decide)).2.2.1⟩

/-! ## The checkpoint flush driver -/

/-- C19 (the defect): the driver flushes a leaf image only when the block order
changes, and has no flush after the loop.  On the sample tree with the dirty
entries 10, 600 and 1200 (ascending, in the three leaves of block orders 0, 1
and 2) `do_flush_nat_page_test` returns 0 after two calls of
`recursive_flush_nat_pages`, for the block orders 0 and 1; four blocks are
allocated, two of them leaves, and the read path from the new root at block
order 2 still ends at the old leaf 24576. -/
theorem do_flush_nat_page_test_skips_last_leaf :
    sample_sb_three.nm_info.dirty_nat_entries = [10, 600, 1200] ∧
    [10, 600, 1200].map (fun nid => nid >>> sample_tree_consts.LOG2_NAT_ENTRY_PER_BLOCK)
      = [0, 1, 2] ∧
    (do_flush_nat_page_test sample_tree_consts true 0 sample_sb_three).toOption.map
      (fun r => (r.1, r.2.flushed.map Prod.fst, r.2.sbi.node_blocks_used, r.2.alloc_cnt,
        __get_nat_page sample_tree_consts r.2.sbi 2 r.2.new_root_node 2))
      = some (0, [0, 1], 4, 4, 24576) := by
  refine ⟨by decide, by decide, by decide⟩

/-- C20 (the defect): the driver writes a dirty entry into the image at index
`nid % LOG2_NAT_ENTRY_PER_BLOCK`, does not write the entry at which the block
order changes, and never hands over the image of the last group.  On the
sample tree with the dirty entries 10, 11, 600, 601 and 1200 the images handed
to `recursive_flush_nat_pages` are those of the block orders 0 and 1 only; in
the first the records of the nids 10 and 11 are at the indices 1 and 2 while
the records at the indices 10 and 11 are those of the old leaf; in the second
the record of nid 601 is at index 7, and the records at the indices 88 and 89
(nids 600 and 601) are those of the old leaf. -/
theorem do_flush_nat_page_test_leaf_images :
    sample_sb_five.nm_info.dirty_nat_entries = [10, 11, 600, 601, 1200] ∧
    (do_flush_nat_page_test sample_tree_consts true 0 sample_sb_five).toOption.map
      (fun r => r.2.flushed.map (fun x =>
        (x.1, [1, 2, 7, 10, 11, 88, 89].map (fun i => (x.2.entries i).block_addr))))
      = some [(0, [3162112, 3158016, 1048576 + 4096 * 7, 1048576 + 4096 * 10,
                    1048576 + 4096 * 11, 1048576 + 4096 * 88, 1048576 + 4096 * 89]),
              (1, [1048576 + 4096 * 513, 1048576 + 4096 * 514, 3149824,
                    1048576 + 4096 * 522, 1048576 + 4096 * 523, 1048576 + 4096 * 600,
                    1048576 + 4096 * 601])] ∧
    (node_info_to_raw_nat (entry_ni sample_sb_five.nm_info 10)).block_addr = 3162112 ∧
    (node_info_to_raw_nat (entry_ni sample_sb_five.nm_info 11)).block_addr = 3158016 ∧
    (node_info_to_raw_nat (entry_ni sample_sb_five.nm_info 600)).block_addr = 3153920 ∧
    (node_info_to_raw_nat (entry_ni sample_sb_five.nm_info 601)).block_addr = 3149824 := by
  refine ⟨by decide, by decide, by decide, by decide, by decide, by decide⟩


/-! ## Truncation: what the steps touch -/

theorem trunc_frame.frame_refl (s : hmfs_sb_info) : trunc_frame s s :=
  ⟨rfl, rfl, rfl, Nat.le_refl _, rfl⟩

/-- A block the allocator is not going to hand out stays so. -/
theorem not_upcoming.frame {s s1 : hmfs_sb_info} {b : Nat} (h : not_upcoming s b)
    (hf : trunc_frame s s1) : not_upcoming s1 b := by
  intro j hj
  rw [hf.blocks]
  exact h j (le_trans hf.used hj)

/-- The result of `get_node` does not depend on the content of the
uninitialised local. -/
theorem get_node_ni (c : hmfs_consts) (sbi : hmfs_sb_info) (nid : Nat) (ni ni1 : node_info) :
    get_node c sbi nid ni = get_node c sbi nid ni1 := by
  unfold get_node get_node_info
  cases h1 : __lookup_nat_cache sbi.nm_info nid with
  | some e => simp
  | none =>
    simp only
    by_cases h2 : lookup_journal_in_cp c sbi.cp_info nid ≥ 0
    · simp [h2, node_info_from_raw_nat]
    · simp [h2, get_current_nat_block, ENODATA]

/-- The result of `get_node` is decided by the cache entry of the nid and the
journal. -/
theorem get_node_congr (c : hmfs_consts) (s s1 : hmfs_sb_info) (nid : Nat) (ni ni1 : node_info)
    (hr : s1.nm_info.nat_root nid = s.nm_info.nat_root nid)
    (hj : s1.cp_info.nat_journals = s.cp_info.nat_journals) :
    get_node c s1 nid ni1 = get_node c s nid ni := by
  rw [get_node_ni c s nid ni ni1]
  unfold get_node get_node_info __lookup_nat_cache lookup_journal_in_cp nat_in_journal
  have hl : ∀ n i, lookup_journal_from s1.cp_info nid n i = lookup_journal_from s.cp_info nid n i := by
    intro n
    induction n with
    | zero => intro i; rfl
    | succ n ih => intro i; simp only [lookup_journal_from, hj, ih]
  simp only [hr, hl, hj, get_current_nat_block, ADDR]

/-- A nid whose cache entry holds `NULL_ADDR` reads as gone. -/
theorem get_node_null (c : hmfs_consts) (s : hmfs_sb_info) (nid : Nat) (ni : node_info)
    (e : node_info) (h : s.nm_info.nat_root nid = some e) (hn : e.blk_addr = c.NULL_ADDR) :
    get_node c s nid ni = .error (-ENODATA) := by
  unfold get_node
  rw [get_node_info_cached c s nid ni e h]
  simp [hn]

/-- A live node has a block address other than `NULL_ADDR` in its `node_info`. -/
theorem get_node_ok_info (c : hmfs_consts) (s : hmfs_sb_info) (nid p : Nat) (ni : node_info)
    (h : get_node c s nid ni = .ok p) :
    (get_node_info c s nid ni).2.blk_addr = p ∧ p ≠ c.NULL_ADDR := by
  simp only [get_node] at h
  split_ifs at h with h1 h2 h3
  simp only [ADDR, Except.ok.injEq] at h
  exact ⟨h, h ▸ h2⟩

/-- What `truncate_node` does to the state when it returns: nothing, or the
cache entry of the nid is set to `NULL_ADDR`; pages, summaries and the
allocator are as before, and so are the cache entries of the other nids. -/
theorem truncate_node_effect (c : hmfs_consts) (s s1 : hmfs_sb_info) (dn dn1 : dnode_of_data)
    (ni : node_info) (h : truncate_node c s dn ni = .ok (s1, dn1)) :
    trunc_frame s s1 ∧ s1.nvm = s.nvm ∧ s1.summaries = s.summaries ∧
      s1.node_blocks_used = s.node_blocks_used ∧
      (∀ k, k ≠ dn.nid → s1.nm_info.nat_root k = s.nm_info.nat_root k) ∧
      (s1 = s ∨ ∃ e, s1.nm_info.nat_root dn.nid = some e ∧ e.blk_addr = c.NULL_ADDR) ∧
      (dn.inode.i_blocks ≠ 0 →
        ∃ e, s1.nm_info.nat_root dn.nid = some e ∧ e.blk_addr = c.NULL_ADDR) := by
  unfold truncate_node at h
  simp only at h
  split_ifs at h with h1 h2 h3 h4
  · simp only [Except.ok.injEq, Prod.mk.injEq] at h
    rw [← h.1]
    exact ⟨trunc_frame.frame_refl s, rfl, rfl, rfl, fun _ _ => rfl, Or.inl rfl, fun hc => absurd h1 hc⟩
  · simp only [Except.ok.injEq, Prod.mk.injEq] at h
    rw [← h.1]
    have hr := update_nat_entry_root s.nm_info dn.nid dn.inode.i_ino c.NULL_ADDR
      s.cp_info.store_version true
    refine ⟨⟨rfl, rfl, rfl, Nat.le_refl _, rfl⟩, rfl, rfl, rfl, ?_, Or.inr ⟨_, hr, rfl⟩,
      fun _ => ⟨_, hr, rfl⟩⟩
    intro k hk
    exact update_nat_entry_root_other _ _ _ _ _ _ k hk
  · simp only [Except.ok.injEq, Prod.mk.injEq] at h
    rw [← h.1]
    have hr := update_nat_entry_root s.nm_info dn.nid dn.inode.i_ino c.NULL_ADDR
      s.cp_info.store_version true
    refine ⟨⟨rfl, rfl, rfl, Nat.le_refl _, rfl⟩, rfl, rfl, rfl, ?_, Or.inr ⟨_, hr, rfl⟩,
      fun _ => ⟨_, hr, rfl⟩⟩
    intro k hk
    exact update_nat_entry_root_other _ _ _ _ _ _ k hk

/-- What `get_new_node` does: it returns the node as it is when it is already
wandered; or it fails, leaving all but the node counter alone; or it takes the
next block of the allocator, fills it with the copy of the node (a zeroed body
when there is none), stamps its summary with the current version and maps the
nid to it. -/
theorem get_new_node_effect (c : hmfs_consts) (s : hmfs_sb_info) (nid : Nat) (inode : inode)
    (ni : node_info) :
    (∃ p, get_node c s nid ni = .ok p ∧
      (s.summaries p).start_version = s.cp_info.store_version ∧
      get_new_node c s nid inode ni = (.ok p, s)) ∨
    (∃ e, (get_new_node c s nid inode ni).1 = .error e ∧ e < 0 ∧ e ≠ -ENODATA ∧
      trunc_frame s (get_new_node c s nid inode ni).2 ∧
      (get_new_node c s nid inode ni).2.nvm = s.nvm ∧
      (get_new_node c s nid inode ni).2.summaries = s.summaries ∧
      (get_new_node c s nid inode ni).2.nm_info = s.nm_info ∧
      (get_new_node c s nid inode ni).2.node_blocks_used = s.node_blocks_used) ∨
    ((get_new_node c s nid inode ni).1 = .ok (s.node_blocks s.node_blocks_used) ∧
      trunc_frame s (get_new_node c s nid inode ni).2 ∧
      (get_new_node c s nid inode ni).2.node_blocks_used = s.node_blocks_used + 1 ∧
      (∀ q, q ≠ s.node_blocks s.node_blocks_used →
        (get_new_node c s nid inode ni).2.nvm q = s.nvm q ∧
        (get_new_node c s nid inode ni).2.summaries q = s.summaries q) ∧
      ((∃ src, get_node c s nid ni = .ok src ∧
          (get_new_node c s nid inode ni).2.nvm (s.node_blocks s.node_blocks_used) = s.nvm src) ∨
        ((∃ e, get_node c s nid ni = .error e) ∧
          ((get_new_node c s nid inode ni).2.nvm (s.node_blocks s.node_blocks_used)).body
            = fun _ => 0)) ∧
      ((get_new_node c s nid inode ni).2.summaries
          (s.node_blocks s.node_blocks_used)).start_version = s.cp_info.store_version ∧
      (∃ e, (get_new_node c s nid inode ni).2.nm_info.nat_root nid = some e ∧
        e.blk_addr = s.node_blocks s.node_blocks_used) ∧
      (∀ k, k ≠ nid →
        (get_new_node c s nid inode ni).2.nm_info.nat_root k = s.nm_info.nat_root k)) := by
  have alloc_case : ∀ (hw : ∀ p, get_node c s nid ni = .ok p →
        (s.summaries p).start_version ≠ s.cp_info.store_version),
      ¬ (s.cp_info.valid_node_count + 1 > s.node_budget) → inode.no_alloc = false →
      (get_new_node c s nid inode ni).1 = .ok (s.node_blocks s.node_blocks_used) ∧
      trunc_frame s (get_new_node c s nid inode ni).2 ∧
      (get_new_node c s nid inode ni).2.node_blocks_used = s.node_blocks_used + 1 ∧
      (∀ q, q ≠ s.node_blocks s.node_blocks_used →
        (get_new_node c s nid inode ni).2.nvm q = s.nvm q ∧
        (get_new_node c s nid inode ni).2.summaries q = s.summaries q) ∧
      ((∃ src, get_node c s nid ni = .ok src ∧
          (get_new_node c s nid inode ni).2.nvm (s.node_blocks s.node_blocks_used) = s.nvm src) ∨
        ((∃ e, get_node c s nid ni = .error e) ∧
          ((get_new_node c s nid inode ni).2.nvm (s.node_blocks s.node_blocks_used)).body
            = fun _ => 0)) ∧
      ((get_new_node c s nid inode ni).2.summaries
          (s.node_blocks s.node_blocks_used)).start_version = s.cp_info.store_version ∧
      (∃ e, (get_new_node c s nid inode ni).2.nm_info.nat_root nid = some e ∧
        e.blk_addr = s.node_blocks s.node_blocks_used) ∧
      (∀ k, k ≠ nid →
        (get_new_node c s nid inode ni).2.nm_info.nat_root k = s.nm_info.nat_root k) := by
    intro hw hb hna
    cases hsrc : get_node c s nid ni with
    | error e =>
      simp only [get_new_node, hsrc, inc_valid_node_count, if_neg hb, hna, get_free_node_block,
        ADDR, make_summary_entry, get_summary_start, get_summary_by_addr]
      refine ⟨rfl, ⟨rfl, rfl, rfl, Nat.le_succ _, rfl⟩, rfl, ?_, Or.inr ⟨⟨e, rfl⟩, ?_⟩, ?_,
        ⟨_, update_nat_entry_root _ _ _ _ _ _, rfl⟩, ?_⟩
      · intro q hq; simp [hq]
      · simp
      · simp
      · intro k hk; exact update_nat_entry_root_other _ _ _ _ _ _ k hk
    | ok p =>
      have hwp := hw p hsrc
      simp only [get_summary_start, get_summary_by_addr] at hwp
      simp only [get_new_node, hsrc, get_summary_start, get_summary_by_addr, if_neg hwp,
        inc_valid_node_count, if_neg hb, hna, get_free_node_block,
        ADDR, make_summary_entry]
      refine ⟨rfl, ⟨rfl, rfl, rfl, Nat.le_succ _, rfl⟩, rfl, ?_, Or.inl ⟨p, rfl, ?_⟩, ?_,
        ⟨_, update_nat_entry_root _ _ _ _ _ _, rfl⟩, ?_⟩
      · intro q hq; simp [hq]
      · simp
      · simp
      · intro k hk; exact update_nat_entry_root_other _ _ _ _ _ _ k hk
  have fail_case : ∀ (hw : ∀ p, get_node c s nid ni = .ok p →
        (s.summaries p).start_version ≠ s.cp_info.store_version),
      (s.cp_info.valid_node_count + 1 > s.node_budget ∨ inode.no_alloc = true) →
      ∃ e, (get_new_node c s nid inode ni).1 = .error e ∧ e < 0 ∧ e ≠ -ENODATA ∧
        trunc_frame s (get_new_node c s nid inode ni).2 ∧
        (get_new_node c s nid inode ni).2.nvm = s.nvm ∧
        (get_new_node c s nid inode ni).2.summaries = s.summaries ∧
        (get_new_node c s nid inode ni).2.nm_info = s.nm_info ∧
        (get_new_node c s nid inode ni).2.node_blocks_used = s.node_blocks_used := by
    intro hw hf
    have key : ∀ (r : Except Int Nat × hmfs_sb_info),
        (s.cp_info.valid_node_count + 1 > s.node_budget → r = (.error (-ENOSPC), s)) →
        (¬ (s.cp_info.valid_node_count + 1 > s.node_budget) → inode.no_alloc = true →
          r = (.error (-EPERM),
            { s with cp_info :=
                { s.cp_info with valid_node_count := s.cp_info.valid_node_count + 1 } })) →
        ∃ e, r.1 = .error e ∧ e < 0 ∧ e ≠ -ENODATA ∧ trunc_frame s r.2 ∧ r.2.nvm = s.nvm ∧
          r.2.summaries = s.summaries ∧ r.2.nm_info = s.nm_info ∧
          r.2.node_blocks_used = s.node_blocks_used := by
      intro r h1 h2
      by_cases hb : s.cp_info.valid_node_count + 1 > s.node_budget
      · rw [h1 hb]
        exact ⟨-ENOSPC, rfl, by decide, by decide, trunc_frame.frame_refl s, rfl, rfl, rfl, rfl⟩
      · have hna : inode.no_alloc = true := by
          rcases hf with h | h
          · exact absurd h hb
          · exact h
        rw [h2 hb hna]
        exact ⟨-EPERM, rfl, by decide, by decide, ⟨rfl, rfl, rfl, Nat.le_refl _, rfl⟩, rfl, rfl,
          rfl, rfl⟩
    apply key
    · intro hb
      cases hsrc : get_node c s nid ni with
      | error e =>
        simp only [get_new_node, hsrc, inc_valid_node_count, if_pos hb]
        rfl
      | ok p =>
        have hwp := hw p hsrc
        simp only [get_summary_start, get_summary_by_addr] at hwp
        simp only [get_new_node, hsrc, get_summary_start, get_summary_by_addr, if_neg hwp,
          inc_valid_node_count, if_pos hb]
        rfl
    · intro hb hna
      cases hsrc : get_node c s nid ni with
      | error e =>
        simp only [get_new_node, hsrc, inc_valid_node_count, if_neg hb, hna]
        rfl
      | ok p =>
        have hwp := hw p hsrc
        simp only [get_summary_start, get_summary_by_addr] at hwp
        simp only [get_new_node, hsrc, get_summary_start, get_summary_by_addr, if_neg hwp,
          inc_valid_node_count, if_neg hb, hna]
        rfl
  by_cases hw : ∃ p, get_node c s nid ni = .ok p ∧
      (s.summaries p).start_version = s.cp_info.store_version
  · obtain ⟨p, hp, hv⟩ := hw
    refine Or.inl ⟨p, hp, hv, ?_⟩
    simp only [get_new_node, hp, get_summary_start, get_summary_by_addr, if_pos hv]
  · have hw2 : ∀ p, get_node c s nid ni = .ok p →
        (s.summaries p).start_version ≠ s.cp_info.store_version :=
      fun p hp hv => hw ⟨p, hp, hv⟩
    by_cases hf : s.cp_info.valid_node_count + 1 > s.node_budget ∨ inode.no_alloc = true
    · exact Or.inr (Or.inl (fail_case hw2 hf))
    · have hb : ¬ (s.cp_info.valid_node_count + 1 > s.node_budget) := fun h => hf (Or.inl h)
      have hna : inode.no_alloc = false := by
        cases h : inode.no_alloc with
        | false => rfl
        | true => exact absurd (Or.inr h) hf
      exact Or.inr (Or.inr (alloc_case hw2 hb hna))

/-! ## Truncation below an unprotected nid -/

theorem get_node_error (c : hmfs_consts) (s : hmfs_sb_info) (nid : Nat) (ni : node_info)
    (e : Int) (h : get_node c s nid ni = .error e) : e = -ENODATA ∨ e = -EINVAL := by
  unfold get_node at h
  simp only at h
  split_ifs at h with h1 h2 h3
  · simp only [Except.error.injEq] at h
    rw [← h]
    unfold get_node_info at h1 ⊢
    cases hc : __lookup_nat_cache s.nm_info nid with
    | some e0 => simp [hc] at h1
    | none =>
      simp only [hc] at h1 ⊢
      split_ifs at h1 ⊢ with h4
      · simp at h1
      · simp [get_current_nat_block]
  · simp only [Except.error.injEq] at h
    exact Or.inl h.symm
  · simp only [Except.error.injEq] at h
    exact Or.inr h.symm

/-- What `truncate_dnode` does when it returns: the value is 1 or a negative
error other than `-ENODATA`; pages, summaries and the allocator are as before,
and so are the cache entries of the other nids; after the value 1 the nid is 0
or reads as gone. -/
theorem truncate_dnode_effect (c : hmfs_consts) (s : hmfs_sb_info) (dn : dnode_of_data)
    (ni : node_info) (r : Int × hmfs_sb_info × dnode_of_data)
    (h : truncate_dnode c s dn ni = .ok r) :
    trunc_frame s r.2.1 ∧ r.2.1.nvm = s.nvm ∧ r.2.1.summaries = s.summaries ∧
      r.2.1.node_blocks_used = s.node_blocks_used ∧
      (∀ k, k ≠ dn.nid → r.2.1.nm_info.nat_root k = s.nm_info.nat_root k) ∧
      (r.1 = 1 ∨ (r.1 < 0 ∧ r.1 ≠ -ENODATA)) ∧
      (¬ r.1 < 0 → dn.nid = 0 ∨ ∀ ni1, get_node c r.2.1 dn.nid ni1 = .error (-ENODATA)) := by
  unfold truncate_dnode at h
  by_cases h0 : dn.nid = 0
  · simp only [if_pos h0, Except.ok.injEq] at h
    rw [← h]
    exact ⟨trunc_frame.frame_refl s, rfl, rfl, rfl, fun _ _ => rfl, Or.inl rfl, fun _ => Or.inl h0⟩
  · simp only [if_neg h0] at h
    cases hg : get_node c s dn.nid ni with
    | error e =>
      simp only [hg] at h
      by_cases he : e = -ENODATA
      · simp only [if_pos he, Except.ok.injEq] at h
        rw [← h]
        refine ⟨trunc_frame.frame_refl s, rfl, rfl, rfl, fun _ _ => rfl, Or.inl rfl, fun _ => Or.inr ?_⟩
        intro ni1
        rw [get_node_ni c s dn.nid ni1 ni, hg, he]
      · simp only [if_neg he, Except.ok.injEq] at h
        rw [← h]
        have hneg : e < 0 := by
          rcases get_node_error c s dn.nid ni e hg with h1 | h1
          · exact absurd h1 he
          · rw [h1]; decide
        exact ⟨trunc_frame.frame_refl s, rfl, rfl, rfl, fun _ _ => rfl, Or.inr ⟨hneg, he⟩,
          fun hc => absurd hneg hc⟩
    | ok hn =>
      simp only [hg, truncate_data_blocks] at h
      cases ht : truncate_node c s { dn with node_block := some hn, ofs_in_node := 0 } ni with
      | error e => simp [ht] at h
      | ok q =>
        simp only [ht, Except.ok.injEq] at h
        rw [← h]
        obtain ⟨hf, hnvm, hsum, hused, hother, hself, _⟩ :=
          truncate_node_effect c s q.1 _ q.2 ni ht
        refine ⟨hf, hnvm, hsum, hused, hother, Or.inl rfl, fun _ => Or.inr ?_⟩
        intro ni1
        rcases hself with h1 | ⟨e, he, hnull⟩
        · -- the state is unchanged only when i_blocks = 0, which needs a NULL_ADDR
          exfalso
          unfold truncate_node at ht
          simp only at ht
          have hlive := get_node_ok_info c s dn.nid hn ni hg
          split_ifs at ht with h2 h3 h4
          · exact h3 (hlive.1 ▸ hlive.2)
          · simp only [Except.ok.injEq] at ht
            have : q.1.invalid_blocks = s.invalid_blocks := by rw [h1]
            rw [← ht] at this
            simp [dec_valid_inode_count, remove_orphan_inode, dec_valid_node_count,
              invalidate_block] at this
          · simp only [Except.ok.injEq] at ht
            have : q.1.invalid_blocks = s.invalid_blocks := by rw [h1]
            rw [← ht] at this
            simp [mark_inode_dirty, dec_valid_node_count, invalidate_block] at this
        · exact get_node_null c q.1 dn.nid ni1 e he hnull

theorem truncate_nodes_low (c : hmfs_consts) (tc : trunc_consts) (ni : node_info)
    (depth : Nat) (hd : depth < 3) (s : hmfs_sb_info) (inode : inode) (nid : Nat)
    (nofs ofs : Int) :
    truncate_nodes c tc ni depth s inode nid nofs ofs
      = if nid = 0 then .ok (to_int (tc.layout.NIDS_PER_BLOCK + 1), s)
        else
          match (get_new_node c s nid inode ni).1 with
          | .error e => .ok (e, (get_new_node c s nid inode ni).2)
          | .ok hn =>
            truncate_nodes_end c inode nid ofs ni
              (truncate_nodes_direct c inode hn ni (tc.layout.NIDS_PER_BLOCK - ofs).toNat
                ofs.toNat (get_new_node c s nid inode ni).2 0) := by
  match depth, hd with
  | 0, _ => simp only [truncate_nodes]; try rfl
  | 1, _ => simp only [truncate_nodes]; try rfl
  | 2, _ => simp only [truncate_nodes]; try rfl

theorem truncate_nodes_high (c : hmfs_consts) (tc : trunc_consts) (ni : node_info)
    (d : Nat) (s : hmfs_sb_info) (inode : inode) (nid : Nat) (nofs ofs : Int) :
    truncate_nodes c tc ni (d + 3) s inode nid nofs ofs
      = if nid = 0 then .ok (to_int (tc.layout.NIDS_PER_BLOCK + 1), s)
        else
          match (get_new_node c s nid inode ni).1 with
          | .error e => .ok (e, (get_new_node c s nid inode ni).2)
          | .ok hn =>
            truncate_nodes_end c inode nid ofs ni
              (match
                truncate_nodes_indirect tc hn
                  (fun s child child_nofs => truncate_nodes c tc ni (d + 2) s inode child
                    child_nofs 0)
                  (tc.layout.NIDS_PER_BLOCK - ofs).toNat ofs.toNat
                  (get_new_node c s nid inode ni).2
                  (to_uint (nofs + ofs * (tc.layout.NIDS_PER_BLOCK + 1) + 1)) with
              | .error h => .error h
              | .ok r => .ok (r.1, r.2.1, to_int r.2.2)) := by
  simp only [truncate_nodes]
  try rfl

/-- What is kept decides `get_node` for the kept nids. -/
theorem keeps.get_node {P X : Nat → Prop} {a b : hmfs_sb_info} (h : keeps P X a b)
    (c : hmfs_consts) (p : Nat) (hp : P p) (ni ni1 : node_info) :
    get_node c b p ni1 = get_node c a p ni :=
  get_node_congr c a b p ni ni1 (h.nat p hp) h.frame.journals

/-- The count `NIDS_PER_BLOCK + 1` as an `int`. -/
theorem to_int_nids_succ (tc : trunc_consts) (hfit : tc.fits) :
    to_int (tc.layout.NIDS_PER_BLOCK + 1) = tc.layout.NIDS_PER_BLOCK + 1 := by
  have h1 := hfit.nids
  have h2 := hfit.count
  apply to_int_of_fits
  · omega
  · nlinarith

/-- The loop of `truncate_nodes` over direct nodes counts every index when it
runs to the end, and leaves through `out_err` only with a negative error other
than `-ENODATA`. -/
theorem truncate_nodes_direct_count (c : hmfs_consts) (inode : inode) (hn : Nat)
    (ni : node_info) :
    ∀ (n i : Nat) (s : hmfs_sb_info) (freed : Int) (r : Option Int × hmfs_sb_info × Int),
      0 ≤ freed → freed + n ≤ 2147483647 →
      truncate_nodes_direct c inode hn ni n i s freed = .ok r →
      (r.1 = none → r.2.2 = freed + n) ∧ (∀ ret, r.1 = some ret → ret < 0 ∧ ret ≠ -ENODATA)
  | 0, i, s, freed, r, _, _, h => by
    simp only [truncate_nodes_direct, Except.ok.injEq] at h
    rw [← h]
    simp
  | n + 1, i, s, freed, r, h0, h1, h => by
    unfold truncate_nodes_direct at h
    simp only at h
    have hstep : to_int (freed + 1) = freed + 1 := to_int_of_fits _ (by omega) (by omega)
    have hnext := truncate_nodes_direct_count c inode hn ni n (i + 1)
    by_cases hz : to_nid (get_nid s hn i) = 0
    · simp only [if_pos hz, hstep] at h
      obtain ⟨a, b⟩ := hnext s (freed + 1) r (by omega) (by push_cast at h1 ⊢; omega) h
      refine ⟨fun hr => ?_, b⟩
      rw [a hr]; push_cast; ring
    · simp only [if_neg hz] at h
      cases ht : truncate_dnode c s ⟨inode, none, none, to_nid (get_nid s hn i), 0⟩ ni with
      | error e => simp [ht] at h
      | ok q =>
        simp only [ht] at h
        obtain ⟨_, _, _, _, _, hval, _⟩ := truncate_dnode_effect c s _ ni q ht
        by_cases hneg : q.1 < 0
        · simp only [if_pos hneg, Except.ok.injEq] at h
          rw [← h]
          refine ⟨fun hr => by simp at hr, fun ret hret => ?_⟩
          simp only [Option.some.injEq] at hret
          rcases hval with h1 | h1
          · rw [h1] at hneg; exact absurd hneg (by decide)
          · rw [← hret]; exact h1
        · simp only [if_neg hneg, hstep] at h
          obtain ⟨a, b⟩ := hnext _ (freed + 1) r (by omega) (by push_cast at h1 ⊢; omega) h
          refine ⟨fun hr => ?_, b⟩
          rw [a hr]; push_cast; ring

/-- A `truncate_nodes` call for a whole node of direct nodes (`depth < 3`,
`ofs = 0`) returns `NIDS_PER_BLOCK + 1` or a negative error other than
`-ENODATA`. -/
theorem truncate_nodes_whole_value (c : hmfs_consts) (tc : trunc_consts) (hfit : tc.fits)
    (ni : node_info) (depth : Nat) (hd : depth < 3) (s : hmfs_sb_info) (inode : inode)
    (nid : Nat) (nofs : Int) (r : Int × hmfs_sb_info)
    (h : truncate_nodes c tc ni depth s inode nid nofs 0 = .ok r) :
    r.1 = to_int (tc.layout.NIDS_PER_BLOCK + 1) ∨ (r.1 < 0 ∧ r.1 ≠ -ENODATA) := by
  rw [truncate_nodes_low c tc ni depth hd] at h
  have hN := hfit.nids
  have hC := hfit.count
  by_cases h0 : nid = 0
  · simp only [if_pos h0, Except.ok.injEq] at h
    rw [← h]
    exact Or.inl rfl
  · simp only [if_neg h0] at h
    rcases get_new_node_effect c s nid inode ni with ⟨p, _, _, hg⟩ |
      ⟨e, he, hneg, hne, _⟩ | ⟨hret, _⟩
    · simp only [hg, sub_zero, Int.toNat_zero] at h
      unfold truncate_nodes_end at h
      cases hb : truncate_nodes_direct c inode p ni tc.layout.NIDS_PER_BLOCK.toNat
          0 s 0 with
      | error e => simp [hb] at h
      | ok q =>
        obtain ⟨a, b⟩ := truncate_nodes_direct_count c inode p ni _ _ s 0 q (le_refl 0)
          (by rw [Int.toNat_of_nonneg (by omega)]; nlinarith) hb
        obtain ⟨q1, q2, q3⟩ := q
        cases q1 with
        | some ret =>
          simp only [hb, Except.ok.injEq] at h
          rw [← h]
          exact Or.inr (b ret rfl)
        | none =>
          simp only [hb, if_true] at h
          cases ht : truncate_node c q2 ⟨inode, none, none, nid, 0⟩ ni with
          | error e => simp [ht] at h
          | ok w =>
            simp only [ht, Except.ok.injEq] at h
            rw [← h]
            left
            have := a rfl
            simp only at this
            rw [this, Int.toNat_of_nonneg (by omega)]
            simp
    · simp only [he, Except.ok.injEq] at h
      rw [← h]
      exact Or.inr ⟨hneg, hne⟩
    · simp only [hret, sub_zero, Int.toNat_zero] at h
      unfold truncate_nodes_end at h
      cases hb : truncate_nodes_direct c inode (s.node_blocks s.node_blocks_used) ni
          tc.layout.NIDS_PER_BLOCK.toNat 0
          (get_new_node c s nid inode ni).2 0 with
      | error e => simp [hb] at h
      | ok q =>
        obtain ⟨a, b⟩ := truncate_nodes_direct_count c inode _ ni _ _ _ 0 q (le_refl 0)
          (by rw [Int.toNat_of_nonneg (by omega)]; nlinarith) hb
        obtain ⟨q1, q2, q3⟩ := q
        cases q1 with
        | some ret =>
          simp only [hb, Except.ok.injEq] at h
          rw [← h]
          exact Or.inr (b ret rfl)
        | none =>
          simp only [hb, if_true] at h
          cases ht : truncate_node c q2 ⟨inode, none, none, nid, 0⟩ ni with
          | error e => simp [ht] at h
          | ok w =>
            simp only [ht, Except.ok.injEq] at h
            rw [← h]
            left
            have := a rfl
            simp only at this
            rw [this, Int.toNat_of_nonneg (by omega)]
            simp

/-! ## Truncation below a protected node -/

/-- The sample layout for truncation fits. -/
theorem sample_trunc_consts_fits : sample_trunc_consts.fits where
  layout :=
    { inode_addrs := by simp [sample_trunc_consts]
      addrs := by simp [sample_trunc_consts]
      nids := by simp [sample_trunc_consts]
      range := by norm_num [sample_trunc_consts, node_layout.max_file_blocks]
      slots_int := by simp [sample_trunc_consts]
      slots_distinct := by simp [sample_trunc_consts] }
  direct := by simp [sample_trunc_consts]
  dir1 := by simp [sample_trunc_consts]
  dir2 := by simp [sample_trunc_consts]
  ind1 := by simp [sample_trunc_consts]
  ind2 := by simp [sample_trunc_consts]
  dind := by simp [sample_trunc_consts]
  nids := by simp [sample_trunc_consts]
  count := by norm_num [sample_trunc_consts]

/-- The scan of the dirty list puts the entry into the list once. -/
theorem dirty_scan_perm (nm : hmfs_nm_info) (e : Nat) :
    ∀ (l l1 : List Nat), dirty_scan nm e l = some l1 → l1.Perm (e :: l)
  | [], l1, h => by simp [dirty_scan] at h
  | le :: rest, l1, h => by
    unfold dirty_scan at h
    by_cases hc : entry_nid nm e > entry_nid nm le
    · simp only [if_pos hc, Option.some.injEq] at h
      rw [← h]
      exact List.Perm.swap e le rest
    · simp only [if_neg hc, Option.map_eq_some'] at h
      obtain ⟨l2, h2, h3⟩ := h
      rw [← h3]
      exact ((dirty_scan_perm nm e rest l2 h2).cons le).trans (List.Perm.swap e le rest)

/-- The insertion into the dirty list puts the entry into the list once. -/
theorem dirty_list_add_perm (nm : hmfs_nm_info) (e : Nat) (l : List Nat) :
    (dirty_list_add nm e l).Perm (e :: l) := by
  cases l with
  | nil => simp [dirty_list_add]
  | cons le rest =>
    unfold dirty_list_add
    by_cases hc : entry_nid nm e < entry_nid nm le
    · simp only [if_pos hc]
      exact List.Perm.refl _
    · simp only [if_neg hc]
      cases hs : dirty_scan nm e (le :: rest) with
      | none => simp
      | some l1 =>
        simp only [Option.getD_some]
        exact dirty_scan_perm nm e _ l1 hs

/-- The cache that `init_node_manager` builds is empty and has the
invariant. -/
theorem init_node_manager_cache_inv (c : hmfs_consts) (t : nat_tree_consts)
    (sbi : hmfs_sb_info) : cache_inv (init_node_manager c t true sbi).2.nm_info where
  once := by simp [init_node_manager]
  listed := by simp [init_node_manager]
  key := by simp [init_node_manager]
  count := by simp [init_node_manager]

/-- The invariant is kept by `grab_nat_entry`. -/
theorem grab_nat_entry_cache_inv (nm : hmfs_nm_info) (nid : Nat) (h : cache_inv nm) :
    cache_inv (grab_nat_entry nm nid).2 := by
  unfold grab_nat_entry
  cases hf : nm.slab_faults with
  | succ k => exact ⟨h.once, h.listed, h.key, h.count⟩
  | zero =>
    cases hr : nm.nat_root nid with
    | some e => simpa [hr] using h
    | none =>
      simp only [hr]
      have hnot : ¬ (nid ∈ nm.nat_entries ∨ nid ∈ nm.dirty_nat_entries) := by
        rw [← h.listed nid, hr]; simp
      refine ⟨?_, ?_, ?_, ?_⟩
      · have h1 := h.once
        rw [List.nodup_append] at h1 ⊢
        obtain ⟨a, b, d⟩ := h1
        refine ⟨?_, b, ?_⟩
        · rw [List.nodup_append]
          refine ⟨a, by simp, ?_⟩
          intro x hx hx1
          simp only [List.mem_singleton] at hx1
          exact hnot (Or.inl (hx1 ▸ hx))
        · intro x hx hx1
          rw [List.mem_append] at hx
          rcases hx with hx | hx
          · exact d hx hx1
          · simp only [List.mem_singleton] at hx
            exact hnot (Or.inr (hx ▸ hx1))
      · intro k
        by_cases hk : k = nid
        · simp [hk]
        · simp only [if_neg hk, List.mem_append, List.mem_singleton, hk, or_false]
          exact h.listed k
      · intro k e he
        by_cases hk : k = nid
        · simp only [if_pos hk, Option.some.injEq] at he
          rw [← he, hk]
        · simp only [if_neg hk] at he
          exact h.key k e he
      · simp only [List.length_append, List.length_singleton]
        rw [h.count]; omega

/-- The invariant is kept by the `retry:` loop, after which the entry is there
when the loop was given a round more than the slab has failures pending. -/
theorem nat_entry_retry_cache_inv :
    ∀ (fuel : Nat) (nm : hmfs_nm_info) (nid : Nat), cache_inv nm →
      cache_inv (nat_entry_retry fuel nm nid)
  | 0, nm, nid, h => by simpa [nat_entry_retry] using h
  | fuel + 1, nm, nid, h => by
    unfold nat_entry_retry
    cases hl : __lookup_nat_cache nm nid with
    | some e => simpa using h
    | none =>
      simp only
      have hg := grab_nat_entry_cache_inv nm nid h
      cases hgr : grab_nat_entry nm nid with
      | mk o nm1 =>
        rw [hgr] at hg
        cases o with
        | some k => simpa using hg
        | none => simpa using nat_entry_retry_cache_inv fuel nm1 nid hg

/-- The invariant is kept by `_cache_nat_entry`. -/
theorem cache_nat_entry_cache_inv (nm : hmfs_nm_info) (nid ino blk_addr version : Nat)
    (h : cache_inv nm) : cache_inv (_cache_nat_entry nm nid ino blk_addr version) := by
  unfold _cache_nat_entry
  have h1 := nat_entry_retry_cache_inv (nm.slab_faults + 1) nm nid h
  generalize nat_entry_retry (nm.slab_faults + 1) nm nid = nm1 at h1
  simp only
  cases hl : __lookup_nat_cache nm1 nid with
  | none => simpa using h1
  | some e =>
    simp only
    have hr : nm1.nat_root nid = some e := hl
    refine ⟨h1.once, ?_, ?_, h1.count⟩
    · intro k
      by_cases hk : k = nid
      · simp only [if_pos hk, Option.isSome_some, true_iff]
        rw [hk, ← h1.listed nid, hr]; rfl
      · simp only [if_neg hk]
        exact h1.listed k
    · intro k e1 he
      by_cases hk : k = nid
      · simp only [if_pos hk, Option.some.injEq] at he
        rw [← he, hk]
        exact h1.key nid e hr
      · simp only [if_neg hk] at he
        exact h1.key k e1 he

/-- The invariant is kept by `update_nat_entry`. -/
theorem update_nat_entry_cache_inv (nm : hmfs_nm_info) (nid ino blk_addr version : Nat)
    (dirty : Bool) (h : cache_inv nm) :
    cache_inv (update_nat_entry nm nid ino blk_addr version dirty) := by
  unfold update_nat_entry
  have h1 := nat_entry_retry_cache_inv (nm.slab_faults + 1) nm nid h
  generalize nat_entry_retry (nm.slab_faults + 1) nm nid = nm1 at h1
  simp only
  cases hl : __lookup_nat_cache nm1 nid with
  | none => simpa using h1
  | some e =>
    simp only
    have hr : nm1.nat_root nid = some e := hl
    have hlisted : ∀ k, (if k = nid then some (⟨ino, nid, blk_addr, version⟩ : node_info) else nm1.nat_root k).isSome ↔
        k ∈ nm1.nat_entries ∨ k ∈ nm1.dirty_nat_entries := by
      intro k
      by_cases hk : k = nid
      · simp only [if_pos hk, Option.isSome_some, true_iff]
        rw [hk, ← h1.listed nid, hr]; rfl
      · simp only [if_neg hk]
        exact h1.listed k
    have hkey : ∀ k e1, (if k = nid then some (⟨ino, nid, blk_addr, version⟩ : node_info) else nm1.nat_root k) = some e1 →
        e1.nid = k := by
      intro k e1 he
      by_cases hk : k = nid
      · simp only [if_pos hk, Option.some.injEq] at he
        rw [← he, hk]
      · simp only [if_neg hk] at he
        exact h1.key k e1 he
    cases dirty with
    | false => exact ⟨h1.once, hlisted, hkey, h1.count⟩
    | true =>
      simp only [if_true, list_del]
      have hmem : nid ∈ nm1.nat_entries ∨ nid ∈ nm1.dirty_nat_entries := by
        rw [← h1.listed nid, hr]; rfl
      have hnd := h1.once
      rw [List.nodup_append] at hnd
      obtain ⟨na, nb, nd⟩ := hnd
      have hperm := dirty_list_add_perm
        { nm1 with nat_root := fun k => if k = nid then some (⟨ino, nid, blk_addr, version⟩ : node_info) else nm1.nat_root k }
        nid (nm1.dirty_nat_entries.erase nid)
      refine ⟨?_, ?_, hkey, ?_⟩
      · rw [List.nodup_append]
        refine ⟨na.erase nid, ?_, ?_⟩
        · rw [hperm.nodup_iff, List.nodup_cons]
          exact ⟨fun hc => (List.Nodup.mem_erase_iff nb).mp hc |>.1 rfl, nb.erase nid⟩
        · intro x hx hx1
          rw [hperm.mem_iff, List.mem_cons] at hx1
          rcases hx1 with hx1 | hx1
          · rw [hx1] at hx
            exact ((List.Nodup.mem_erase_iff na).mp hx).1 rfl
          · exact nd (List.mem_of_mem_erase hx) (List.mem_of_mem_erase hx1)
      · intro k
        rw [hlisted k, hperm.mem_iff, List.mem_cons]
        by_cases hk : k = nid
        · simp [hk, hmem]
        · rw [List.mem_erase_of_ne hk, List.mem_erase_of_ne hk]
          simp [hk]
      · show nm1.nat_cnt = (nm1.nat_entries.erase nid).length + (dirty_list_add _ nid
          (nm1.dirty_nat_entries.erase nid)).length
        rw [hperm.length_eq, List.length_cons, h1.count]
        rcases hmem with hm | hm
        · have hn : nid ∉ nm1.dirty_nat_entries := fun hc => nd hm hc
          rw [List.length_erase_of_mem hm, List.erase_of_not_mem hn]
          have : 0 < nm1.nat_entries.length := List.length_pos_of_mem hm
          omega
        · have hn : nid ∉ nm1.nat_entries := fun hc => nd hc hm
          rw [List.length_erase_of_mem hm, List.erase_of_not_mem hn]
          have : 0 < nm1.dirty_nat_entries.length := List.length_pos_of_mem hm
          omega

/-- The invariant is kept by every sequence of calls. -/
theorem run_cache_ops_cache_inv (ops : List cache_op) :
    ∀ nm, cache_inv nm → cache_inv (run_cache_ops nm ops) := by
  induction ops with
  | nil => intro nm h; exact h
  | cons op rest ih =>
    intro nm h
    show cache_inv (run_cache_ops (run_cache_op nm op) rest)
    apply ih
    cases op with
    | grab nid => exact grab_nat_entry_cache_inv nm nid h
    | cache nid ino blk_addr version => exact cache_nat_entry_cache_inv nm nid ino blk_addr version h
    | update nid ino blk_addr version dirty =>
      exact update_nat_entry_cache_inv nm nid ino blk_addr version dirty h

/-- With the invariant, `nat_cnt` is the number of nids that have an entry in
the radix tree. -/
theorem cache_inv_count (nm : hmfs_nm_info) (h : cache_inv nm) :
    nm.nat_cnt = Set.ncard {k | (nm.nat_root k).isSome} := by
  have hs : {k | (nm.nat_root k).isSome}
      = ((nm.nat_entries ++ nm.dirty_nat_entries).toFinset : Set Nat) := by
    ext k
    simp only [Set.mem_setOf_eq, List.coe_toFinset, List.mem_append]
    exact h.listed k
  rw [hs, Set.ncard_coe_Finset, List.toFinset_card_of_nodup h.once, List.length_append]
  exact h.count

/-- C24: starting from the empty cache that `init_node_manager` builds, every
sequence of `grab_nat_entry`, `_cache_nat_entry` and `update_nat_entry` calls
keeps the membership invariant: a nid has an entry in the radix tree (which
holds at most one per nid) exactly when it is on the clean or the dirty list,
no entry is on both lists or twice on one, every entry stores the nid it is
filed under, and `nat_cnt` is the number of nids with an entry in the tree. -/
theorem cache_ops_keep_membership (c : hmfs_consts) (t : nat_tree_consts) (sbi : hmfs_sb_info)
    (ops : List cache_op) :
    cache_inv (run_cache_ops (init_node_manager c t true sbi).2.nm_info ops) ∧
    (run_cache_ops (init_node_manager c t true sbi).2.nm_info ops).nat_cnt
      = Set.ncard {k | ((run_cache_ops (init_node_manager c t true sbi).2.nm_info ops).nat_root
          k).isSome} :=
  ⟨run_cache_ops_cache_inv ops _ (init_node_manager_cache_inv c t sbi),
    cache_inv_count _ (run_cache_ops_cache_inv ops _ (init_node_manager_cache_inv c t sbi))⟩

/-! ## Claims on the rebuild of the free-nid pool -/

/-- C21, as the code has it: `build_free_nids` fills the pool from slot
`BUILD_FREE_NID_COUNT - 1` downwards, and `alloc_nid` pops slot `fcnt - 1`.
After a mount with the scan cursor at 1807 of `max_nid` 1820 the first eight
calls of `alloc_nid` hand out the nids 1807 to 1814 of a full rebuild.  The
rebuild in the ninth call finds only the five nids 1815 to 1819 below
`max_nid`, records them in the slots 7 down to 3 and returns 5.  The ninth and
tenth call pop 1818 and 1819 from the slots 4 and 3; the next three calls pop
the slots 2, 1 and 0, which this rebuild did not write, and hand out 1812, 1813
and 1814 a second time, while 1815, 1816 and 1817 are never handed out. -/
theorem alloc_nid_pops_below_rebuilt_slots :
    sample_sb_mounted_tail.nm_info.fcnt = 0 ∧
    sample_sb_mounted_tail.nm_info.max_nid = hmfs_max_nid sample_consts sample_tree_consts ∧
    sample_sb_mounted_tail.nm_info.max_nid = 1820 ∧
    sample_sb_mounted_tail.cp_info.valid_node_count + 1
      < (sample_sb_mounted_tail.nm_info.max_nid : Int) ∧
    (alloc_nids sample_consts 2 8 sample_sb_mounted_tail).map
        (fun r => (r.1, r.2.nm_info.fcnt, r.2.nm_info.next_scan_nid, r.2.nm_info.free_nids))
      = .ok ([1807, 1808, 1809, 1810, 1811, 1812, 1813, 1814], 0, 1815,
          [1814, 1813, 1812, 1811, 1810, 1809, 1808, 1807, 0, 0, 0, 0, 0, 0, 0, 0]) ∧
    ((alloc_nids sample_consts 2 8 sample_sb_mounted_tail).bind fun r =>
        (build_free_nids sample_consts r.2).map fun b =>
          (b.1, b.2.nm_info.free_nids, b.2.nm_info.next_scan_nid))
      = .ok (5, [1814, 1813, 1812, 1819, 1818, 1817, 1816, 1815, 0, 0, 0, 0, 0, 0, 0, 0],
          1820) ∧
    (alloc_nids sample_consts 2 13 sample_sb_mounted_tail).map (fun r => (r.1, r.2.nm_info.fcnt))
      = .ok ([1807, 1808, 1809, 1810, 1811, 1812, 1813, 1814, 1818, 1819, 1812, 1813, 1814],
          0) :=
  ⟨rfl, rfl, rfl, by decide, rfl, rfl, rfl⟩

/-! ## Claims on `truncate_nodes` -/

/-- The loop of `truncate_nodes` over direct nodes does nothing on a page that
holds no nid. -/
theorem truncate_nodes_direct_empty (c : hmfs_consts) (inode : inode) (hn : Nat)
    (ni : node_info) :
    ∀ (n i : Nat) (s : hmfs_sb_info) (freed : Int), (∀ j, (s.nvm hn).body j = 0) →
      ∃ f, truncate_nodes_direct c inode hn ni n i s freed = .ok (none, s, f)
  | 0, i, s, freed, _ => ⟨freed, by simp only [truncate_nodes_direct]⟩
  | n + 1, i, s, freed, hz => by
    unfold truncate_nodes_direct
    have h0 : to_nid (get_nid s hn i) = 0 := by
      show to_nid ((s.nvm hn).body i) = 0
      rw [hz i]; rfl
    simp only [if_pos h0]
    exact truncate_nodes_direct_empty c inode hn ni n (i + 1) s _ hz

/-- The loop of `truncate_nodes` over indirect nodes does nothing on a page that
holds no nid. -/
theorem truncate_nodes_indirect_empty (tc : trunc_consts) (hn : Nat)
    (sub : hmfs_sb_info → Nat → Int → Except halt (Int × hmfs_sb_info)) :
    ∀ (n i : Nat) (s : hmfs_sb_info) (cn : Int), (∀ j, (s.nvm hn).body j = 0) →
      ∃ f, truncate_nodes_indirect tc hn sub n i s cn = .ok (none, s, f)
  | 0, i, s, cn, _ => ⟨cn, by simp only [truncate_nodes_indirect]⟩
  | n + 1, i, s, cn, hz => by
    unfold truncate_nodes_indirect
    have h0 : to_nid (get_nid s hn i) = 0 := by
      show to_nid ((s.nvm hn).body i) = 0
      rw [hz i]; rfl
    simp only [if_pos h0]
    exact truncate_nodes_indirect_empty tc hn sub n (i + 1) s _ hz

/-- On a nid that has no node `get_new_node` fails with `-ENOSPC` or `-EPERM`,
or it takes the next block of the allocator, counts one more valid node, zeroes
the page and maps the nid to it. -/
theorem get_new_node_gone (c : hmfs_consts) (s : hmfs_sb_info) (nid : Nat) (inode : inode)
    (ni : node_info) (e0 : Int) (hgone : get_node c s nid ni = .error e0) :
    (∃ e, (get_new_node c s nid inode ni).1 = .error e ∧ e < 0 ∧ e ≠ -ENODATA) ∨
    ((get_new_node c s nid inode ni).1 = .ok (s.node_blocks s.node_blocks_used) ∧
      (get_new_node c s nid inode ni).2.node_blocks_used = s.node_blocks_used + 1 ∧
      (get_new_node c s nid inode ni).2.cp_info.valid_node_count
        = s.cp_info.valid_node_count + 1 ∧
      (∀ j, ((get_new_node c s nid inode ni).2.nvm (s.node_blocks s.node_blocks_used)).body j
        = 0) ∧
      ∃ e, (get_new_node c s nid inode ni).2.nm_info.nat_root nid = some e ∧
        e.blk_addr = s.node_blocks s.node_blocks_used) := by
  by_cases hb : s.cp_info.valid_node_count + 1 > s.node_budget
  · left
    refine ⟨-ENOSPC, ?_, by decide, by decide⟩
    simp only [get_new_node, hgone, inc_valid_node_count, if_pos hb]
    rfl
  · cases hna : inode.no_alloc with
    | true =>
      left
      refine ⟨-EPERM, ?_, by decide, by decide⟩
      simp only [get_new_node, hgone, inc_valid_node_count, if_neg hb, hna]
      rfl
    | false =>
      right
      simp only [get_new_node, hgone, inc_valid_node_count, if_neg hb, hna, get_free_node_block,
        ADDR, make_summary_entry, get_summary_start, get_summary_by_addr]
      refine ⟨rfl, rfl, rfl, ?_, ⟨_, update_nat_entry_root _ _ _ _ _ _, rfl⟩⟩
      intro j
      simp

/-- C22, as the code has it: `truncate_nodes` on a non-zero nid whose NAT entry
is a tombstone (reading it gives `-ENODATA`) does not treat the node as gone.
Whatever `depth`, `nofs` and `ofs` are, a call that returns either aborts with
a negative error other than `-ENODATA`, or has taken a block from the
allocator; in the second case, when `ofs` is not 0, one more valid node is
counted and the NAT entry of the nid points to the new block. -/
theorem truncate_nodes_gone_node_allocates (c : hmfs_consts) (tc : trunc_consts)
    (ni : node_info) (depth : Nat) (s : hmfs_sb_info) (inode : inode) (nid : Nat)
    (nofs ofs : Int) (r : Int × hmfs_sb_info) (h0 : nid ≠ 0)
    (hgone : get_node c s nid ni = .error (-ENODATA))
    (h : truncate_nodes c tc ni depth s inode nid nofs ofs = .ok r) :
    (r.1 < 0 ∧ r.1 ≠ -ENODATA) ∨
    (r.2.node_blocks_used = s.node_blocks_used + 1 ∧
      (ofs ≠ 0 →
        r.2.cp_info.valid_node_count = s.cp_info.valid_node_count + 1 ∧
        ∃ e, r.2.nm_info.nat_root nid = some e ∧
          e.blk_addr = s.node_blocks s.node_blocks_used)) := by
  -- the end of the call, after a loop that changed nothing
  have fin : ∀ (f : Int),
      (get_new_node c s nid inode ni).2.node_blocks_used = s.node_blocks_used + 1 →
      (get_new_node c s nid inode ni).2.cp_info.valid_node_count
        = s.cp_info.valid_node_count + 1 →
      (∃ e, (get_new_node c s nid inode ni).2.nm_info.nat_root nid = some e ∧
        e.blk_addr = s.node_blocks s.node_blocks_used) →
      truncate_nodes_end c inode nid ofs ni (.ok (none, (get_new_node c s nid inode ni).2, f))
        = .ok r →
      (r.1 < 0 ∧ r.1 ≠ -ENODATA) ∨
      (r.2.node_blocks_used = s.node_blocks_used + 1 ∧
        (ofs ≠ 0 →
          r.2.cp_info.valid_node_count = s.cp_info.valid_node_count + 1 ∧
          ∃ e, r.2.nm_info.nat_root nid = some e ∧
            e.blk_addr = s.node_blocks s.node_blocks_used)) := by
    intro f hused hcnt hnat hend
    unfold truncate_nodes_end at hend
    simp only at hend
    by_cases hz : ofs = 0
    · simp only [if_pos hz] at hend
      cases ht : truncate_node c (get_new_node c s nid inode ni).2 ⟨inode, none, none, nid, 0⟩
          ni with
      | error e => simp [ht] at hend
      | ok w =>
        simp only [ht, Except.ok.injEq] at hend
        obtain ⟨_, _, _, hu, _⟩ := truncate_node_effect c _ w.1 _ w.2 ni ht
        rw [← hend]
        exact Or.inr ⟨by rw [hu, hused], fun hc => absurd hz hc⟩
    · simp only [if_neg hz, Except.ok.injEq] at hend
      rw [← hend]
      exact Or.inr ⟨hused, fun _ => ⟨hcnt, hnat⟩⟩
  by_cases hd : depth < 3
  · rw [truncate_nodes_low c tc ni depth hd] at h
    simp only [if_neg h0] at h
    rcases get_new_node_gone c s nid inode ni _ hgone with ⟨e, he, hneg, hne⟩ |
      ⟨hret, hused, hcnt, hzero, hnat⟩
    · simp only [he, Except.ok.injEq] at h
      rw [← h]
      exact Or.inl ⟨hneg, hne⟩
    · simp only [hret] at h
      obtain ⟨f, hf⟩ := truncate_nodes_direct_empty c inode (s.node_blocks s.node_blocks_used)
        ni (tc.layout.NIDS_PER_BLOCK - ofs).toNat ofs.toNat (get_new_node c s nid inode ni).2 0
        hzero
      rw [hf] at h
      exact fin f hused hcnt hnat h
  · obtain ⟨d, rfl⟩ : ∃ d, depth = d + 3 := ⟨depth - 3, by omega⟩
    rw [truncate_nodes_high c tc ni d] at h
    simp only [if_neg h0] at h
    rcases get_new_node_gone c s nid inode ni _ hgone with ⟨e, he, hneg, hne⟩ |
      ⟨hret, hused, hcnt, hzero, hnat⟩
    · simp only [he, Except.ok.injEq] at h
      rw [← h]
      exact Or.inl ⟨hneg, hne⟩
    · simp only [hret] at h
      obtain ⟨f, hf⟩ := truncate_nodes_indirect_empty tc (s.node_blocks s.node_blocks_used)
        (fun s child child_nofs => truncate_nodes c tc ni (d + 2) s inode child child_nofs 0)
        (tc.layout.NIDS_PER_BLOCK - ofs).toNat ofs.toNat (get_new_node c s nid inode ni).2
        (to_uint (nofs + ofs * (tc.layout.NIDS_PER_BLOCK + 1) + 1)) hzero
      rw [hf] at h
      exact fin (to_int f) hused hcnt hnat h

/-- Witness for C22: in the sample tree after the truncation from block 17 the
indirect node 22 is a tombstone; `truncate_nodes` on it from child 1 on returns
1 after taking the block 106496 for it. -/
theorem truncate_nodes_gone_node_allocates_witness :
    (22 : Nat) ≠ 0 ∧
    get_node sample_consts sample_sb_cut 22 zero_ni = .error (-ENODATA) ∧
    ∃ r, truncate_nodes sample_consts sample_trunc_consts zero_ni 2 sample_sb_cut sample_inode
        22 0 1 = .ok r ∧ r.1 = 1 ∧
      ((r.1 < 0 ∧ r.1 ≠ -ENODATA) ∨
        (r.2.node_blocks_used = sample_sb_cut.node_blocks_used + 1 ∧
          ((1 : Int) ≠ 0 →
            r.2.cp_info.valid_node_count = sample_sb_cut.cp_info.valid_node_count + 1 ∧
            ∃ e, r.2.nm_info.nat_root 22 = some e ∧
              e.blk_addr = sample_sb_cut.node_blocks sample_sb_cut.node_blocks_used))) :=
  ⟨by decide, rfl, _, rfl, rfl,
    truncate_nodes_gone_node_allocates sample_consts sample_trunc_consts zero_ni 2 sample_sb_cut
      sample_inode 22 0 1 _ (by decide) rfl rfl⟩

/-- The loop of `truncate_nodes` over indirect nodes, when every recursion
returns `NIDS_PER_BLOCK + 1` or a negative error other than `-ENODATA`: run to
its end it has moved `child_nofs` on by `NIDS_PER_BLOCK + 1` for every index,
and it is left through `out_err` only with a negative error. -/
theorem truncate_nodes_indirect_count (tc : trunc_consts) (hn : Nat)
    (sub : hmfs_sb_info → Nat → Int → Except halt (Int × hmfs_sb_info))
    (hN : 0 ≤ tc.layout.NIDS_PER_BLOCK)
    (hpos : to_int (tc.layout.NIDS_PER_BLOCK + 1) = tc.layout.NIDS_PER_BLOCK + 1)
    (hval : ∀ (s : hmfs_sb_info) (child : Nat) (nofs : Int) (q : Int × hmfs_sb_info),
      sub s child nofs = .ok q →
      q.1 = to_int (tc.layout.NIDS_PER_BLOCK + 1) ∨ (q.1 < 0 ∧ q.1 ≠ -ENODATA)) :
    ∀ (n i : Nat) (s : hmfs_sb_info) (cn : Int) (r : Option Int × hmfs_sb_info × Int),
      0 ≤ cn → cn + n * (tc.layout.NIDS_PER_BLOCK + 1) < 4294967296 →
      truncate_nodes_indirect tc hn sub n i s cn = .ok r →
      (r.1 = none → r.2.2 = cn + n * (tc.layout.NIDS_PER_BLOCK + 1)) ∧
      (∀ ret, r.1 = some ret → ret < 0)
  | 0, i, s, cn, r, _, _, h => by
    simp only [truncate_nodes_indirect, Except.ok.injEq] at h
    rw [← h]
    simp
  | n + 1, i, s, cn, r, h0, h1, h => by
    unfold truncate_nodes_indirect at h
    simp only at h
    have hnn : (0 : Int) ≤ (n : Int) * (tc.layout.NIDS_PER_BLOCK + 1) :=
      mul_nonneg (Int.ofNat_nonneg n) (by omega)
    have hb : cn + (tc.layout.NIDS_PER_BLOCK + 1) < 4294967296 := by
      push_cast at h1
      nlinarith
    have hu : to_uint (cn + (tc.layout.NIDS_PER_BLOCK + 1))
        = cn + (tc.layout.NIDS_PER_BLOCK + 1) := by
      unfold to_uint
      exact Int.emod_eq_of_lt (by omega) hb
    have hnext := truncate_nodes_indirect_count tc hn sub hN hpos hval n (i + 1)
    have hsum : cn + (tc.layout.NIDS_PER_BLOCK + 1) + (n : Int) * (tc.layout.NIDS_PER_BLOCK + 1)
        = cn + ((n + 1 : Nat) : Int) * (tc.layout.NIDS_PER_BLOCK + 1) := by
      push_cast
      ring
    by_cases hz : to_nid (get_nid s hn i) = 0
    · simp only [if_pos hz, hu] at h
      obtain ⟨a, b⟩ := hnext s _ r (by omega) (by rw [hsum]; exact h1) h
      exact ⟨fun hr => by rw [a hr, hsum], b⟩
    · simp only [if_neg hz] at h
      cases ht : sub s (to_nid (get_nid s hn i)) cn with
      | error e => simp [ht] at h
      | ok q =>
        simp only [ht] at h
        by_cases hfull : q.1 = to_int (tc.layout.NIDS_PER_BLOCK + 1)
        · simp only [if_pos hfull] at h
          rw [hfull, hpos, hu] at h
          obtain ⟨a, b⟩ := hnext _ _ r (by omega) (by rw [hsum]; exact h1) h
          exact ⟨fun hr => by rw [a hr, hsum], b⟩
        · obtain ⟨hneg, hne⟩ : q.1 < 0 ∧ q.1 ≠ -ENODATA := by
            rcases hval s _ _ q ht with h2 | h2
            · exact absurd h2 hfull
            · exact h2
          have hgo : q.1 ≠ 0 ∧ q.1 ≠ -ENODATA := ⟨by omega, hne⟩
          simp only [if_neg hfull, if_pos hgo, Except.ok.injEq] at h
          rw [← h]
          refine ⟨fun hr => by simp at hr, fun ret hret => ?_⟩
          simp only [Option.some.injEq] at hret
          rw [← hret]
          exact hneg

/-- The loop of `truncate_nodes` over indirect nodes clears a slot of the page
only when the recursion for the nid in it returned `NIDS_PER_BLOCK + 1`: when
the recursion leaves the page alone and returns that value only for the nids in
`F`, every slot of the page holds afterwards what it held before, or 0 when it
held a nid in `F`. -/
theorem truncate_nodes_indirect_clears (tc : trunc_consts) (hn : Nat)
    (sub : hmfs_sb_info → Nat → Int → Except halt (Int × hmfs_sb_info)) (F : Nat → Prop)
    (hpage : ∀ (s : hmfs_sb_info) (child : Nat) (cn : Int) (q : Int × hmfs_sb_info),
      sub s child cn = .ok q → q.2.nvm hn = s.nvm hn)
    (hF : ∀ (s : hmfs_sb_info) (child : Nat) (cn : Int) (q : Int × hmfs_sb_info),
      sub s child cn = .ok q → q.1 = to_int (tc.layout.NIDS_PER_BLOCK + 1) → F child) :
    ∀ (n i : Nat) (s : hmfs_sb_info) (cn : Int) (r : Option Int × hmfs_sb_info × Int),
      truncate_nodes_indirect tc hn sub n i s cn = .ok r →
      ∀ j, (r.2.1.nvm hn).body j = (s.nvm hn).body j ∨
        ((r.2.1.nvm hn).body j = 0 ∧ F (to_nid ((s.nvm hn).body j)))
  | 0, i, s, cn, r, h => by
    simp only [truncate_nodes_indirect, Except.ok.injEq] at h
    rw [← h]
    exact fun j => Or.inl rfl
  | n + 1, i, s, cn, r, h => by
    unfold truncate_nodes_indirect at h
    simp only at h
    have hnext := truncate_nodes_indirect_clears tc hn sub F hpage hF n (i + 1)
    by_cases hz : to_nid (get_nid s hn i) = 0
    · simp only [if_pos hz] at h
      exact hnext s _ r h
    · simp only [if_neg hz] at h
      cases ht : sub s (to_nid (get_nid s hn i)) cn with
      | error e => simp [ht] at h
      | ok q =>
        simp only [ht] at h
        have hp := hpage s _ _ q ht
        by_cases hfull : q.1 = to_int (tc.layout.NIDS_PER_BLOCK + 1)
        · simp only [if_pos hfull] at h
          have hFi : F (to_nid ((s.nvm hn).body i)) := hF s _ _ q ht hfull
          intro j
          by_cases hj : j = i
          · rcases hnext _ _ r h j with h2 | h2
            · right
              rw [h2, hj]
              exact ⟨by simp [set_nid, node_store, to_nid], hFi⟩
            · right
              rw [hj] at h2 ⊢
              exact ⟨h2.1, hFi⟩
          · have hsame : ((set_nid q.2 hn i 0).nvm hn).body j = (s.nvm hn).body j := by
              simp only [set_nid, node_store, if_true, if_neg hj]
              rw [hp]
            rcases hnext _ _ r h j with h2 | h2
            · exact Or.inl (h2.trans hsame)
            · exact Or.inr ⟨h2.1, hsame ▸ h2.2⟩
        · simp only [if_neg hfull] at h
          by_cases hgo : q.1 ≠ 0 ∧ q.1 ≠ -ENODATA
          · simp only [if_pos hgo, Except.ok.injEq] at h
            rw [← h]
            intro j
            exact Or.inl (by rw [hp])
          · simp only [if_neg hgo] at h
            intro j
            rcases hnext _ _ r h j with h2 | h2
            · exact Or.inl (by rw [h2, hp])
            · exact Or.inr ⟨h2.1, by rw [← hp]; exact h2.2⟩

/-- C23, amended: the value of a `truncate_nodes` call that succeeds on a
non-zero nid.  At depth 2 it is the number of slots from `ofs` on, plus 1 for
the node itself when `ofs` is 0.  At depth 3 it is not a count but the node
offset the call has reached: `nofs` plus the `NIDS_PER_BLOCK * (NIDS_PER_BLOCK
+ 1) + 1` nodes of a whole double-indirect subtree (the slots below `ofs`
included), plus 1 when `ofs` is 0; every child recursion of a successful call
has returned `NIDS_PER_BLOCK + 1`.  And the loop over the children clears a
slot only when the recursion for the nid in it returned `NIDS_PER_BLOCK + 1`
(for any recursion `sub` that leaves the page alone, with `F` the nids for
which it returns that value). -/
theorem truncate_nodes_return_value (c : hmfs_consts) (tc : trunc_consts) (hfit : tc.fits)
    (ni : node_info) (inode : inode)
    -- a call of depth 2
    (s2 : hmfs_sb_info) (nid2 : Nat) (nofs2 ofs2 : Int) (r2 : Int × hmfs_sb_info)
    (hnid2 : nid2 ≠ 0) (hofs2 : 0 ≤ ofs2 ∧ ofs2 ≤ tc.layout.NIDS_PER_BLOCK)
    (h2 : truncate_nodes c tc ni 2 s2 inode nid2 nofs2 ofs2 = .ok r2) (hr2 : 0 ≤ r2.1)
    -- a call of depth 3
    (s3 : hmfs_sb_info) (nid3 : Nat) (nofs3 ofs3 : Int) (r3 : Int × hmfs_sb_info)
    (hnid3 : nid3 ≠ 0) (hofs3 : 0 ≤ ofs3 ∧ ofs3 ≤ tc.layout.NIDS_PER_BLOCK)
    (hnofs3 : 0 ≤ nofs3 ∧
      nofs3 + tc.layout.NIDS_PER_BLOCK * (tc.layout.NIDS_PER_BLOCK + 1) + 2 ≤ 2147483647)
    (h3 : truncate_nodes c tc ni 3 s3 inode nid3 nofs3 ofs3 = .ok r3) (hr3 : 0 ≤ r3.1)
    -- a run of the loop over the children
    (hn : Nat) (sub : hmfs_sb_info → Nat → Int → Except halt (Int × hmfs_sb_info))
    (F : Nat → Prop) (n i : Nat) (s : hmfs_sb_info) (cn : Int)
    (q : Option Int × hmfs_sb_info × Int)
    (hpage : ∀ (s : hmfs_sb_info) (child : Nat) (cn : Int) (q : Int × hmfs_sb_info),
      sub s child cn = .ok q → q.2.nvm hn = s.nvm hn)
    (hF : ∀ (s : hmfs_sb_info) (child : Nat) (cn : Int) (q : Int × hmfs_sb_info),
      sub s child cn = .ok q → q.1 = to_int (tc.layout.NIDS_PER_BLOCK + 1) → F child)
    (hloop : truncate_nodes_indirect tc hn sub n i s cn = .ok q) :
    r2.1 = tc.layout.NIDS_PER_BLOCK - ofs2 + (if ofs2 = 0 then 1 else 0) ∧
    r3.1 = nofs3 + tc.layout.NIDS_PER_BLOCK * (tc.layout.NIDS_PER_BLOCK + 1) + 1
      + (if ofs3 = 0 then 1 else 0) ∧
    ∀ j, (q.2.1.nvm hn).body j = (s.nvm hn).body j ∨
      ((q.2.1.nvm hn).body j = 0 ∧ F (to_nid ((s.nvm hn).body j))) := by
  have hN := hfit.nids
  have hC := hfit.count
  refine ⟨?_, ?_, truncate_nodes_indirect_clears tc hn sub F hpage hF n i s cn q hloop⟩
  · -- depth 2
    rw [truncate_nodes_low c tc ni 2 (by decide)] at h2
    simp only [if_neg hnid2] at h2
    cases hg : (get_new_node c s2 nid2 inode ni).1 with
    | error e =>
      simp only [hg, Except.ok.injEq] at h2
      rw [← h2] at hr2
      rcases get_new_node_effect c s2 nid2 inode ni with ⟨p, _, _, hp⟩ | ⟨e1, he, hneg, _⟩ |
        ⟨hret, _⟩
      · rw [hp] at hg; exact absurd hg (by simp)
      · rw [he] at hg
        simp only [Except.error.injEq] at hg
        rw [← hg] at hr2
        exact absurd hneg (not_lt.mpr hr2)
      · rw [hret] at hg; exact absurd hg (by simp)
    | ok p =>
      simp only [hg] at h2
      have hcast : (((tc.layout.NIDS_PER_BLOCK - ofs2).toNat : Nat) : Int)
          = tc.layout.NIDS_PER_BLOCK - ofs2 := Int.toNat_of_nonneg (by omega)
      cases hb : truncate_nodes_direct c inode p ni (tc.layout.NIDS_PER_BLOCK - ofs2).toNat
          ofs2.toNat (get_new_node c s2 nid2 inode ni).2 0 with
      | error e => simp [hb, truncate_nodes_end] at h2
      | ok w =>
        obtain ⟨a, b⟩ := truncate_nodes_direct_count c inode p ni _ _ _ 0 w (le_refl 0)
          (by rw [hcast]; nlinarith) hb
        obtain ⟨w1, w2, w3⟩ := w
        simp only [hb, truncate_nodes_end] at h2
        cases w1 with
        | some ret =>
          simp only [Except.ok.injEq] at h2
          rw [← h2] at hr2
          exact absurd (b ret rfl).1 (not_lt.mpr hr2)
        | none =>
          have hw3 : w3 = tc.layout.NIDS_PER_BLOCK - ofs2 := by
            have := a rfl
            simp only at this
            rw [this, hcast]; ring
          by_cases hz : ofs2 = 0
          · simp only [if_pos hz] at h2 ⊢
            cases ht : truncate_node c w2 ⟨inode, none, none, nid2, 0⟩ ni with
            | error e => simp [ht] at h2
            | ok v =>
              simp only [ht, Except.ok.injEq] at h2
              rw [← h2, hw3]
              exact to_int_of_fits _ (by omega) (by nlinarith)
          · simp only [if_neg hz, Except.ok.injEq] at h2 ⊢
            rw [← h2, hw3]
            simp
  · -- depth 3
    change truncate_nodes c tc ni (0 + 3) s3 inode nid3 nofs3 ofs3 = .ok r3 at h3
    rw [truncate_nodes_high c tc ni 0] at h3
    simp only [if_neg hnid3] at h3
    cases hg : (get_new_node c s3 nid3 inode ni).1 with
    | error e =>
      simp only [hg, Except.ok.injEq] at h3
      rw [← h3] at hr3
      rcases get_new_node_effect c s3 nid3 inode ni with ⟨p, _, _, hp⟩ | ⟨e1, he, hneg, _⟩ |
        ⟨hret, _⟩
      · rw [hp] at hg; exact absurd hg (by simp)
      · rw [he] at hg
        simp only [Except.error.injEq] at hg
        rw [← hg] at hr3
        exact absurd hneg (not_lt.mpr hr3)
      · rw [hret] at hg; exact absurd hg (by simp)
    | ok p =>
      simp only [hg] at h3
      have hcast : (((tc.layout.NIDS_PER_BLOCK - ofs3).toNat : Nat) : Int)
          = tc.layout.NIDS_PER_BLOCK - ofs3 := Int.toNat_of_nonneg (by omega)
      have hprod : 0 ≤ ofs3 * (tc.layout.NIDS_PER_BLOCK + 1) := mul_nonneg hofs3.1 (by omega)
      have hprod2 : 0 ≤ (tc.layout.NIDS_PER_BLOCK - ofs3) * (tc.layout.NIDS_PER_BLOCK + 1) :=
        mul_nonneg (by omega) (by omega)
      have hsplit : ofs3 * (tc.layout.NIDS_PER_BLOCK + 1)
          + (tc.layout.NIDS_PER_BLOCK - ofs3) * (tc.layout.NIDS_PER_BLOCK + 1)
          = tc.layout.NIDS_PER_BLOCK * (tc.layout.NIDS_PER_BLOCK + 1) := by ring
      have hcn : to_uint (nofs3 + ofs3 * (tc.layout.NIDS_PER_BLOCK + 1) + 1)
          = nofs3 + ofs3 * (tc.layout.NIDS_PER_BLOCK + 1) + 1 := by
        unfold to_uint
        exact Int.emod_eq_of_lt (by omega) (by omega)
      rw [hcn] at h3
      cases hb : truncate_nodes_indirect tc p
          (fun s child child_nofs => truncate_nodes c tc ni (0 + 2) s inode child child_nofs 0)
          (tc.layout.NIDS_PER_BLOCK - ofs3).toNat ofs3.toNat (get_new_node c s3 nid3 inode ni).2
          (nofs3 + ofs3 * (tc.layout.NIDS_PER_BLOCK + 1) + 1) with
      | error e => simp [hb, truncate_nodes_end] at h3
      | ok w =>
        obtain ⟨a, b⟩ := truncate_nodes_indirect_count tc p _ (by omega)
          (to_int_nids_succ tc hfit)
          (fun s0 child nofs0 q0 h4 =>
            truncate_nodes_whole_value c tc hfit ni (0 + 2) (by omega) s0 inode child nofs0 q0
              h4)
          _ _ _ _ w (by omega) (by rw [hcast]; omega) hb
        obtain ⟨w1, w2, w3⟩ := w
        simp only [hb, truncate_nodes_end] at h3
        cases w1 with
        | some ret =>
          simp only [Except.ok.injEq] at h3
          rw [← h3] at hr3
          exact absurd (b ret rfl) (not_lt.mpr hr3)
        | none =>
          have hw3 : w3 = nofs3 + tc.layout.NIDS_PER_BLOCK * (tc.layout.NIDS_PER_BLOCK + 1)
              + 1 := by
            have := a rfl
            simp only at this
            rw [this, hcast]; omega
          have hti : to_int w3 = w3 := to_int_of_fits _ (by omega) (by omega)
          by_cases hz : ofs3 = 0
          · simp only [if_pos hz] at h3 ⊢
            cases ht : truncate_node c w2 ⟨inode, none, none, nid3, 0⟩ ni with
            | error e => simp [ht] at h3
            | ok v =>
              simp only [ht, Except.ok.injEq] at h3
              rw [← h3, hti, hw3]
              exact to_int_of_fits _ (by omega) (by omega)
          · simp only [if_neg hz, Except.ok.injEq] at h3 ⊢
            rw [← h3, hti, hw3]
            simp

/-- Witness for C23 in the sample tree (2 nids per node): `truncate_nodes` of
depth 2 on the indirect node 22 from child 0 on returns 3; of depth 3 on the
double-indirect node 20 from child 1 on, called with `nofs` 9, it returns 16;
and the loop over the two children of node 20, run with a recursion that
returns 3 for the child 21 only, clears the slot of 21 and no other. -/
theorem truncate_nodes_return_value_witness :
    sample_trunc_consts.fits ∧
    ∃ (r2 r3 : Int × hmfs_sb_info) (q : Option Int × hmfs_sb_info × Int),
      truncate_nodes sample_consts sample_trunc_consts zero_ni 2 sample_sb_tree sample_inode
        22 5 0 = .ok r2 ∧
      truncate_nodes sample_consts sample_trunc_consts zero_ni 3 sample_sb_tree sample_inode
        20 9 1 = .ok r3 ∧
      truncate_nodes_indirect sample_trunc_consts 69632
        (fun s child _ => .ok (if child = 21 then 3 else 0, s)) 2 0 sample_sb_tree 0 = .ok q ∧
      (r2.1 = sample_trunc_consts.layout.NIDS_PER_BLOCK - 0 + (if (0 : Int) = 0 then 1 else 0) ∧
        r3.1 = 9 + sample_trunc_consts.layout.NIDS_PER_BLOCK
            * (sample_trunc_consts.layout.NIDS_PER_BLOCK + 1) + 1
          + (if (1 : Int) = 0 then 1 else 0) ∧
        ∀ j, (q.2.1.nvm 69632).body j = (sample_sb_tree.nvm 69632).body j ∨
          ((q.2.1.nvm 69632).body j = 0 ∧ to_nid ((sample_sb_tree.nvm 69632).body j) = 21)) :=
  ⟨sample_trunc_consts_fits, _, _, _, rfl, rfl, rfl,
    truncate_nodes_return_value sample_consts sample_trunc_consts sample_trunc_consts_fits
      zero_ni sample_inode
      sample_sb_tree 22 5 0 _ (by decide) (by decide) rfl (by decide)
      sample_sb_tree 20 9 1 _ (by decide) (by decide) (by decide) rfl (by decide)
      69632 (fun s child _ => .ok (if child = 21 then 3 else 0, s)) (fun k => k = 21) 2 0
      sample_sb_tree 0 _
      (fun s child cn q h => by
        simp only [Except.ok.injEq] at h
        rw [← h])
      (fun s child cn q h hq => by
        simp only [Except.ok.injEq] at h
        rw [← h] at hq
        by_contra hne
        simp only [if_neg hne] at hq
        exact absurd hq (by decide))
      rfl⟩

/-- Counterexample to C23 as stated: in the sample tree (2 nids per node)
`truncate_nodes` of depth 3 on the double-indirect node 20 from child 1 on,
whose one child from there on is freed whole, returns 16 when it is called with
`nofs` 9 and 7 when it is called with `nofs` 0, where
`(NIDS_PER_BLOCK - ofs) * (NIDS_PER_BLOCK + 1)` is 3. -/
theorem truncate_nodes_return_depends_on_nofs :
    (truncate_nodes sample_consts sample_trunc_consts zero_ni 3 sample_sb_tree sample_inode
        20 9 1).map Prod.fst = .ok 16 ∧
    (truncate_nodes sample_consts sample_trunc_consts zero_ni 3 sample_sb_tree sample_inode
        20 0 1).map Prod.fst = .ok 7 ∧
    (sample_trunc_consts.layout.NIDS_PER_BLOCK - 1)
      * (sample_trunc_consts.layout.NIDS_PER_BLOCK + 1) = 3 :=
  ⟨rfl, rfl, rfl⟩

end Hmfs
